import Mathlib

/-!
# YasminOS kernel core (`src/os/yos.c`): embedding and verified properties

The kernel keeps its task control blocks (TCBs) and task stacks in one raw
region that `createTask` carves with its own pointer arithmetic, so the
embedding keeps that region as a flat memory of 32-bit word cells indexed by
byte address.  Objects that C code declares on its own (the ready list, events,
mutexes) are kept as typed records; what a system call stores through an
out-pointer goes to the flat memory at that address.

Pointers are natural numbers, `0` is the null pointer.
-/

namespace YOS

/-! ## Memory and the TCB layout -/

/-- Memory: one word cell per byte address (word accesses are at mutually
aligned addresses; a byte access acts on the least significant byte of the
cell at its address, the target being little-endian). -/
abbrev Mem := Nat → Nat

/-- Point update of a map from addresses. -/
def upd {α : Type} (f : Nat → α) (a : Nat) (v : α) : Nat → α :=
  fun x => if x = a then v else f x

/-- Modelled from the spec: `yos.h` (the declaration of `YOS_Task_t`) is not
among the sources.  The TCB is two pointers and one bit-field word on the
32-bit target: `tPsp` at offset 0, `tNext` at offset 4, and a word at offset 8
whose bit 0 is `tSignal` and bit 1 is `tWait`; `sizeof(YOS_Task_t)` is 12. -/
def sizeofTask : Nat := 12

/-- Field `tPsp` of the TCB at `t` (modelled layout: offset 0). -/
def tPsp (m : Mem) (t : Nat) : Nat := m t

/-- Field `tNext` of the TCB at `t` (modelled layout: offset 4). -/
def tNext (m : Mem) (t : Nat) : Nat := m (t + 4)

/-- Bit-field `tSignal` of the TCB at `t` (modelled layout: offset 8, bit 0). -/
def tSignal (m : Mem) (t : Nat) : Nat := m (t + 8) % 2

/-- Bit-field `tWait` of the TCB at `t` (modelled layout: offset 8, bit 1). -/
def tWait (m : Mem) (t : Nat) : Nat := m (t + 8) / 2 % 2

/-- A byte store `*(BYTE *)a = v`: the least significant byte of the cell at `a`
is replaced, the other bytes of the cell are kept. -/
def storeByte (m : Mem) (a v : Nat) : Mem := upd m a (m a - m a % 256 + v % 256)

/-- The byte at address `a`. -/
def loadByte (m : Mem) (a : Nat) : Nat := m a % 256

/-- Assignment `t->tPsp = v`. -/
def set_tPsp (m : Mem) (t v : Nat) : Mem := upd m t v

/-- Assignment `t->tNext = v`. -/
def set_tNext (m : Mem) (t v : Nat) : Mem := upd m (t + 4) v

/-- Assignment `t->tSignal = b` (a one-bit field: only bit 0 of `b` is kept,
the other bits of the word are preserved). -/
def set_tSignal (m : Mem) (t b : Nat) : Mem :=
  upd m (t + 8) (m (t + 8) - m (t + 8) % 2 + b % 2)

/-- Assignment `t->tWait = b` (a one-bit field: only bit 0 of `b` is kept,
the other bits of the word are preserved). -/
def set_tWait (m : Mem) (t b : Nat) : Mem :=
  upd m (t + 8) (m (t + 8) - 2 * (m (t + 8) / 2 % 2) + 2 * (b % 2))

/-! ## Kernel records -/

/-- The C struct `YOS_TaskList_t`: head and tail pointers of an intrusive FIFO. -/
structure YOS_TaskList_t where
  tlHead : Nat
  tlTail : Nat
deriving DecidableEq

/-- The C struct `YOS_Event_t`: flag set and wait queue. -/
structure YOS_Event_t where
  eFlagSet : Nat
  eTaskQueue : YOS_TaskList_t
deriving DecidableEq

/-- The C struct `YOS_Mutex_t`: owner and wait queue. -/
structure YOS_Mutex_t where
  mOwner : Nat
  mTaskQueue : YOS_TaskList_t
deriving DecidableEq

/-- Conditional compilation of `yos.c`: the two preprocessor symbols tested by
the file, and the macro `TASK_SIZE` (declared in the absent `yos.h`). -/
structure Build where
  USE_IDLE_TASK : Bool
  USE_IDLE : Bool
  TASK_SIZE : Int

/-- The kernel globals of `yos.c`, the memory `mem` (task memory and the
callers' variables written through out-pointers), the typed objects reached
through system-call arguments (`event`, `mutex`, addressed by their pointers),
the memory-mapped registers the file touches and the interrupt mask. -/
structure Kernel where
  mem : Mem
  sTaskMemory : Nat
  sTaskMemoryLimit : Nat
  sSystemTicks : Nat
  sTaskNum : Int
  sTaskList : YOS_TaskList_t
  sCurrentTask : Nat
  sLeavingTask : Nat
  sIdleTask : Nat
  sLockCount : Int
  sDisableIrqCount : Int
  event : Nat → YOS_Event_t
  mutex : Nat → YOS_Mutex_t
  ICSR : Nat
  SCR : Nat
  CSR : Nat
  RVR : Nat
  CVR : Nat
  SHPR3 : Nat
  irqMasked : Bool

/-! ## Task queues -/

/-- `taskEnqueue(list, task)`: returns the memory and the list record after the
call. -/
def taskEnqueue (m : Mem) (list : YOS_TaskList_t) (task : Nat) : Mem × YOS_TaskList_t :=
  if list.tlHead = 0 then
    (set_tNext m task 0, { tlHead := task, tlTail := task })
  else
    (set_tNext (set_tNext m list.tlTail task) task 0, { list with tlTail := task })

/-- `taskDequeue(list)`: returns the list record after the call and the
returned task pointer. -/
def taskDequeue (m : Mem) (list : YOS_TaskList_t) : YOS_TaskList_t × Nat :=
  let task := list.tlHead
  if task ≠ 0 then ({ list with tlHead := tNext m task }, task) else (list, task)

/-- The `tNext` links starting at pointer `h` run through exactly the tasks of
`l` and then reach pointer `e`. -/
def seg (m : Mem) : Nat → List Nat → Nat → Prop
  | h, [], e => h = e
  | h, t :: ts, e => h = t ∧ t ≠ 0 ∧ seg m (tNext m t) ts e

instance segDecidable (m : Mem) : (h : Nat) → (l : List Nat) → (e : Nat) → Decidable (seg m h l e)
  | h, [], e => (inferInstance : Decidable (h = e))
  | h, t :: ts, e =>
    have := segDecidable m (tNext m t) ts e
    (inferInstance : Decidable (h = t ∧ t ≠ 0 ∧ seg m (tNext m t) ts e))

/-- Well-formed queue: the list record `q` holds exactly the distinct tasks `l`
in this order, null-terminated; the tail field is constrained only when the
queue is non-empty. -/
def Holds (m : Mem) (q : YOS_TaskList_t) (l : List Nat) : Prop :=
  seg m q.tlHead l 0 ∧ l.Nodup ∧ (l = [] ∨ l.getLast? = some q.tlTail)

instance holdsDecidable (m : Mem) (q : YOS_TaskList_t) (l : List Nat) : Decidable (Holds m q l) :=
  (inferInstance : Decidable (_ ∧ _ ∧ _))

/-- Enqueue the tasks of `ts` one after the other. -/
def enqueueAll (m : Mem) (q : YOS_TaskList_t) : List Nat → Mem × YOS_TaskList_t
  | [] => (m, q)
  | t :: ts => enqueueAll (taskEnqueue m q t).1 (taskEnqueue m q t).2 ts

/-- Call `taskDequeue` `n` times; returns the final list record and the returned
pointers in call order. -/
def dequeueN (m : Mem) (q : YOS_TaskList_t) : Nat → YOS_TaskList_t × List Nat
  | 0 => (q, [])
  | n + 1 =>
    let r := dequeueN m (taskDequeue m q).1 n
    (r.1, (taskDequeue m q).2 :: r.2)

/-! ## Scheduler core -/

/-- Modelled from the spec: `cortex_m0.h` is not among the sources.  The
constant `CTX_SCBICSR_PendSVSet` is the PENDSVSET bit (bit 28) of ICSR. -/
def CTX_SCBICSR_PendSVSet : Nat := 1 <<< 28

/-- `performReschedule()`: set the pending-scheduler bit of ICSR. -/
def performReschedule (k : Kernel) : Kernel :=
  { k with ICSR := k.ICSR ||| CTX_SCBICSR_PendSVSet }

/-- `taskEnqueue(&sTaskList, task)` on the kernel state. -/
def readyEnqueue (k : Kernel) (task : Nat) : Kernel :=
  { k with mem := (taskEnqueue k.mem k.sTaskList task).1,
           sTaskList := (taskEnqueue k.mem k.sTaskList task).2 }

/-- `getNextTask()`.  The guard on the idle task is compiled under the symbol
`USE_IDLE`, the fallback to the idle task under `USE_IDLE_TASK`. -/
def getNextTask (b : Build) (k : Kernel) : Kernel :=
  let k1 :=
    if tWait k.mem k.sCurrentTask = 0 then
      if b.USE_IDLE && k.sCurrentTask == k.sIdleTask then k
      else readyEnqueue k k.sCurrentTask
    else k
  let k2 := { k1 with sLeavingTask := k1.sCurrentTask }
  let r := taskDequeue k2.mem k2.sTaskList
  let k3 := { k2 with sTaskList := r.1, sCurrentTask := r.2 }
  if b.USE_IDLE_TASK && k3.sCurrentTask == 0 then
    { k3 with sCurrentTask := k3.sIdleTask }
  else k3

/-- Run `getNextTask` `n` times in a row. -/
def pickNext (b : Build) (k : Kernel) : Nat → Kernel
  | 0 => k
  | n + 1 => getNextTask b (pickNext b k n)

/-! ## System-call dispatcher -/

/-- The operation codes `DO_...` handled by `svcDispatch` (their numeric values
are in the absent `yos.h`; any other value reaches `ASSERT(false)`). -/
inductive SvcId where
  | DO_WAIT
  | DO_SIGNAL
  | DO_RESCHEDULE
  | DO_SIGNAL_EVENT
  | DO_WAIT_EVENT
  | DO_RESUME_EVENT
  | DO_QUEUE_MUTEX
  | DO_UNQUEUE_MUTEX
  | DO_TRY_MUTEX
deriving DecidableEq

/-- `svcDispatch(par1, par2, svcid)`.  Events and mutexes are addressed by
`par1`.  RESUME_EVENT stores the flag word and TRY_MUTEX stores the `bool` (of
`<stdbool.h>`: one byte) in memory at the address `par2`, whatever lies there.
The event flag set is a 32-bit word. -/
def svcDispatch (k : Kernel) (par1 par2 : Nat) : SvcId → Kernel
  | .DO_WAIT =>
    let m1 := set_tSignal k.mem k.sCurrentTask 1
    let m2 := set_tWait m1 k.sCurrentTask 1
    performReschedule { k with mem := m2 }
  | .DO_SIGNAL =>
    if tSignal k.mem par1 = 1 then
      let m1 := set_tSignal k.mem par1 0
      let m2 := set_tWait m1 par1 0
      readyEnqueue { k with mem := m2 } par1
    else k
  | .DO_RESCHEDULE => performReschedule k
  | .DO_SIGNAL_EVENT =>
    let e := k.event par1
    let flags := (e.eFlagSet ||| (1 <<< par2)) % 2 ^ 32
    let r := taskDequeue k.mem e.eTaskQueue
    let k1 := { k with event := upd k.event par1 { eFlagSet := flags, eTaskQueue := r.1 } }
    if r.2 ≠ 0 then
      readyEnqueue { k1 with mem := set_tWait k1.mem r.2 0 } r.2
    else k1
  | .DO_WAIT_EVENT =>
    let e := k.event par1
    if e.eFlagSet = 0 then
      let m1 := set_tWait k.mem k.sCurrentTask 1
      let r := taskEnqueue m1 e.eTaskQueue k.sCurrentTask
      performReschedule
        { k with mem := r.1, event := upd k.event par1 { e with eTaskQueue := r.2 } }
    else k
  | .DO_RESUME_EVENT =>
    let e := k.event par1
    { k with mem := upd k.mem par2 e.eFlagSet,
             event := upd k.event par1 { e with eFlagSet := 0 } }
  | .DO_QUEUE_MUTEX =>
    let mx := k.mutex par1
    if mx.mOwner = 0 then
      { k with mutex := upd k.mutex par1 { mx with mOwner := k.sCurrentTask } }
    else
      let r := taskEnqueue k.mem mx.mTaskQueue k.sCurrentTask
      let m2 := set_tWait r.1 k.sCurrentTask 1
      performReschedule
        { k with mem := m2, mutex := upd k.mutex par1 { mx with mTaskQueue := r.2 } }
  | .DO_UNQUEUE_MUTEX =>
    let mx := k.mutex par1
    let r := taskDequeue k.mem mx.mTaskQueue
    let k1 := { k with mutex := upd k.mutex par1 { mOwner := r.2, mTaskQueue := r.1 } }
    if r.2 ≠ 0 then
      performReschedule (readyEnqueue { k1 with mem := set_tWait k1.mem r.2 0 } r.2)
    else k1
  | .DO_TRY_MUTEX =>
    let mx := k.mutex par1
    let b : Bool := if mx.mOwner ≠ 0 then false else true
    let k1 :=
      if b = true then
        { k with mutex := upd k.mutex par1 { mx with mOwner := k.sCurrentTask } }
      else k
    { k1 with mem := storeByte k1.mem par2 (if b then 1 else 0) }

/-- `YOS_MutexTryAcquire(mutex)`: the local `b` (one byte at address `pb` of the
caller's stack) is set to false, the TRY_MUTEX call is made with `&b`, and `b`
is returned. -/
def YOS_MutexTryAcquire (k : Kernel) (mutex pb : Nat) : Kernel × Bool :=
  let k0 := { k with mem := storeByte k.mem pb 0 }
  let k1 := svcDispatch k0 mutex pb .DO_TRY_MUTEX
  (k1, loadByte k1.mem pb != 0)

/-! ## Task creation -/

/-- A C `int`: the value of `n` wrapped to 32-bit two's complement. -/
def int32 (n : Int) : Int := (n + 2 ^ 31) % 2 ^ 32 - 2 ^ 31

/-- A 32-bit pointer: the value of `n` wrapped to the address space. -/
def ptr32 (n : Int) : Nat := (n % 2 ^ 32).toNat

/-- The loop `for (i = 0; i < n; i++) ((BYTE*)base)[i] = 0;`.  Each byte store
clears the cell at its address; the word cells of the block are cleared since
all four of their bytes are. -/
def zeroFill (m : Mem) (base : Nat) : Nat → Mem
  | 0 => m
  | n + 1 => upd (zeroFill m base n) (ptr32 (base + n)) 0

/-- The stack size after the defaulting and rounding steps of `createTask`
(before the TCB size is added). -/
def roundedSize (b : Build) (size : Int) : Int :=
  let size1 := if size < 0 then b.TASK_SIZE else size
  if size1 % 4 ≠ 0 then
    let size2 := int32 (size1 + 4)
    size2 - size2 % 4
  else size1

/-- `createTask(code, size)`: returns the kernel state after the call and the
returned pointer (`0` when no task was created).  `int` arithmetic wraps to 32
bits (`int32`), pointer arithmetic wraps to the 32-bit address space (`ptr32`),
the pointer comparison is unsigned. -/
def createTask (b : Build) (k : Kernel) (code : Nat) (size : Int) : Kernel × Nat :=
  let size3 := int32 (roundedSize b size + sizeofTask)
  let newTaskStack := k.sTaskMemory
  let newTaskMemory := ptr32 (k.sTaskMemory - size3)
  if newTaskMemory > k.sTaskMemoryLimit then
    let newTask := newTaskMemory
    let m1 := zeroFill k.mem newTask size3.toNat
    let newTaskStack := ptr32 (newTaskStack - 64)
    let m2 := upd m1 (ptr32 (newTaskStack + 56)) code
    let m3 := upd m2 (ptr32 (newTaskStack + 60)) 0x1000000
    let m4 := set_tPsp m3 newTask newTaskStack
    let m5 := set_tSignal m4 newTask 0
    let m6 := set_tWait m5 newTask 0
    ({ k with sTaskMemory := newTaskMemory, mem := m6 }, newTask)
  else (k, 0)

/-- `YOS_AddTask(code, stackSize)`. -/
def YOS_AddTask (b : Build) (k : Kernel) (code : Nat) (stackSize : Int) : Kernel × Nat :=
  let r := createTask b k code stackSize
  if r.2 ≠ 0 then
    let k1 := readyEnqueue r.1 r.2
    ({ k1 with sTaskNum := int32 (k1.sTaskNum + 1) }, r.2)
  else (r.1, r.2)

/-- `YOS_InitOs(taskMemory, taskTopMemory)`. -/
def YOS_InitOs (k : Kernel) (taskMemory taskTopMemory : Nat) : Kernel :=
  { k with sTaskMemory := taskTopMemory,
           sTaskMemoryLimit := taskMemory,
           RVR := 0x00030D3F,
           CVR := 0,
           CSR := 6,
           SHPR3 := (3 <<< 22) ||| (3 <<< 30) }

/-- Call `createTask` for each (entry, stack size) request of the list, in order. -/
def createAll (b : Build) (k : Kernel) : List (Nat × Int) → Kernel
  | [] => k
  | c :: cs => createAll b (createTask b k c.1 c.2).1 cs

/-! ## Predicates and scenario states -/

/-- The TCBs at the addresses of `l` are pairwise disjoint 12-byte objects (so the
tasks are in particular distinct). -/
def TcbSep (l : List Nat) : Prop :=
  l.Pairwise (fun u v => u + sizeofTask ≤ v ∨ v + sizeofTask ≤ u)

instance tcbSepDecidable (l : List Nat) : Decidable (TcbSep l) :=
  (inferInstance : Decidable (List.Pairwise _ l))

/-- The kernel state at reset: every static of `yos.c` is zero-initialised, the
memory and registers are taken as zero. -/
def kernel0 : Kernel :=
  { mem := fun _ => 0, sTaskMemory := 0, sTaskMemoryLimit := 0, sSystemTicks := 0,
    sTaskNum := 0, sTaskList := { tlHead := 0, tlTail := 0 }, sCurrentTask := 0,
    sLeavingTask := 0, sIdleTask := 0, sLockCount := 0, sDisableIrqCount := 0,
    event := fun _ => { eFlagSet := 0, eTaskQueue := { tlHead := 0, tlTail := 0 } },
    mutex := fun _ => { mOwner := 0, mTaskQueue := { tlHead := 0, tlTail := 0 } },
    ICSR := 0, SCR := 0, CSR := 0, RVR := 0, CVR := 0, SHPR3 := 0,
    irqMasked := false }

/-- A build without idle task (neither symbol defined), `TASK_SIZE` 128. -/
def buildNoIdle : Build := { USE_IDLE_TASK := false, USE_IDLE := false, TASK_SIZE := 128 }

/-- Three tasks at 16, 32 and 48: task 16 runs, 32 and 48 are ready. -/
def kernelRR : Kernel :=
  { kernel0 with mem := upd (fun _ => 0) 36 48, sCurrentTask := 16,
                 sTaskList := { tlHead := 32, tlTail := 48 } }

/-- The tasks of `ws` call QUEUE_MUTEX on the mutex at `mx` one after the other,
each being the current task at its call. -/
def queueAll (k : Kernel) (mx : Nat) : List Nat → Kernel
  | [] => k
  | w :: ws => queueAll (svcDispatch { k with sCurrentTask := w } mx 0 .DO_QUEUE_MUTEX) mx ws

/-- `n` successive UNQUEUE_MUTEX calls on the mutex at `mx`. -/
def unqueueN (k : Kernel) (mx : Nat) : Nat → Kernel
  | 0 => k
  | n + 1 => svcDispatch (unqueueN k mx n) mx 0 .DO_UNQUEUE_MUTEX

/-- The mutex at address 100 is owned by task 16; nothing is queued. -/
def kernelMx : Kernel :=
  { kernel0 with
    mutex := upd kernel0.mutex 100 { mOwner := 16, mTaskQueue := { tlHead := 0, tlTail := 0 } } }

/-- SIGNAL_EVENT on the event at `ev` for each flag index of `is`, in order. -/
def signalAll (k : Kernel) (ev : Nat) : List Nat → Kernel
  | [] => k
  | i :: is => signalAll (svcDispatch k ev i .DO_SIGNAL_EVENT) ev is

/-- The bitwise OR of `1 << i` over the indices of `is`, on top of `a`. -/
def orFlags (a : Nat) (is : List Nat) : Nat := is.foldl (fun acc i => acc ||| (1 <<< i)) a

/-- An allocator state whose region is exactly one zero-size task large:
limit 1000, top 1012. -/
def kernelTight : Kernel := { kernel0 with sTaskMemory := 1012, sTaskMemoryLimit := 1000 }

/-- A 512-byte task-memory region at the start of SRAM: limit `0x20000000`,
top `0x20000200`. -/
def kernel512 : Kernel := YOS_InitOs kernel0 0x20000000 0x20000200

/-- Call `YOS_AddTask` for each (entry, stack size) request of the list, in
order; returns the final state and the returned pointers in call order. -/
def addAll (b : Build) (k : Kernel) : List (Nat × Int) → Kernel × List Nat
  | [] => (k, [])
  | c :: cs =>
    let r := addAll b (YOS_AddTask b k c.1 c.2).1 cs
    (r.1, (YOS_AddTask b k c.1 c.2).2 :: r.2)

/-- Task 16 has executed WAIT (signal and wait bits set, word 3 at its flag
cell); task 32 is on the ready queue. -/
def kernelSig : Kernel :=
  { kernel0 with mem := upd (fun _ => 0) 24 3, sCurrentTask := 48,
                 sTaskList := { tlHead := 32, tlTail := 32 } }

/-! ## Context save / restore -/

/-- The architecture selected at compile time (`__ARCH_V6M__` or
`__ARCH_V7M__`). -/
inductive Arch where
  | v6m
  | v7m
deriving DecidableEq

/-- The processor registers the kernel works with: the core registers, indexed
by their number, and the process stack pointer. -/
structure Cpu where
  r : Nat → Nat
  psp : Nat

/-- The instructions occurring in `save_context` and `restore_context`:
`mrs rd,psp`, `msr psp,rn`, `sub rd,#imm`, `add rd,#imm`, `mov rd,rm`,
`stm rn!,{regs}`, `stmdb rn!,{regs}`, `ldm rn!,{regs}` and `bx lr`. -/
inductive Instr where
  | mrs_psp (rd : Nat)
  | msr_psp (rn : Nat)
  | sub_imm (rd imm : Nat)
  | add_imm (rd imm : Nat)
  | mov (rd rm : Nat)
  | stm (rn : Nat) (regs : List Nat)
  | stmdb (rn : Nat) (regs : List Nat)
  | ldm (rn : Nat) (regs : List Nat)
  | bx_lr

/-- Store the registers of the list at ascending word addresses from `addr`. -/
def storeRegs (c : Cpu) : Mem → Nat → List Nat → Mem
  | m, _, [] => m
  | m, addr, x :: xs => storeRegs c (upd m addr (c.r x)) (ptr32 (addr + 4)) xs

/-- Load the registers of the list from ascending word addresses from `addr`. -/
def loadRegs (m : Mem) : Cpu → Nat → List Nat → Cpu
  | c, _, [] => c
  | c, addr, x :: xs => loadRegs m { c with r := upd c.r x (m addr) } (ptr32 (addr + 4)) xs

/-- Execute one instruction on memory and registers (32-bit address
arithmetic; the base register of a load/store multiple is written back). -/
def exec (s : Mem × Cpu) : Instr → Mem × Cpu
  | .mrs_psp rd => (s.1, { s.2 with r := upd s.2.r rd s.2.psp })
  | .msr_psp rn => (s.1, { s.2 with psp := s.2.r rn })
  | .sub_imm rd imm => (s.1, { s.2 with r := upd s.2.r rd (ptr32 ((s.2.r rd : Int) - imm)) })
  | .add_imm rd imm => (s.1, { s.2 with r := upd s.2.r rd (ptr32 ((s.2.r rd : Int) + imm)) })
  | .mov rd rm => (s.1, { s.2 with r := upd s.2.r rd (s.2.r rm) })
  | .stm rn regs =>
    (storeRegs s.2 s.1 (s.2.r rn) regs,
     { s.2 with r := upd s.2.r rn (ptr32 ((s.2.r rn : Int) + 4 * regs.length)) })
  | .stmdb rn regs =>
    (storeRegs s.2 s.1 (ptr32 ((s.2.r rn : Int) - 4 * regs.length)) regs,
     { s.2 with r := upd s.2.r rn (ptr32 ((s.2.r rn : Int) - 4 * regs.length)) })
  | .ldm rn regs =>
    (s.1,
     { r := upd (loadRegs s.1 s.2 (s.2.r rn) regs).r rn
              (ptr32 ((s.2.r rn : Int) + 4 * regs.length)),
       psp := s.2.psp })
  | .bx_lr => s

/-- Execute a straight-line instruction sequence. -/
def run (s : Mem × Cpu) : List Instr → Mem × Cpu
  | [] => s
  | i :: is => run (exec s i) is

/-- The body of `save_context` for the selected architecture. -/
def save_context_code : Arch → List Instr
  | .v6m =>
    [.mrs_psp 0, .sub_imm 0 0x20, .msr_psp 0, .stm 0 [4, 5, 6, 7],
     .mov 4 8, .mov 5 9, .mov 6 10, .mov 7 11, .stm 0 [4, 5, 6, 7], .mrs_psp 0, .bx_lr]
  | .v7m =>
    [.mrs_psp 0, .stmdb 0 [4, 5, 6, 7, 8, 9, 10, 11], .msr_psp 0, .bx_lr]

/-- The body of `restore_context` for the selected architecture. -/
def restore_context_code : Arch → List Instr
  | .v6m =>
    [.mov 1 0, .add_imm 0 0x10, .ldm 0 [4, 5, 6, 7],
     .mov 8 4, .mov 9 5, .mov 10 6, .mov 11 7, .mov 0 1, .ldm 0 [4, 5, 6, 7],
     .add_imm 0 0x10, .msr_psp 0, .bx_lr]
  | .v7m =>
    [.ldm 0 [4, 5, 6, 7, 8, 9, 10, 11], .msr_psp 0, .bx_lr]

/-- `save_context()`: the returned pointer is register `r0` of the result. -/
def save_context (a : Arch) (s : Mem × Cpu) : Mem × Cpu := run s (save_context_code a)

/-- `restore_context(psp)`: the argument is passed in `r0`. -/
def restore_context (a : Arch) (s : Mem × Cpu) (psp : Nat) : Mem × Cpu :=
  run (s.1, { s.2 with r := upd s.2.r 0 psp }) (restore_context_code a)

/-! ## Exception handlers, locks and bootstrap -/

/-- Modelled from the spec: `cortex_m0.h` is not among the sources.  The
constant `CTX_SCBSCR_SleepOnExit` is the SLEEPONEXIT bit (bit 1) of SCR. -/
def CTX_SCBSCR_SleepOnExit : Nat := 1 <<< 1

/-- `setSleepOnExit()` (the registers are 32 bits wide). -/
def setSleepOnExit (k : Kernel) : Kernel :=
  { k with SCR := k.SCR ||| CTX_SCBSCR_SleepOnExit,
           CSR := k.CSR &&& (0xFFFFFFFF ^^^ 1) }

/-- `resetSleepOnExit()` (the registers are 32 bits wide). -/
def resetSleepOnExit (k : Kernel) : Kernel :=
  { k with SCR := k.SCR &&& (0xFFFFFFFF ^^^ CTX_SCBSCR_SleepOnExit),
           CSR := k.CSR ||| 1 }

/-- `YOS_SystemTickIrq()`: the tick counter is a 32-bit unsigned word. -/
def YOS_SystemTickIrq (k : Kernel) : Kernel :=
  performReschedule { k with sSystemTicks := (k.sSystemTicks + 1) % 2 ^ 32 }

/-- The context-switch block of `YOS_SchedulerIrq` (entered when the current
task differs from the leaving task): `save_context`, store of the returned
pointer in the leaving TCB when there is one, `restore_context` of the current
task's saved pointer. -/
def contextSwitch (a : Arch) (k : Kernel) (c : Cpu) : Kernel × Cpu :=
  let sv := save_context a (k.mem, c)
  let psp := sv.2.r 0
  let m1 := if k.sLeavingTask ≠ 0 then set_tPsp sv.1 k.sLeavingTask psp else sv.1
  let rs := restore_context a (m1, sv.2) (tPsp m1 k.sCurrentTask)
  ({ k with mem := rs.1 }, rs.2)

/-- `YOS_SchedulerIrq()` on the kernel state and the registers.  `CPSID I` and
`CPSIE I` set and clear the interrupt mask around `getNextTask`; the
sleep-on-exit calls are compiled only when `USE_IDLE_TASK` is not defined. -/
def YOS_SchedulerIrq (b : Build) (a : Arch) (s : Kernel × Cpu) : Kernel × Cpu :=
  if s.1.sLockCount = 0 then
    let k3 := { getNextTask b { s.1 with irqMasked := true } with irqMasked := false }
    if k3.sCurrentTask ≠ 0 then
      let k4 := if b.USE_IDLE_TASK then k3 else resetSleepOnExit k3
      if k4.sCurrentTask ≠ k4.sLeavingTask then contextSwitch a k4 s.2
      else (k4, s.2)
    else
      (if b.USE_IDLE_TASK then k3 else setSleepOnExit k3, s.2)
  else s

/-- `startOsIrq()`: start the tick, take the first task from the ready queue
and restore its context. -/
def startOsIrq (a : Arch) (s : Kernel × Cpu) : Kernel × Cpu :=
  let k1 := { s.1 with CSR := s.1.CSR ||| 1 }
  let d := taskDequeue k1.mem k1.sTaskList
  let k2 := { k1 with sTaskList := d.1, sCurrentTask := d.2 }
  let rs := restore_context a (k2.mem, s.2) (tPsp k2.mem k2.sCurrentTask)
  ({ k2 with mem := rs.1 }, rs.2)

/-- `YOS_DisableIrq()`. -/
def YOS_DisableIrq (k : Kernel) : Kernel :=
  let k1 := if k.sDisableIrqCount = 0 then { k with irqMasked := true } else k
  { k1 with sDisableIrqCount := int32 (k1.sDisableIrqCount + 1) }

/-- `YOS_EnableIrq()`. -/
def YOS_EnableIrq (k : Kernel) : Kernel :=
  let k1 :=
    if k.sDisableIrqCount > 0 then
      { k with sDisableIrqCount := int32 (k.sDisableIrqCount - 1) }
    else k
  if k1.sDisableIrqCount = 0 then { k1 with irqMasked := false } else k1

/-- `YOS_Lock()`. -/
def YOS_Lock (k : Kernel) : Kernel :=
  let k1 := YOS_DisableIrq k
  YOS_EnableIrq { k1 with sLockCount := int32 (k1.sLockCount + 1) }

/-- `YOS_Unlock()`. -/
def YOS_Unlock (k : Kernel) : Kernel :=
  if k.sLockCount > 0 then { k with sLockCount := int32 (k.sLockCount - 1) } else k

/-- A register state with `r(i) = 100 + i` and the process stack pointer at
`0x20000100`. -/
def cpuDemo : Cpu := { r := fun i => 100 + i, psp := 0x20000100 }

/-- The four nesting calls. -/
inductive LockOp where
  | disableIrq
  | enableIrq
  | lock
  | unlock
deriving DecidableEq

/-- Perform one nesting call. -/
def applyOp (k : Kernel) : LockOp → Kernel
  | .disableIrq => YOS_DisableIrq k
  | .enableIrq => YOS_EnableIrq k
  | .lock => YOS_Lock k
  | .unlock => YOS_Unlock k

/-- Perform a sequence of nesting calls, in order. -/
def applyOps (k : Kernel) : List LockOp → Kernel
  | [] => k
  | o :: os => applyOps (applyOp k o) os

/-- A build with the idle task enabled by `USE_IDLE_TASK` only (`USE_IDLE` is
not defined). -/
def buildIdle : Build := { USE_IDLE_TASK := true, USE_IDLE := false, TASK_SIZE := 128 }

/-- The scheduler is locked twice; task 16 runs, tasks 32 and 48 are ready. -/
def kernelLocked : Kernel := { kernelRR with sLockCount := 2 }

/-- The first step of `getNextTask` as a function: the memory and ready list
after the conditional `taskEnqueue(&sTaskList, sCurrentTask)`. -/
def pickQueue (b : Build) (k : Kernel) : Mem × YOS_TaskList_t :=
  if tWait k.mem k.sCurrentTask = 0 then
    if b.USE_IDLE && k.sCurrentTask == k.sIdleTask then (k.mem, k.sTaskList)
    else taskEnqueue k.mem k.sTaskList k.sCurrentTask
  else (k.mem, k.sTaskList)

/-- Task 16 runs but has blocked itself (signal and wait bits set); the ready
queue is empty; the idle-task pointer is 64. -/
def kernelBlocked : Kernel :=
  { kernel0 with mem := upd (fun _ => 0) 24 3, sCurrentTask := 16, sIdleTask := 64 }

/-- The idle task is the TCB at 16 and is the current task; tasks 32 and 48 are
ready. -/
def kernelIdleRuns : Kernel := { kernelRR with sIdleTask := 16 }

/-- The sleeping system: no current task, tasks 32 and 48 on the ready queue,
all other memory zero (in particular the word at address 8). -/
def kernelSleep : Kernel :=
  { kernel0 with mem := upd (fun _ => 0) 36 48, sTaskList := { tlHead := 32, tlTail := 48 } }

/-! ## Queues, tasks and atomic runs -/

/-- The queues of the kernel: the ready queue `sTaskList`, the wait queue of the
event at address `e`, the wait queue of the mutex at address `m`. -/
inductive QId where
  | ready
  | ev (e : Nat)
  | mu (m : Nat)
deriving DecidableEq

/-- The list record of a queue in a kernel state. -/
def queueOf (k : Kernel) : QId → YOS_TaskList_t
  | .ready => k.sTaskList
  | .ev e => (k.event e).eTaskQueue
  | .mu m => (k.mutex m).mTaskQueue

/-- Every queue record of `Q` is a well-formed queue holding the tasks `L q`,
all of them tasks of `T`, and no task is on two queues. -/
def QueuesOk (T : List Nat) (m : Mem) (Q : QId → YOS_TaskList_t) (L : QId → List Nat) : Prop :=
  (∀ q, Holds m (Q q) (L q)) ∧ (∀ q, ∀ t ∈ L q, t ∈ T) ∧
  (∀ q q1 t, t ∈ L q → t ∈ L q1 → q = q1)

/-- The flags of the tasks of `T` agree with the queue contents `L` and the
running task `R` (`0` when no task is running): `R` is on no queue, `tWait` is 0
exactly for the ready tasks and the running task, and a task with `tSignal` set
is on no queue and is not running. -/
def FlagsOk (T : List Nat) (m : Mem) (L : QId → List Nat) (R : Nat) : Prop :=
  (∀ q, R ∉ L q) ∧
  (∀ t ∈ T, (tWait m t = 0 ↔ (t ∈ L .ready ∨ t = R))) ∧
  (∀ t ∈ T, tSignal m t = 1 → (∀ q, t ∉ L q) ∧ t ≠ R)

/-- Queue and flag consistency of a memory and a family of queue records. -/
def QInv (T : List Nat) (m : Mem) (Q : QId → YOS_TaskList_t) (R : Nat) : Prop :=
  ∃ L, QueuesOk T m Q L ∧ FlagsOk T m L R

/-- Consistency of a kernel state with the created tasks `T` and the running
task `R`: the TCBs are pairwise disjoint, non-null and above the allocator top,
the scheduler is not locked, and queues and flags are consistent. -/
def InvR (k : Kernel) (T : List Nat) (R : Nat) : Prop :=
  TcbSep T ∧ (∀ t ∈ T, t ≠ 0) ∧ (∀ t ∈ T, k.sTaskMemory ≤ t) ∧ k.sTaskMemory < 2 ^ 32 ∧
  k.sLockCount = 0 ∧ (k.sCurrentTask = 0 ∨ k.sCurrentTask ∈ T) ∧
  QInv T k.mem (queueOf k) R

/-- The eight words below the process stack pointer, where the handler saves
r4..r11, lie outside the TCBs of the tasks of `T`. -/
def StackOk (T : List Nat) (c : Cpu) : Prop :=
  ∀ t ∈ T, ∀ i : Nat, i < 8 →
    ptr32 ((c.psp : Int) - 32 + 4 * i) < t ∨ t + sizeofTask ≤ ptr32 ((c.psp : Int) - 32 + 4 * i)

instance stackOkDecidable (T : List Nat) (c : Cpu) : Decidable (StackOk T c) :=
  (inferInstance : Decidable (∀ t ∈ T, ∀ i : Nat, i < 8 → _))

/-- Validity of the arguments of a system call: the task argument of SIGNAL is
a created task, the blocking calls are issued by a task, and the output word of
RESUME_EVENT and the output byte of TRY_MUTEX lie outside the TCBs. -/
def ArgsOk (T : List Nat) (k : Kernel) (par1 par2 : Nat) : SvcId → Prop
  | .DO_SIGNAL => par1 ∈ T
  | .DO_WAIT => k.sCurrentTask ≠ 0
  | .DO_WAIT_EVENT => k.sCurrentTask ≠ 0
  | .DO_QUEUE_MUTEX => k.sCurrentTask ≠ 0
  | .DO_RESUME_EVENT => ∀ t ∈ T, par2 + 4 ≤ t ∨ t + sizeofTask ≤ par2
  | .DO_TRY_MUTEX => ∀ t ∈ T, par2 < t ∨ t + sizeofTask ≤ par2
  | _ => True

instance argsOkDecidable (T : List Nat) (k : Kernel) (par1 par2 : Nat) :
    (id : SvcId) → Decidable (ArgsOk T k par1 par2 id)
  | .DO_SIGNAL => (inferInstance : Decidable (par1 ∈ T))
  | .DO_WAIT => (inferInstance : Decidable (k.sCurrentTask ≠ 0))
  | .DO_WAIT_EVENT => (inferInstance : Decidable (k.sCurrentTask ≠ 0))
  | .DO_QUEUE_MUTEX => (inferInstance : Decidable (k.sCurrentTask ≠ 0))
  | .DO_RESCHEDULE => (inferInstance : Decidable True)
  | .DO_SIGNAL_EVENT => (inferInstance : Decidable True)
  | .DO_RESUME_EVENT =>
    (inferInstance : Decidable (∀ t ∈ T, par2 + 4 ≤ t ∨ t + sizeofTask ≤ par2))
  | .DO_UNQUEUE_MUTEX => (inferInstance : Decidable True)
  | .DO_TRY_MUTEX => (inferInstance : Decidable (∀ t ∈ T, par2 < t ∨ t + sizeofTask ≤ par2))

/-- No task is current, or the current task has not blocked. -/
def Runs (k : Kernel) : Prop := k.sCurrentTask = 0 ∨ tWait k.mem k.sCurrentTask = 0

instance runsDecidable (k : Kernel) : Decidable (Runs k) :=
  (inferInstance : Decidable (_ ∨ _))

/-- Runs of the kernel by atomic steps, with the list of created tasks.  The
steps: init; successful add-task calls whose request does not wrap around the
address space; start; system-call dispatches with valid arguments, a dispatch
that blocks its caller being followed at once by the pending-scheduler
handler; ticks; runs of the handler while a task is current.  This is a
fragment of the kernel's behaviour: it has no dispatch between a blocking
dispatch and the handler run it pends, no handler run while no task is current
(the wake-up from sleep) and no scheduler lock. -/
inductive ReachAtomic (b : Build) (a : Arch) : Kernel → List Nat → Prop
  | init (lo hi : Nat) (h : hi < 2 ^ 32) : ReachAtomic b a (YOS_InitOs kernel0 lo hi) []
  | add (k : Kernel) (T : List Nat) (code : Nat) (size : Int) (h : ReachAtomic b a k T)
      (hs : size < 2 ^ 31) (hts : b.TASK_SIZE < 2 ^ 31) (hr : 0 ≤ roundedSize b size)
      (hfit : roundedSize b size + 12 ≤ k.sTaskMemory)
      (hok : (YOS_AddTask b k code size).2 ≠ 0) :
      ReachAtomic b a (YOS_AddTask b k code size).1 ((YOS_AddTask b k code size).2 :: T)
  | start (k : Kernel) (T : List Nat) (c : Cpu) (h : ReachAtomic b a k T)
      (hc : k.sCurrentTask = 0) :
      ReachAtomic b a (startOsIrq a (k, c)).1 T
  | svc (k : Kernel) (T : List Nat) (par1 par2 : Nat) (id : SvcId) (h : ReachAtomic b a k T)
      (ha : ArgsOk T k par1 par2 id) (hr : Runs (svcDispatch k par1 par2 id)) :
      ReachAtomic b a (svcDispatch k par1 par2 id) T
  | svc_block (k : Kernel) (T : List Nat) (par1 par2 : Nat) (id : SvcId) (c : Cpu)
      (h : ReachAtomic b a k T) (ha : ArgsOk T k par1 par2 id)
      (hr : ¬ Runs (svcDispatch k par1 par2 id)) (hc : StackOk T c) :
      ReachAtomic b a (YOS_SchedulerIrq b a (svcDispatch k par1 par2 id, c)).1 T
  | tick (k : Kernel) (T : List Nat) (h : ReachAtomic b a k T) :
      ReachAtomic b a (YOS_SystemTickIrq k) T
  | sched (k : Kernel) (T : List Nat) (c : Cpu) (h : ReachAtomic b a k T)
      (hc : k.sCurrentTask ≠ 0) (hs : StackOk T c) :
      ReachAtomic b a (YOS_SchedulerIrq b a (k, c)).1 T

/-- Two tasks with 64-byte stacks added after init of the 512-byte region
`[0x20000000, 0x20000200)`: their TCBs are at `0x200001B4` and `0x20000168`. -/
def kernelTwo : Kernel :=
  (YOS_AddTask buildNoIdle (YOS_AddTask buildNoIdle kernel512 0x8000101 64).1 0x8000201 64).1

/-- The state after start from `kernelTwo`: the first task runs, the second is
ready. -/
def kernelRun : Kernel := (startOsIrq .v7m (kernelTwo, cpuDemo)).1

/-- Registers on entry of a handler that interrupts the first task of
`kernelRun` while its stack holds only the hardware-saved frame. -/
def cpuTask : Cpu := { r := fun i => 100 + i, psp := 0x200001E0 }

/-- The state after the first task of `kernelRun` has called WAIT_EVENT on the
event at `0x300` (flag set empty) and the handler has run. -/
def kernelEv : Kernel :=
  (YOS_SchedulerIrq buildNoIdle .v7m (svcDispatch kernelRun 0x300 0 .DO_WAIT_EVENT, cpuTask)).1

/-- From `kernelRun`: the first task calls WAIT and the handler runs (the second
task becomes current); kernel state and registers. -/
def sleepStep1 : Kernel × Cpu :=
  YOS_SchedulerIrq buildNoIdle .v7m (svcDispatch kernelRun 0 0 .DO_WAIT, cpuTask)

/-- From `sleepStep1`: the second task calls WAIT and the handler runs; no task
is ready, the current task becomes absent and the processor sleeps. -/
def sleepStep2 : Kernel × Cpu :=
  YOS_SchedulerIrq buildNoIdle .v7m (svcDispatch sleepStep1.1 0 0 .DO_WAIT, sleepStep1.2)

/-- From the sleeping state: SIGNAL for the first task, then SIGNAL for the
second task (issued by interrupt handlers). -/
def kernelSignalled : Kernel :=
  svcDispatch (svcDispatch sleepStep2.1 0x200001B4 0 .DO_SIGNAL) 0x20000168 0 .DO_SIGNAL

/-- The handler run that wakes the system up from `kernelSignalled`. -/
def wokenStep : Kernel × Cpu :=
  YOS_SchedulerIrq buildNoIdle .v7m (kernelSignalled, sleepStep2.2)

/-- One tick and handler run after the wake-up. -/
def kernelWokenNext : Kernel :=
  (YOS_SchedulerIrq buildNoIdle .v7m (YOS_SystemTickIrq wokenStep.1, wokenStep.2)).1

/-- Three tasks A, B, C (TCBs at `0x200001B4`, `0x20000168`, `0x2000011C`) added
after init, then start: A runs, B and C are ready. -/
def kernelThree : Kernel :=
  (startOsIrq .v7m
    ((YOS_AddTask buildNoIdle
      (YOS_AddTask buildNoIdle (YOS_AddTask buildNoIdle kernel512 0x8000101 64).1
        0x8000201 64).1 0x8000301 64).1, cpuDemo)).1

/-- From `kernelThree`: A calls WAIT_EVENT on the event at `0x300` and the
handler runs (B becomes current); kernel state and registers. -/
def lostStep1 : Kernel × Cpu :=
  YOS_SchedulerIrq buildNoIdle .v7m (svcDispatch kernelThree 0x300 0 .DO_WAIT_EVENT, cpuTask)

/-- From `lostStep1`: B calls WAIT_EVENT on the event at `0x400`; before the
handler runs, SIGNAL_EVENT is dispatched on `0x400` and then on `0x300`. -/
def kernelLostPending : Kernel :=
  svcDispatch
    (svcDispatch (svcDispatch lostStep1.1 0x400 0 .DO_WAIT_EVENT) 0x400 0 .DO_SIGNAL_EVENT)
    0x300 0 .DO_SIGNAL_EVENT

/-- The handler run pended by B's WAIT_EVENT, from `kernelLostPending`. -/
def kernelLost : Kernel :=
  (YOS_SchedulerIrq buildNoIdle .v7m (kernelLostPending, lostStep1.2)).1

/-! ## Lemmas on memory and queues -/

theorem upd_same {α : Type} (f : Nat → α) (a : Nat) (v : α) : upd f a v a = v := by
  simp [upd]

theorem upd_other {α : Type} (f : Nat → α) (a x : Nat) (v : α) (h : x ≠ a) :
    upd f a v x = f x := by
  simp [upd, h]

theorem upd_self_eq {α : Type} (f : Nat → α) (a : Nat) : upd f a (f a) = f := by
  funext x
  by_cases h : x = a
  · subst h; simp [upd]
  · simp [upd, h]

/-- A segment only depends on the `tNext` cells of its members. -/
theorem seg_frame (m m1 : Mem) (l : List Nat) :
    ∀ (h e : Nat), (∀ u ∈ l, m1 (u + 4) = m (u + 4)) → seg m h l e → seg m1 h l e := by
  induction l with
  | nil => intro h e _ hs; exact hs
  | cons t ts ih =>
    intro h e hm hs
    obtain ⟨h1, h2, h3⟩ := hs
    refine ⟨h1, h2, ?_⟩
    have ht : tNext m1 t = tNext m t := hm t (List.mem_cons_self t ts)
    rw [ht]
    exact ih _ _ (fun u hu => hm u (List.mem_cons_of_mem t hu)) h3

theorem seg_append (m : Mem) (l1 l2 : List Nat) :
    ∀ (h e : Nat), seg m h (l1 ++ l2) e ↔ ∃ mid, seg m h l1 mid ∧ seg m mid l2 e := by
  induction l1 with
  | nil =>
    intro h e
    constructor
    · intro hs; exact ⟨h, rfl, hs⟩
    · rintro ⟨mid, h1, h2⟩
      have : h = mid := h1
      subst this; exact h2
  | cons t ts ih =>
    intro h e
    constructor
    · rintro ⟨h1, h2, h3⟩
      obtain ⟨mid, h4, h5⟩ := (ih _ _).1 h3
      exact ⟨mid, ⟨h1, h2, h4⟩, h5⟩
    · rintro ⟨mid, ⟨h1, h2, h4⟩, h5⟩
      exact ⟨h1, h2, (ih _ _).2 ⟨mid, h4, h5⟩⟩

/-- A non-empty well-formed queue ends in its tail field, whose link is null. -/
theorem holds_snoc (m : Mem) (q : YOS_TaskList_t) (init : List Nat) (x : Nat)
    (h : Holds m q (init ++ [x])) :
    seg m q.tlHead init x ∧ x ≠ 0 ∧ tNext m x = 0 ∧ q.tlTail = x ∧ x ∉ init ∧ init.Nodup := by
  obtain ⟨hs, hn, ht⟩ := h
  obtain ⟨mid, h1, h2, h3, h4⟩ := (seg_append m init [x] _ _).1 hs
  subst h2
  have hx : q.tlTail = mid := by
    rcases ht with ht | ht
    · simp at ht
    · simpa using ht.symm
  have hn2 := List.nodup_append.1 hn
  refine ⟨h1, h3, h4, hx, ?_, hn2.1⟩
  intro hmem
  exact hn2.2.2 hmem (List.mem_singleton_self mid)

theorem holds_head_ne (m : Mem) (q : YOS_TaskList_t) (t : Nat) (ts : List Nat)
    (h : Holds m q (t :: ts)) : q.tlHead = t ∧ t ≠ 0 := ⟨h.1.1, h.1.2.1⟩

theorem holds_nil_iff (m : Mem) (q : YOS_TaskList_t) : Holds m q [] ↔ q.tlHead = 0 := by
  simp [Holds, seg]

/-- `taskEnqueue` appends at the tail and clears the link of the new task. -/
theorem taskEnqueue_holds (m : Mem) (q : YOS_TaskList_t) (l : List Nat) (t : Nat)
    (h : Holds m q l) (ht : t ∉ l) (ht0 : t ≠ 0) :
    Holds (taskEnqueue m q t).1 (taskEnqueue m q t).2 (l ++ [t]) ∧
      tNext (taskEnqueue m q t).1 t = 0 := by
  rcases List.eq_nil_or_concat l with hl | ⟨init, x, hl⟩
  · subst hl
    have hh : q.tlHead = 0 := (holds_nil_iff m q).1 h
    simp [taskEnqueue, hh, Holds, seg, set_tNext, tNext, upd, ht0]
  · rw [List.concat_eq_append] at hl
    subst hl
    obtain ⟨h1, hx0, _, htail, hxi, hnd⟩ := holds_snoc m q init x h
    have hne : q.tlHead ≠ 0 := by
      cases init with
      | nil => have : q.tlHead = x := h1; omega
      | cons a as => have := h1.1; have := h1.2.1; omega
    have htx : t ≠ x := by
      intro e; apply ht; simp [e]
    have hti : t ∉ init := by
      intro e; apply ht; simp [e]
    simp only [taskEnqueue, hne, if_false, htail]
    refine ⟨⟨?_, ?_, ?_⟩, ?_⟩
    · rw [List.append_assoc]
      refine (seg_append _ init _ _ _).2 ⟨x, ?_, ?_⟩
      · refine seg_frame m _ init _ _ ?_ h1
        intro u hu
        have hux : u ≠ x := fun e => hxi (e ▸ hu)
        have hut : u ≠ t := fun e => hti (e ▸ hu)
        simp [set_tNext, upd, hux, hut]
      · have hxt : x ≠ t := fun e => htx e.symm
        simp [seg, set_tNext, tNext, upd, hx0, ht0, hxt]
    · exact List.nodup_append.2 ⟨h.2.1, List.nodup_singleton t,
        fun a ha hb => ht (by rw [List.mem_singleton] at hb; exact hb ▸ ha)⟩
    · right; simp
    · simp [set_tNext, tNext, upd]

/-- `taskDequeue` removes at the head. -/
theorem taskDequeue_holds (m : Mem) (q : YOS_TaskList_t) (t : Nat) (ts : List Nat)
    (h : Holds m q (t :: ts)) :
    (taskDequeue m q).2 = t ∧ Holds m (taskDequeue m q).1 ts := by
  obtain ⟨⟨h1, h2, h3⟩, hn, ht⟩ := h
  have hne : q.tlHead ≠ 0 := by omega
  simp only [taskDequeue, hne, ne_eq, not_false_eq_true, if_true]
  refine ⟨h1, ?_, (List.nodup_cons.1 hn).2, ?_⟩
  · rw [h1]; exact h3
  · cases ts with
    | nil => left; rfl
    | cons a as =>
      right
      rcases ht with ht | ht
      · simp at ht
      · simpa [List.getLast?_cons_cons] using ht

theorem taskDequeue_empty (m : Mem) (q : YOS_TaskList_t) (h : q.tlHead = 0) :
    taskDequeue m q = (q, 0) := by
  simp [taskDequeue, h]

theorem enqueueAll_holds (ts : List Nat) :
    ∀ (m : Mem) (q : YOS_TaskList_t) (l : List Nat), Holds m q l → (l ++ ts).Nodup →
      (∀ t ∈ ts, t ≠ 0) → Holds (enqueueAll m q ts).1 (enqueueAll m q ts).2 (l ++ ts) := by
  induction ts with
  | nil => intro m q l h _ _; simpa [enqueueAll] using h
  | cons t ts ih =>
    intro m q l h hn h0
    have htl : t ∉ l := by
      intro hmem
      have := (List.nodup_append.1 hn).2.2 hmem (List.mem_cons_self t ts)
      exact this
    have h1 := (taskEnqueue_holds m q l t h htl (h0 t (List.mem_cons_self t ts))).1
    have := ih _ _ (l ++ [t]) h1 (by simpa using hn)
      (fun u hu => h0 u (List.mem_cons_of_mem t hu))
    simpa [enqueueAll] using this

theorem dequeueN_holds (m : Mem) (l : List Nat) :
    ∀ (q : YOS_TaskList_t) (rest : List Nat), Holds m q (l ++ rest) →
      (dequeueN m q l.length).2 = l ∧ Holds m (dequeueN m q l.length).1 rest := by
  induction l with
  | nil => intro q rest h; exact ⟨rfl, h⟩
  | cons t ts ih =>
    intro q rest h
    obtain ⟨h1, h2⟩ := taskDequeue_holds m q t (ts ++ rest) h
    obtain ⟨h3, h4⟩ := ih _ rest h2
    exact ⟨by simp [dequeueN, h1, h3], by simpa [dequeueN] using h4⟩

/-! ## C1: task queues are FIFO -/

/-- C1: task queues are FIFO.  For a well-formed queue `q` holding the distinct
tasks `l` (when `l` is empty the tail field is arbitrary) and a task `t` not in
it: `taskEnqueue` yields a queue holding `l ++ [t]` and clears `t`'s link;
`taskDequeue` on a non-empty queue returns the first task and leaves the rest;
enqueueing any further distinct tasks `ts` and then dequeueing returns `l ++ ts`
in exactly that order and leaves the queue empty; and `taskDequeue` on an empty
queue returns the null pointer and leaves the queue record unchanged. -/
theorem C1_queue_fifo (m : Mem) (q : YOS_TaskList_t) (l : List Nat) (t : Nat)
    (h : Holds m q l) (ht : t ∉ l) (ht0 : t ≠ 0) :
    (Holds (taskEnqueue m q t).1 (taskEnqueue m q t).2 (l ++ [t]) ∧
        tNext (taskEnqueue m q t).1 t = 0) ∧
    (∀ t1 rest, l = t1 :: rest →
        (taskDequeue m q).2 = t1 ∧ Holds m (taskDequeue m q).1 rest) ∧
    (∀ ts : List Nat, (l ++ ts).Nodup → (∀ u ∈ ts, u ≠ 0) →
        (dequeueN (enqueueAll m q ts).1 (enqueueAll m q ts).2 (l ++ ts).length).2 = l ++ ts ∧
        (dequeueN (enqueueAll m q ts).1 (enqueueAll m q ts).2 (l ++ ts).length).1.tlHead = 0) ∧
    (l = [] → taskDequeue m q = (q, 0)) := by
  refine ⟨taskEnqueue_holds m q l t h ht ht0, ?_, ?_, ?_⟩
  · intro t1 rest hl
    subst hl
    exact taskDequeue_holds m q t1 rest h
  · intro ts hn h0
    have h1 := enqueueAll_holds ts m q l h hn h0
    have h2 := dequeueN_holds (enqueueAll m q ts).1 (l ++ ts) (enqueueAll m q ts).2 []
      (by simpa using h1)
    exact ⟨h2.1, (holds_nil_iff _ _).1 h2.2⟩
  · intro hl
    subst hl
    exact taskDequeue_empty m q ((holds_nil_iff m q).1 h)

/-- C1 at a concrete queue: tasks 16 and 32 are queued, task 48 is appended. -/
theorem C1_queue_fifo_witness :
    Holds (upd (fun _ => 0) 20 32) { tlHead := 16, tlTail := 32 } [16, 32] ∧
    Holds (taskEnqueue (upd (fun _ => 0) 20 32) { tlHead := 16, tlTail := 32 } 48).1
      (taskEnqueue (upd (fun _ => 0) 20 32) { tlHead := 16, tlTail := 32 } 48).2 [16, 32, 48] :=
  ⟨by decide,
   (C1_queue_fifo (upd (fun _ => 0) 20 32) { tlHead := 16, tlTail := 32 } [16, 32] 48
      (by decide) (by decide) (by decide)).1.1⟩

/-! ## C2: round-robin -/

theorem tcbSep_mem {l : List Nat} (h : TcbSep l) {u v : Nat} (hu : u ∈ l) (hv : v ∈ l) :
    u = v ∨ u + 12 ≤ v ∨ v + 12 ≤ u := by
  by_cases e : u = v
  · exact Or.inl e
  · right
    have hs : Symmetric (fun u v : Nat => u + sizeofTask ≤ v ∨ v + sizeofTask ≤ u) := by
      intro a c hac; exact hac.symm
    exact List.Pairwise.forall hs h hu hv e

theorem tcbSep_nodup {l : List Nat} (h : TcbSep l) : l.Nodup := by
  refine List.Pairwise.imp ?_ h
  intro a c hac
  simp only [sizeofTask] at hac
  omega

theorem tcbSep_perm {l l1 : List Nat} (h : TcbSep l) (hp : l1.Perm l) : TcbSep l1 := by
  have hs : Symmetric (fun u v : Nat => u + sizeofTask ≤ v ∨ v + sizeofTask ≤ u) := by
    intro a c hac; exact hac.symm
  exact (List.Perm.pairwise_iff (fun {x y} hxy => hs hxy) hp).2 h

/-- The memory written by `taskEnqueue`: only the link of the new task and,
for a non-empty queue, the link of the old tail. -/
theorem taskEnqueue_mem_other (m : Mem) (q : YOS_TaskList_t) (t a : Nat)
    (h1 : a ≠ t + 4) (h2 : q.tlHead ≠ 0 → a ≠ q.tlTail + 4) :
    (taskEnqueue m q t).1 a = m a := by
  by_cases hh : q.tlHead = 0
  · simp [taskEnqueue, hh, set_tNext, upd, h1]
  · simp [taskEnqueue, hh, set_tNext, upd, h1, h2 hh]

theorem holds_tail_mem (m : Mem) (q : YOS_TaskList_t) (l : List Nat) (h : Holds m q l)
    (hne : q.tlHead ≠ 0) : q.tlTail ∈ l := by
  rcases h.2.2 with hl | hl
  · subst hl
    exact absurd ((holds_nil_iff m q).1 h) hne
  · exact List.mem_of_getLast?_eq_some hl

/-- One `getNextTask` step of a runnable current task `c` with ready queue `r`:
the queue is rotated by one position. -/
theorem getNextTask_rotate (b : Build) (k : Kernel) (c : Nat) (r : List Nat)
    (hb1 : b.USE_IDLE_TASK = false) (hb2 : b.USE_IDLE = false)
    (hsep : TcbSep (c :: r)) (h0 : ∀ u ∈ c :: r, u ≠ 0)
    (hw : ∀ u ∈ c :: r, tWait k.mem u = 0)
    (hc : k.sCurrentTask = c) (hq : Holds k.mem k.sTaskList r) :
    ∃ c1 r1, r ++ [c] = c1 :: r1 ∧ (getNextTask b k).sCurrentTask = c1 ∧
      Holds (getNextTask b k).mem (getNextTask b k).sTaskList r1 ∧
      (getNextTask b k).sLeavingTask = c ∧
      (∀ u ∈ c :: r, tWait (getNextTask b k).mem u = 0) := by
  subst hc
  have hcr : k.sCurrentTask ∉ r := (List.nodup_cons.1 (tcbSep_nodup hsep)).1
  have hc0 : k.sCurrentTask ≠ 0 := h0 _ (List.mem_cons_self _ r)
  have hwc : tWait k.mem k.sCurrentTask = 0 := hw _ (List.mem_cons_self _ r)
  obtain ⟨he, _⟩ := taskEnqueue_holds k.mem k.sTaskList r _ hq hcr hc0
  have hform : ∃ c1 r1, r ++ [k.sCurrentTask] = c1 :: r1 := by
    cases r with
    | nil => exact ⟨_, [], rfl⟩
    | cons a as => exact ⟨a, as ++ [k.sCurrentTask], rfl⟩
  obtain ⟨c1, r1, hr⟩ := hform
  rw [hr] at he
  obtain ⟨hd1, hd2⟩ := taskDequeue_holds _ _ c1 r1 he
  have hmem : (getNextTask b k).mem = (taskEnqueue k.mem k.sTaskList k.sCurrentTask).1 := by
    simp [getNextTask, hwc, hb1, hb2, readyEnqueue]
  refine ⟨c1, r1, hr, ?_, ?_, ?_, ?_⟩
  · simpa [getNextTask, hwc, hb1, hb2, readyEnqueue] using hd1
  · simpa [getNextTask, hwc, hb1, hb2, readyEnqueue] using hd2
  · simp [getNextTask, hwc, hb1, hb2, readyEnqueue]
  · intro u hu
    rw [hmem]
    have hcell : (taskEnqueue k.mem k.sTaskList k.sCurrentTask).1 (u + 8) = k.mem (u + 8) := by
      apply taskEnqueue_mem_other
      · have := tcbSep_mem hsep hu (List.mem_cons_self _ r)
        omega
      · intro hne
        have ht : k.sTaskList.tlTail ∈ k.sCurrentTask :: r :=
          List.mem_cons_of_mem _ (holds_tail_mem _ _ _ hq hne)
        have := tcbSep_mem hsep hu ht
        omega
    have := hw u hu
    simp only [tWait] at this ⊢
    rw [hcell]; exact this

/-- After `n` steps the current task and ready queue are the `n`-fold rotation
of the initial ones. -/
theorem pickNext_rotate (b : Build) (k : Kernel) (L : List Nat)
    (hb1 : b.USE_IDLE_TASK = false) (hb2 : b.USE_IDLE = false)
    (hsep : TcbSep L) (h0 : ∀ u ∈ L, u ≠ 0) (n : Nat) :
    ∀ (c : Nat) (r : List Nat), L = c :: r → (∀ u ∈ L, tWait k.mem u = 0) →
      k.sCurrentTask = c → Holds k.mem k.sTaskList r →
      ∃ c1 r1, L.rotate n = c1 :: r1 ∧ (pickNext b k n).sCurrentTask = c1 ∧
        Holds (pickNext b k n).mem (pickNext b k n).sTaskList r1 ∧
        (∀ u ∈ L, tWait (pickNext b k n).mem u = 0) := by
  induction n with
  | zero =>
    intro c r hL hw hc hq
    exact ⟨c, r, by simp [hL], hc, hq, hw⟩
  | succ n ih =>
    intro c r hL hw hc hq
    obtain ⟨c1, r1, hrot, h1, h2, h3⟩ := ih c r hL hw hc hq
    have hperm : (c1 :: r1).Perm L := hrot ▸ List.rotate_perm L n
    have hmem : ∀ u, u ∈ c1 :: r1 ↔ u ∈ L := fun u => hperm.mem_iff
    obtain ⟨c2, r2, hr, h4, h5, _, h7⟩ := getNextTask_rotate b (pickNext b k n) c1 r1 hb1 hb2
      (tcbSep_perm hsep hperm) (fun u hu => h0 u ((hmem u).1 hu))
      (fun u hu => h3 u ((hmem u).1 hu)) h1 h2
    refine ⟨c2, r2, ?_, h4, h5, fun u hu => h7 u ((hmem u).2 hu)⟩
    rw [← hr, ← List.rotate_rotate, hrot, List.rotate_cons_succ, List.rotate_zero]

theorem pickNext_leaving (b : Build) (k : Kernel) (L : List Nat)
    (hb1 : b.USE_IDLE_TASK = false) (hb2 : b.USE_IDLE = false)
    (hsep : TcbSep L) (h0 : ∀ u ∈ L, u ≠ 0) (n : Nat)
    (c : Nat) (r : List Nat) (hL : L = c :: r) (hw : ∀ u ∈ L, tWait k.mem u = 0)
    (hc : k.sCurrentTask = c) (hq : Holds k.mem k.sTaskList r) :
    (pickNext b k (n + 1)).sLeavingTask = (pickNext b k n).sCurrentTask := by
  obtain ⟨c1, r1, hrot, h1, h2, h3⟩ := pickNext_rotate b k L hb1 hb2 hsep h0 n c r hL hw hc hq
  have hperm : (c1 :: r1).Perm L := hrot ▸ List.rotate_perm L n
  have hmem : ∀ u, u ∈ c1 :: r1 ↔ u ∈ L := fun u => hperm.mem_iff
  obtain ⟨c2, r2, _, _, _, h6, _⟩ := getNextTask_rotate b (pickNext b k n) c1 r1 hb1 hb2
    (tcbSep_perm hsep hperm) (fun u hu => h0 u ((hmem u).1 hu))
    (fun u hu => h3 u ((hmem u).1 hu)) h1 h2
  rw [h1]; exact h6

/-- C2: strict round-robin.  In a build without idle task, for distinct runnable
tasks `t1 :: rest` (pairwise disjoint TCBs, all with `tWait == 0`), starting
with current `t1` and ready queue `rest`: after `n` `getNextTask` steps the
current task is the task at index `n mod N` of `t1 :: rest` (where `N` is the
number of tasks), each step records the previous current task as leaving, and
after exactly `N` steps the current task and the ready-queue contents are as
at the start. -/
theorem C2_round_robin (b : Build) (k : Kernel) (t1 : Nat) (rest : List Nat)
    (hb1 : b.USE_IDLE_TASK = false) (hb2 : b.USE_IDLE = false)
    (hsep : TcbSep (t1 :: rest)) (h0 : ∀ u ∈ t1 :: rest, u ≠ 0)
    (hw : ∀ u ∈ t1 :: rest, tWait k.mem u = 0)
    (hc : k.sCurrentTask = t1) (hq : Holds k.mem k.sTaskList rest) :
    (∀ n, (t1 :: rest)[n % (rest.length + 1)]? = some (pickNext b k n).sCurrentTask) ∧
    (∀ n, (pickNext b k (n + 1)).sLeavingTask = (pickNext b k n).sCurrentTask) ∧
    (pickNext b k (rest.length + 1)).sCurrentTask = t1 ∧
    Holds (pickNext b k (rest.length + 1)).mem (pickNext b k (rest.length + 1)).sTaskList rest := by
  refine ⟨?_, ?_, ?_⟩
  · intro n
    obtain ⟨c1, r1, hrot, h1, _, _⟩ :=
      pickNext_rotate b k (t1 :: rest) hb1 hb2 hsep h0 n t1 rest rfl hw hc hq
    have hlen : 0 < (t1 :: rest).length := by simp
    have := List.getElem?_rotate (l := t1 :: rest) (n := n) (m := 0) hlen
    rw [hrot] at this
    simp only [List.length_cons, Nat.zero_add] at this
    rw [← this, h1]; simp
  · intro n
    exact pickNext_leaving b k (t1 :: rest) hb1 hb2 hsep h0 n t1 rest rfl hw hc hq
  · obtain ⟨c1, r1, hrot, h1, h2, _⟩ :=
      pickNext_rotate b k (t1 :: rest) hb1 hb2 hsep h0 (rest.length + 1) t1 rest rfl hw hc hq
    have hl : (t1 :: rest).rotate (rest.length + 1) = t1 :: rest := by
      have := List.rotate_length (t1 :: rest)
      simpa using this
    rw [hl] at hrot
    injection hrot with e1 e2
    subst e1; subst e2
    exact ⟨h1, h2⟩

/-- C2 on three tasks: after 4 steps task 32 runs, after 3 steps task 16 again. -/
theorem C2_round_robin_witness :
    TcbSep [16, 32, 48] ∧ Holds kernelRR.mem kernelRR.sTaskList [32, 48] ∧
    (pickNext buildNoIdle kernelRR 4).sCurrentTask = 32 ∧
    (pickNext buildNoIdle kernelRR 3).sCurrentTask = 16 := by
  have h := C2_round_robin buildNoIdle kernelRR 16 [32, 48] rfl rfl (by decide) (by decide)
    (by decide) rfl (by decide)
  refine ⟨by decide, by decide, ?_, h.2.2.1⟩
  have h4 := h.1 4
  simpa using h4.symm

/-! ## C3: mutex hand-off -/

theorem tWait_set_tWait (m : Mem) (t b : Nat) : tWait (set_tWait m t b) t = b % 2 := by
  simp only [tWait, set_tWait, upd_same]
  omega

theorem set_tWait_other (m : Mem) (t b a : Nat) (h : a ≠ t + 8) : set_tWait m t b a = m a := by
  simp [set_tWait, upd, h]

theorem tSignal_set_tWait (m : Mem) (t b : Nat) : tSignal (set_tWait m t b) t = tSignal m t := by
  simp only [tSignal, set_tWait, upd_same]
  omega

theorem tWait_set_tSignal (m : Mem) (t b : Nat) : tWait (set_tSignal m t b) t = tWait m t := by
  simp only [tWait, set_tSignal, upd_same]
  omega

theorem tSignal_set_tSignal (m : Mem) (t b : Nat) : tSignal (set_tSignal m t b) t = b % 2 := by
  simp only [tSignal, set_tSignal, upd_same]
  omega

theorem set_tSignal_other (m : Mem) (t b a : Nat) (h : a ≠ t + 8) :
    set_tSignal m t b a = m a := by
  simp [set_tSignal, upd, h]

theorem tWait_congr (m m1 : Mem) (t : Nat) (h : m1 (t + 8) = m (t + 8)) :
    tWait m1 t = tWait m t := by
  simp only [tWait, h]

theorem tSignal_congr (m m1 : Mem) (t : Nat) (h : m1 (t + 8) = m (t + 8)) :
    tSignal m1 t = tSignal m t := by
  simp only [tSignal, h]

/-- A well-formed queue only depends on the `tNext` cells of its members. -/
theorem holds_frame (m m1 : Mem) (q : YOS_TaskList_t) (l : List Nat)
    (hm : ∀ u ∈ l, m1 (u + 4) = m (u + 4)) (h : Holds m q l) : Holds m1 q l :=
  ⟨seg_frame m m1 l _ _ hm h.1, h.2⟩

/-- The cells written by `taskEnqueue` on a well-formed queue are `tNext` cells
of the new task and of queue members. -/
theorem taskEnqueue_mem_frame (m : Mem) (q : YOS_TaskList_t) (l : List Nat) (t a : Nat)
    (h : Holds m q l) (h1 : a ≠ t + 4) (h2 : ∀ u ∈ l, a ≠ u + 4) :
    (taskEnqueue m q t).1 a = m a :=
  taskEnqueue_mem_other m q t a h1 (fun hne => h2 _ (holds_tail_mem m q l h hne))

/-- QUEUE_MUTEX on an owned mutex. -/
theorem svc_queue_owned (k : Kernel) (mx p2 : Nat) (h : (k.mutex mx).mOwner ≠ 0) :
    svcDispatch k mx p2 .DO_QUEUE_MUTEX =
      performReschedule
        { k with
          mem := set_tWait (taskEnqueue k.mem (k.mutex mx).mTaskQueue k.sCurrentTask).1
                   k.sCurrentTask 1,
          mutex := upd k.mutex mx
            { k.mutex mx with
              mTaskQueue := (taskEnqueue k.mem (k.mutex mx).mTaskQueue k.sCurrentTask).2 } } := by
  simp [svcDispatch, h]

/-- UNQUEUE_MUTEX with a waiter at the head of the mutex queue. -/
theorem svc_unqueue_some (k : Kernel) (mx p2 : Nat) (h : (k.mutex mx).mTaskQueue.tlHead ≠ 0) :
    svcDispatch k mx p2 .DO_UNQUEUE_MUTEX =
      performReschedule (readyEnqueue
        { k with
          mem := set_tWait k.mem (k.mutex mx).mTaskQueue.tlHead 0,
          mutex := upd k.mutex mx
            { mOwner := (k.mutex mx).mTaskQueue.tlHead,
              mTaskQueue := (taskDequeue k.mem (k.mutex mx).mTaskQueue).1 } }
        (k.mutex mx).mTaskQueue.tlHead) := by
  have h2 : (taskDequeue k.mem (k.mutex mx).mTaskQueue).2 = (k.mutex mx).mTaskQueue.tlHead := by
    simp [taskDequeue, h]
  simp [svcDispatch, h2, h]

/-- UNQUEUE_MUTEX with no waiter: the mutex becomes unowned, nothing else changes. -/
theorem svc_unqueue_none (k : Kernel) (mx p2 : Nat) (h : (k.mutex mx).mTaskQueue.tlHead = 0) :
    svcDispatch k mx p2 .DO_UNQUEUE_MUTEX =
      { k with mutex := upd k.mutex mx
                 { mOwner := 0, mTaskQueue := (k.mutex mx).mTaskQueue } } := by
  simp [svcDispatch, taskDequeue, h]

/-- One QUEUE_MUTEX call by task `w` on an owned mutex whose queue holds `l`. -/
theorem queue_step (k : Kernel) (mx w : Nat) (l r S : List Nat)
    (hS : TcbSep S) (hlS : ∀ u ∈ l, u ∈ S) (hrS : ∀ u ∈ r, u ∈ S) (hwS : w ∈ S)
    (hwl : w ∉ l) (hwr : w ∉ r) (hlr : ∀ u ∈ l, u ∉ r) (hw0 : w ≠ 0)
    (hown : (k.mutex mx).mOwner ≠ 0)
    (hq : Holds k.mem (k.mutex mx).mTaskQueue l) (hr : Holds k.mem k.sTaskList r) :
    ((svcDispatch { k with sCurrentTask := w } mx 0 .DO_QUEUE_MUTEX).mutex mx).mOwner
        = (k.mutex mx).mOwner ∧
    Holds (svcDispatch { k with sCurrentTask := w } mx 0 .DO_QUEUE_MUTEX).mem
      ((svcDispatch { k with sCurrentTask := w } mx 0 .DO_QUEUE_MUTEX).mutex mx).mTaskQueue
      (l ++ [w]) ∧
    Holds (svcDispatch { k with sCurrentTask := w } mx 0 .DO_QUEUE_MUTEX).mem
      (svcDispatch { k with sCurrentTask := w } mx 0 .DO_QUEUE_MUTEX).sTaskList r ∧
    tWait (svcDispatch { k with sCurrentTask := w } mx 0 .DO_QUEUE_MUTEX).mem w = 1 ∧
    (∀ u ∈ l, tWait (svcDispatch { k with sCurrentTask := w } mx 0 .DO_QUEUE_MUTEX).mem u
        = tWait k.mem u) := by
  have hown1 : (({ k with sCurrentTask := w } : Kernel).mutex mx).mOwner ≠ 0 := hown
  rw [svc_queue_owned _ mx 0 hown1]
  simp only [performReschedule, upd_same]
  have hcell : ∀ a, a ≠ w + 8 → a ≠ w + 4 → (∀ u ∈ l, a ≠ u + 4) →
      set_tWait (taskEnqueue k.mem (k.mutex mx).mTaskQueue w).1 w 1 a = k.mem a := by
    intro a h1 h2 h3
    rw [set_tWait_other _ _ _ _ h1]
    exact taskEnqueue_mem_frame _ _ l _ _ hq h2 h3
  obtain ⟨he, _⟩ := taskEnqueue_holds k.mem (k.mutex mx).mTaskQueue l w hq hwl hw0
  refine ⟨trivial, ?_, ?_, tWait_set_tWait _ _ _, ?_⟩
  · refine holds_frame _ _ _ _ ?_ he
    intro u hu
    apply set_tWait_other
    have huS : u ∈ S := by
      rcases List.mem_append.1 hu with h | h
      · exact hlS u h
      · rw [List.mem_singleton] at h; exact h ▸ hwS
    have := tcbSep_mem hS huS hwS
    omega
  · refine holds_frame _ _ _ _ ?_ hr
    intro u hu
    apply hcell
    · have := tcbSep_mem hS (hrS u hu) hwS
      omega
    · intro e
      exact hwr ((Nat.add_right_cancel e) ▸ hu)
    · intro v hv e
      exact hlr v hv ((Nat.add_right_cancel e) ▸ hu)
  · intro u hu
    apply tWait_congr
    apply hcell
    · intro e
      exact hwl ((Nat.add_right_cancel e) ▸ hu)
    · have := tcbSep_mem hS (hlS u hu) hwS
      omega
    · intro v hv
      have := tcbSep_mem hS (hlS u hu) (hlS v hv)
      omega

/-- One UNQUEUE_MUTEX call when the mutex queue holds `w :: l`. -/
theorem unqueue_step (k : Kernel) (mx w : Nat) (l r S : List Nat)
    (hS : TcbSep S) (hlS : ∀ u ∈ l, u ∈ S) (hrS : ∀ u ∈ r, u ∈ S) (hwS : w ∈ S)
    (hwr : w ∉ r) (hlr : ∀ u ∈ l, u ∉ r)
    (hq : Holds k.mem (k.mutex mx).mTaskQueue (w :: l)) (hr : Holds k.mem k.sTaskList r) :
    ((svcDispatch k mx 0 .DO_UNQUEUE_MUTEX).mutex mx).mOwner = w ∧
    tWait (svcDispatch k mx 0 .DO_UNQUEUE_MUTEX).mem w = 0 ∧
    Holds (svcDispatch k mx 0 .DO_UNQUEUE_MUTEX).mem
      (svcDispatch k mx 0 .DO_UNQUEUE_MUTEX).sTaskList (r ++ [w]) ∧
    Holds (svcDispatch k mx 0 .DO_UNQUEUE_MUTEX).mem
      ((svcDispatch k mx 0 .DO_UNQUEUE_MUTEX).mutex mx).mTaskQueue l := by
  obtain ⟨hh, hw0⟩ := holds_head_ne _ _ _ _ hq
  have hwl : w ∉ l := (List.nodup_cons.1 hq.2.1).1
  have hne : (k.mutex mx).mTaskQueue.tlHead ≠ 0 := by rw [hh]; exact hw0
  obtain ⟨_, hd⟩ := taskDequeue_holds _ _ _ _ hq
  rw [svc_unqueue_some k mx 0 hne, hh]
  simp only [performReschedule, readyEnqueue, upd_same]
  have hr1 : Holds (set_tWait k.mem w 0) k.sTaskList r := by
    refine holds_frame _ _ _ _ ?_ hr
    intro u hu
    apply set_tWait_other
    have := tcbSep_mem hS (hrS u hu) hwS
    omega
  have hcell : ∀ a, a ≠ w + 8 → a ≠ w + 4 → (∀ u ∈ r, a ≠ u + 4) →
      (taskEnqueue (set_tWait k.mem w 0) k.sTaskList w).1 a = k.mem a := by
    intro a h1 h2 h3
    rw [taskEnqueue_mem_frame _ _ r _ _ hr1 h2 h3]
    exact set_tWait_other _ _ _ _ h1
  refine ⟨trivial, ?_, (taskEnqueue_holds _ _ r w hr1 hwr hw0).1, ?_⟩
  · have hc : (taskEnqueue (set_tWait k.mem w 0) k.sTaskList w).1 (w + 8)
        = set_tWait k.mem w 0 (w + 8) := by
      apply taskEnqueue_mem_frame _ _ r _ _ hr1
      · omega
      · intro u hu
        have := tcbSep_mem hS (hrS u hu) hwS
        omega
    rw [tWait_congr _ _ _ hc]
    exact tWait_set_tWait _ _ _
  · refine holds_frame _ _ _ _ ?_ hd
    intro u hu
    apply hcell
    · have := tcbSep_mem hS (hlS u hu) hwS
      omega
    · intro e
      exact hwl ((Nat.add_right_cancel e) ▸ hu)
    · intro v hv e
      exact hlr u hu ((Nat.add_right_cancel e) ▸ hv)

theorem queueAll_inv (mx : Nat) (r S : List Nat) (hS : TcbSep S) (hrS : ∀ u ∈ r, u ∈ S)
    (ws : List Nat) :
    ∀ (k : Kernel) (l : List Nat), (∀ u ∈ l ++ ws, u ∈ S) → (l ++ ws).Nodup →
      (∀ u ∈ l ++ ws, u ∉ r) → (∀ w ∈ ws, w ≠ 0) → (k.mutex mx).mOwner ≠ 0 →
      Holds k.mem (k.mutex mx).mTaskQueue l → Holds k.mem k.sTaskList r →
      (∀ u ∈ l, tWait k.mem u = 1) →
      ((queueAll k mx ws).mutex mx).mOwner = (k.mutex mx).mOwner ∧
      Holds (queueAll k mx ws).mem ((queueAll k mx ws).mutex mx).mTaskQueue (l ++ ws) ∧
      Holds (queueAll k mx ws).mem (queueAll k mx ws).sTaskList r ∧
      (∀ u ∈ l ++ ws, tWait (queueAll k mx ws).mem u = 1) := by
  induction ws with
  | nil =>
    intro k l _ _ _ _ _ hq hr hw
    simp only [queueAll, List.append_nil]
    exact ⟨trivial, hq, hr, hw⟩
  | cons w ws ih =>
    intro k l hlS hnd hlr h0 hown hq hr hw
    have hwmem : w ∈ l ++ w :: ws := by simp
    have hlsub : ∀ u ∈ l, u ∈ l ++ w :: ws := fun u hu => List.mem_append_left _ hu
    have hwl : w ∉ l := by
      intro hmem
      exact (List.nodup_append.1 hnd).2.2 hmem (List.mem_cons_self w ws)
    obtain ⟨s1, s2, s3, s4, s5⟩ := queue_step k mx w l r S hS
      (fun u hu => hlS u (hlsub u hu)) hrS (hlS w hwmem) hwl (hlr w hwmem)
      (fun u hu => hlr u (hlsub u hu)) (h0 w (List.mem_cons_self w ws)) hown hq hr
    have heq : l ++ w :: ws = (l ++ [w]) ++ ws := by simp
    have := ih (svcDispatch { k with sCurrentTask := w } mx 0 .DO_QUEUE_MUTEX) (l ++ [w])
      (heq ▸ hlS) (heq ▸ hnd) (heq ▸ hlr) (fun u hu => h0 u (List.mem_cons_of_mem w hu))
      (s1 ▸ hown) s2 s3
      (by
        intro u hu
        rcases List.mem_append.1 hu with h | h
        · rw [s5 u h]; exact hw u h
        · rw [List.mem_singleton] at h; rw [h]; exact s4)
    simp only [queueAll]
    rw [heq]
    exact ⟨this.1.trans s1, this.2⟩

theorem unqueueN_inv (K0 : Kernel) (mx : Nat) (ws r S : List Nat) (hS : TcbSep S)
    (hwS : ∀ u ∈ ws, u ∈ S) (hrS : ∀ u ∈ r, u ∈ S) (hwr : ∀ u ∈ ws, u ∉ r)
    (hq : Holds K0.mem (K0.mutex mx).mTaskQueue ws) (hr : Holds K0.mem K0.sTaskList r)
    (n : Nat) :
    ∀ (pre suf : List Nat), ws = pre ++ suf → pre.length = n →
      Holds (unqueueN K0 mx n).mem ((unqueueN K0 mx n).mutex mx).mTaskQueue suf ∧
      Holds (unqueueN K0 mx n).mem (unqueueN K0 mx n).sTaskList (r ++ pre) := by
  induction n with
  | zero =>
    intro pre suf hws hlen
    have : pre = [] := List.length_eq_zero.1 hlen
    subst this
    simp only [List.nil_append] at hws
    subst hws
    simpa [unqueueN] using And.intro hq hr
  | succ n ih =>
    intro pre suf hws hlen
    rcases List.eq_nil_or_concat pre with hp | ⟨pre1, w, hp⟩
    · subst hp; simp at hlen
    · rw [List.concat_eq_append] at hp
      subst hp
      have hlen1 : pre1.length = n := by simpa using hlen
      have hws1 : ws = pre1 ++ (w :: suf) := by simpa using hws
      obtain ⟨i1, i2⟩ := ih pre1 (w :: suf) hws1 hlen1
      have hnd : ws.Nodup := hq.2.1
      rw [hws1] at hnd
      have hnd2 := List.nodup_append.1 hnd
      have hwmem : w ∈ ws := by rw [hws1]; simp
      have hsuf : ∀ u ∈ suf, u ∈ ws := by intro u hu; rw [hws1]; simp [hu]
      have hpre : ∀ u ∈ pre1, u ∈ ws := by intro u hu; rw [hws1]; simp [hu]
      obtain ⟨_, _, s3, s4⟩ := unqueue_step (unqueueN K0 mx n) mx w suf (r ++ pre1) S hS
        (fun u hu => hwS u (hsuf u hu))
        (fun u hu => by
          rcases List.mem_append.1 hu with h | h
          · exact hrS u h
          · exact hwS u (hpre u h))
        (hwS w hwmem)
        (by
          intro hmem
          rcases List.mem_append.1 hmem with h | h
          · exact hwr w hwmem h
          · exact hnd2.2.2 h (List.mem_cons_self w suf))
        (by
          intro u hu hmem
          rcases List.mem_append.1 hmem with h | h
          · exact hwr u (hsuf u hu) h
          · exact hnd2.2.2 h (List.mem_cons_of_mem w hu))
        i1 i2
      simp only [unqueueN]
      rw [← List.append_assoc]
      exact ⟨s4, s3⟩

/-- C3: mutex hand-off is FIFO.  On an owned mutex with empty wait queue, let the
distinct tasks `ws` (pairwise disjoint TCBs, none on the ready queue `r`) issue
QUEUE_MUTEX in order, each as the current task of its call.  After any prefix
of the calls the owner is unchanged and every caller so far has `tWait == 1`.
Then the following UNQUEUE_MUTEX calls set the owner to the tasks of `ws` in
order (the call number `|pre| + 1` makes `w` the owner when
`ws = pre ++ w :: suf`), each clearing the new owner's wait flag and appending
it at the tail of the ready queue; one more UNQUEUE_MUTEX leaves the mutex
unowned. -/
theorem C3_mutex_fifo (k : Kernel) (mx : Nat) (ws r : List Nat)
    (hown : (k.mutex mx).mOwner ≠ 0) (hq0 : (k.mutex mx).mTaskQueue.tlHead = 0)
    (hr : Holds k.mem k.sTaskList r) (hsep : TcbSep (ws ++ r)) (h0 : ∀ w ∈ ws, w ≠ 0) :
    (∀ pre suf, ws = pre ++ suf →
        ((queueAll k mx pre).mutex mx).mOwner = (k.mutex mx).mOwner ∧
        ∀ w ∈ pre, tWait (queueAll k mx pre).mem w = 1) ∧
    (∀ pre w suf, ws = pre ++ w :: suf →
        ((unqueueN (queueAll k mx ws) mx (pre.length + 1)).mutex mx).mOwner = w ∧
        tWait (unqueueN (queueAll k mx ws) mx (pre.length + 1)).mem w = 0 ∧
        Holds (unqueueN (queueAll k mx ws) mx (pre.length + 1)).mem
          (unqueueN (queueAll k mx ws) mx (pre.length + 1)).sTaskList (r ++ pre ++ [w])) ∧
    ((unqueueN (queueAll k mx ws) mx (ws.length + 1)).mutex mx).mOwner = 0 := by
  have hnd : (ws ++ r).Nodup := tcbSep_nodup hsep
  have hnd2 := List.nodup_append.1 hnd
  have hwS : ∀ u ∈ ws, u ∈ ws ++ r := fun u hu => List.mem_append_left _ hu
  have hrS : ∀ u ∈ r, u ∈ ws ++ r := fun u hu => List.mem_append_right _ hu
  have hwr : ∀ u ∈ ws, u ∉ r := fun u hu hm => hnd2.2.2 hu hm
  have hqe : Holds k.mem (k.mutex mx).mTaskQueue [] := (holds_nil_iff _ _).2 hq0
  have hall := queueAll_inv mx r (ws ++ r) hsep hrS ws k []
    (by simpa using hwS) (by simpa using hnd2.1) (by simpa using hwr) h0 hown hqe hr
    (by simp)
  simp only [List.nil_append] at hall
  obtain ⟨_, a2, a3, _⟩ := hall
  refine ⟨?_, ?_, ?_⟩
  · intro pre suf hws
    have hsub : ∀ u ∈ pre, u ∈ ws := by intro u hu; rw [hws]; simp [hu]
    have hndp : pre.Nodup := by
      have := hnd2.1
      rw [hws] at this
      exact (List.nodup_append.1 this).1
    have hp := queueAll_inv mx r (ws ++ r) hsep hrS pre k []
      (by simpa using fun u hu => hwS u (hsub u hu)) (by simpa using hndp)
      (by simpa using fun u hu => hwr u (hsub u hu)) (fun u hu => h0 u (hsub u hu))
      hown hqe hr (by simp)
    simp only [List.nil_append] at hp
    exact ⟨hp.1, hp.2.2.2⟩
  · intro pre w suf hws
    obtain ⟨i1, i2⟩ := unqueueN_inv (queueAll k mx ws) mx ws r (ws ++ r) hsep hwS hrS hwr a2 a3
      pre.length pre (w :: suf) hws rfl
    have hwmem : w ∈ ws := by rw [hws]; simp
    have hsuf : ∀ u ∈ suf, u ∈ ws := by intro u hu; rw [hws]; simp [hu]
    have hpre : ∀ u ∈ pre, u ∈ ws := by intro u hu; rw [hws]; simp [hu]
    have hndw := hnd2.1
    rw [hws] at hndw
    have hndw2 := List.nodup_append.1 hndw
    obtain ⟨s1, s2, s3, _⟩ := unqueue_step (unqueueN (queueAll k mx ws) mx pre.length) mx w suf
      (r ++ pre) (ws ++ r) hsep
      (fun u hu => hwS u (hsuf u hu))
      (fun u hu => by
        rcases List.mem_append.1 hu with h | h
        · exact hrS u h
        · exact hwS u (hpre u h))
      (hwS w hwmem)
      (by
        intro hmem
        rcases List.mem_append.1 hmem with h | h
        · exact hwr w hwmem h
        · exact hndw2.2.2 h (List.mem_cons_self w suf))
      (by
        intro u hu hmem
        rcases List.mem_append.1 hmem with h | h
        · exact hwr u (hsuf u hu) h
        · exact hndw2.2.2 h (List.mem_cons_of_mem w hu))
      i1 i2
    exact ⟨s1, s2, s3⟩
  · obtain ⟨i1, _⟩ := unqueueN_inv (queueAll k mx ws) mx ws r (ws ++ r) hsep hwS hrS hwr a2 a3
      ws.length ws [] (by simp) rfl
    have hh := (holds_nil_iff _ _).1 i1
    show ((svcDispatch (unqueueN (queueAll k mx ws) mx ws.length) mx 0
      .DO_UNQUEUE_MUTEX).mutex mx).mOwner = 0
    rw [svc_unqueue_none _ mx 0 hh]
    simp [upd]

/-- C3 on the scenario of two waiters 32 and 48 on the mutex owned by task 16:
the owner becomes 32, then 48, then nobody. -/
theorem C3_mutex_fifo_witness :
    (kernelMx.mutex 100).mOwner ≠ 0 ∧ TcbSep ([32, 48] ++ []) ∧
    ((unqueueN (queueAll kernelMx 100 [32, 48]) 100 1).mutex 100).mOwner = 32 ∧
    ((unqueueN (queueAll kernelMx 100 [32, 48]) 100 2).mutex 100).mOwner = 48 ∧
    ((unqueueN (queueAll kernelMx 100 [32, 48]) 100 3).mutex 100).mOwner = 0 := by
  have h := C3_mutex_fifo kernelMx 100 [32, 48] [] (by decide) (by decide) (by decide)
    (by decide) (by decide)
  exact ⟨by decide, by decide, (h.2.1 [] 32 [48] rfl).1, (h.2.1 [32] 48 [] rfl).1, h.2.2⟩

/-! ## C4: event flags coalesce -/

/-- SIGNAL_EVENT ORs the flag into the 32-bit flag set, whatever the queues hold. -/
theorem svc_signal_event_flags (k : Kernel) (ev i : Nat) :
    ((svcDispatch k ev i .DO_SIGNAL_EVENT).event ev).eFlagSet
      = ((k.event ev).eFlagSet ||| (1 <<< i)) % 2 ^ 32 := by
  simp only [svcDispatch]
  split <;> simp [readyEnqueue, upd]

theorem lor_flag_lt (a i : Nat) (ha : a < 2 ^ 32) (hi : i < 32) :
    a ||| (1 <<< i) < 2 ^ 32 := by
  apply Nat.or_lt_two_pow ha
  rw [Nat.one_shiftLeft]
  exact Nat.pow_lt_pow_right (by decide) hi

theorem orFlags_lt (is : List Nat) :
    ∀ a, a < 2 ^ 32 → (∀ i ∈ is, i < 32) → orFlags a is < 2 ^ 32 := by
  induction is with
  | nil => intro a ha _; exact ha
  | cons i is ih =>
    intro a ha hi
    exact ih _ (lor_flag_lt a i ha (hi i (List.mem_cons_self i is)))
      (fun j hj => hi j (List.mem_cons_of_mem i hj))

theorem signalAll_flags (ev : Nat) (is : List Nat) :
    ∀ k : Kernel, (k.event ev).eFlagSet < 2 ^ 32 → (∀ i ∈ is, i < 32) →
      ((signalAll k ev is).event ev).eFlagSet = orFlags (k.event ev).eFlagSet is := by
  induction is with
  | nil => intro k _ _; rfl
  | cons i is ih =>
    intro k hk hi
    have h1 := svc_signal_event_flags k ev i
    have hlt := lor_flag_lt _ i hk (hi i (List.mem_cons_self i is))
    rw [Nat.mod_eq_of_lt hlt] at h1
    have := ih (svcDispatch k ev i .DO_SIGNAL_EVENT) (h1 ▸ hlt)
      (fun j hj => hi j (List.mem_cons_of_mem i hj))
    simp only [signalAll, orFlags, List.foldl_cons]
    rw [this, h1]; rfl

/-- C4: event flags coalesce.  For an event whose flag set is 0 and any sequence
of flag indices below 32, after the SIGNAL_EVENT calls a RESUME_EVENT writes
exactly the bitwise OR of `1 << i` over the indices into the output word (the
memory word at the output address) and leaves the flag set 0, and a second
RESUME_EVENT writes 0. -/
theorem C4_event_coalesce (k : Kernel) (ev out out2 : Nat) (is : List Nat)
    (hz : (k.event ev).eFlagSet = 0) (hi : ∀ i ∈ is, i < 32) :
    (svcDispatch (signalAll k ev is) ev out .DO_RESUME_EVENT).mem out = orFlags 0 is ∧
    ((svcDispatch (signalAll k ev is) ev out .DO_RESUME_EVENT).event ev).eFlagSet = 0 ∧
    (svcDispatch (svcDispatch (signalAll k ev is) ev out .DO_RESUME_EVENT) ev out2
        .DO_RESUME_EVENT).mem out2 = 0 := by
  have h := signalAll_flags ev is k (by rw [hz]; decide) hi
  rw [hz] at h
  refine ⟨?_, ?_, ?_⟩
  · simp [svcDispatch, upd, h]
  · simp [svcDispatch, upd]
  · simp [svcDispatch, upd]

/-- C4 on scenario S3: indices 0, 3, 0, 7 give 0x89. -/
theorem C4_event_coalesce_witness :
    (kernel0.event 200).eFlagSet = 0 ∧
    (svcDispatch (signalAll kernel0 200 [0, 3, 0, 7]) 200 300 .DO_RESUME_EVENT).mem 300
      = 0x89 := by
  have h := (C4_event_coalesce kernel0 200 300 300 [0, 3, 0, 7] rfl (by decide)).1
  exact ⟨rfl, h.trans (by decide)⟩

/-! ## C5: task creation and the lower limit -/

/-- The block carved by `createTask` for a non-negative C `int` size `s`: in
32-bit pointer arithmetic the new top is `top - (r + 12)`, where `r` is the
least multiple of 4 that is at least `s`. -/
theorem createTask_newTop (b : Build) (top : Nat) (s r : Int)
    (hs0 : 0 ≤ s) (hs1 : s < 2 ^ 31) (hr4 : r % 4 = 0) (hr1 : s ≤ r) (hr2 : r < s + 4) :
    ptr32 ((top : Int) - int32 (roundedSize b s + sizeofTask)) = ptr32 ((top : Int) - (r + 12)) := by
  have hneg : ¬ s < 0 := by omega
  simp only [ptr32, int32, roundedSize, sizeofTask, hneg, if_false]
  congr 1
  split <;> push_cast <;> omega

theorem createTask_fail (b : Build) (k : Kernel) (code : Nat) (s : Int)
    (h : ¬ ptr32 ((k.sTaskMemory : Int) - int32 (roundedSize b s + sizeofTask))
          > k.sTaskMemoryLimit) :
    createTask b k code s = (k, 0) := by
  simp only [createTask]
  rw [if_neg h]

theorem createTask_succ (b : Build) (k : Kernel) (code : Nat) (s : Int)
    (h : ptr32 ((k.sTaskMemory : Int) - int32 (roundedSize b s + sizeofTask))
          > k.sTaskMemoryLimit) :
    (createTask b k code s).2
        = ptr32 ((k.sTaskMemory : Int) - int32 (roundedSize b s + sizeofTask)) ∧
    (createTask b k code s).1.sTaskMemory
        = ptr32 ((k.sTaskMemory : Int) - int32 (roundedSize b s + sizeofTask)) ∧
    (createTask b k code s).1.sTaskMemoryLimit = k.sTaskMemoryLimit ∧
    (createTask b k code s).1.sTaskList = k.sTaskList := by
  simp only [createTask]
  rw [if_pos h]
  exact ⟨rfl, rfl, rfl, rfl⟩

/-- The allocator top never goes below the limit, and the limit never moves. -/
theorem createAll_limit (b : Build) (reqs : List (Nat × Int)) :
    ∀ k : Kernel, k.sTaskMemoryLimit ≤ k.sTaskMemory →
      k.sTaskMemoryLimit ≤ (createAll b k reqs).sTaskMemory ∧
      (createAll b k reqs).sTaskMemoryLimit = k.sTaskMemoryLimit := by
  induction reqs with
  | nil => intro k h; exact ⟨h, rfl⟩
  | cons c cs ih =>
    intro k h
    show k.sTaskMemoryLimit ≤ (createAll b (createTask b k c.1 c.2).1 cs).sTaskMemory ∧
      (createAll b (createTask b k c.1 c.2).1 cs).sTaskMemoryLimit = k.sTaskMemoryLimit
    by_cases hc : ptr32 ((k.sTaskMemory : Int) - int32 (roundedSize b c.2 + sizeofTask))
        > k.sTaskMemoryLimit
    · obtain ⟨_, h2, h3, _⟩ := createTask_succ b k c.1 c.2 hc
      have := ih (createTask b k c.1 c.2).1 (by rw [h2, h3]; exact Nat.le_of_lt hc)
      rw [h3] at this
      exact this
    · rw [createTask_fail b k c.1 c.2 hc]
      exact ih k h

/-- C5 (amended): for an allocator state with `limit ≤ top`, a stack size `s`
that is a non-negative C `int`, and `r` the least multiple of 4 at least `s`,
the request not being larger than the top address (`r + 12 ≤ top`):
`createTask` returns a task if and only if `top - (r + 12) > limit` (a new top
equal to the limit is refused).  On success the new top is exactly
`top - (r + 12)`, the TCB is placed at it and the limit is unchanged; on
failure the null pointer is returned and the whole state is unchanged; either
way the top stays between the limit and the old top; and after every sequence
of creations the top is still at or above the limit. -/
theorem C5_create_limit (b : Build) (k : Kernel) (code : Nat) (s r : Int)
    (hle : k.sTaskMemoryLimit ≤ k.sTaskMemory) (htop : k.sTaskMemory < 2 ^ 32)
    (hs0 : 0 ≤ s) (hs1 : s < 2 ^ 31) (hr4 : r % 4 = 0) (hr1 : s ≤ r) (hr2 : r < s + 4)
    (hfit : r + 12 ≤ k.sTaskMemory) :
    ((createTask b k code s).2 ≠ 0 ↔
        (k.sTaskMemory : Int) - (r + 12) > k.sTaskMemoryLimit) ∧
    ((createTask b k code s).2 ≠ 0 →
        ((createTask b k code s).1.sTaskMemory : Int) = (k.sTaskMemory : Int) - (r + 12) ∧
        (createTask b k code s).2 = (createTask b k code s).1.sTaskMemory ∧
        (createTask b k code s).1.sTaskMemoryLimit = k.sTaskMemoryLimit) ∧
    ((createTask b k code s).2 = 0 → (createTask b k code s).1 = k) ∧
    (k.sTaskMemoryLimit ≤ (createTask b k code s).1.sTaskMemory ∧
      (createTask b k code s).1.sTaskMemory ≤ k.sTaskMemory) ∧
    (∀ reqs : List (Nat × Int),
        k.sTaskMemoryLimit ≤ (createAll b k reqs).sTaskMemory ∧
        (createAll b k reqs).sTaskMemoryLimit = k.sTaskMemoryLimit) := by
  have hnt := createTask_newTop b k.sTaskMemory s r hs0 hs1 hr4 hr1 hr2
  have hp : (ptr32 ((k.sTaskMemory : Int) - (r + 12)) : Int)
      = (k.sTaskMemory : Int) - (r + 12) := by
    simp only [ptr32]
    omega
  by_cases hc : ptr32 ((k.sTaskMemory : Int) - int32 (roundedSize b s + sizeofTask))
      > k.sTaskMemoryLimit
  · obtain ⟨c1, c2, c3, _⟩ := createTask_succ b k code s hc
    have hc1 : (createTask b k code s).2 ≠ 0 := by rw [c1]; omega
    have hgt : (k.sTaskMemory : Int) - (r + 12) > k.sTaskMemoryLimit := by
      rw [hnt] at hc
      omega
    have hnew : ((createTask b k code s).1.sTaskMemory : Int)
        = (k.sTaskMemory : Int) - (r + 12) := by
      rw [c2, hnt, hp]
    refine ⟨⟨fun _ => hgt, fun _ => hc1⟩, fun _ => ⟨hnew, by rw [c1, c2], c3⟩,
      fun h => absurd h hc1, ⟨by omega, by omega⟩, fun reqs => createAll_limit b reqs k hle⟩
  · have hf := createTask_fail b k code s hc
    have hle2 : ¬ (k.sTaskMemory : Int) - (r + 12) > k.sTaskMemoryLimit := by
      rw [hnt] at hc
      omega
    rw [hf]
    exact ⟨⟨fun h => absurd rfl h, fun h => absurd h hle2⟩, fun h => absurd rfl h,
      fun _ => rfl, ⟨hle, Nat.le_refl _⟩, fun reqs => createAll_limit b reqs k hle⟩

/-- C5 on a 512-byte region: a 200-byte stack request succeeds and moves the top
down by 212. -/
theorem C5_create_limit_witness :
    kernel512.sTaskMemoryLimit ≤ kernel512.sTaskMemory ∧
    (200 : Int) + 12 ≤ kernel512.sTaskMemory ∧
    (createTask buildNoIdle kernel512 7 200).2 ≠ 0 ∧
    ((createTask buildNoIdle kernel512 7 200).1.sTaskMemory : Int) = 0x20000200 - 212 := by
  have h := C5_create_limit buildNoIdle kernel512 7 200 200 (by decide) (by decide) (by decide)
    (by decide) (by decide) (by decide) (by decide) (by decide)
  have h1 : (createTask buildNoIdle kernel512 7 200).2 ≠ 0 := h.1.2 (by decide)
  exact ⟨by decide, by decide, h1, (h.2.1 h1).1.trans (by decide)⟩

/-- A request larger than the top address is outside C5: `createTask` has no
underflow check, the 32-bit pointer subtraction wraps, and on the 512-byte
region a request of `0x20000200` bytes returns a TCB at `0xFFFFFFF4`, above the
old top. -/
theorem createTask_wraps :
    (createTask buildNoIdle kernel512 7 0x20000200).2 = 0xFFFFFFF4 ∧
    (createTask buildNoIdle kernel512 7 0x20000200).1.sTaskMemory = 0xFFFFFFF4 ∧
    kernel512.sTaskMemory = 0x20000200 := by
  decide

/-- C5 as stated fails on the boundary: with limit 1000, top 1012 and stack size
0 (so `r = 0`, TCB size 12) the new top 1000 does not cross the limit, yet
`createTask` returns the null pointer. -/
theorem C5_counterexample :
    ¬ ((createTask buildNoIdle kernelTight 7 0).2 ≠ 0 ↔
        (kernelTight.sTaskMemory : Int) - (0 + 12) ≥ kernelTight.sTaskMemoryLimit) := by
  decide

/-! ## C6: scenario S4, out-of-stack creation -/

theorem YOS_AddTask_alloc (b : Build) (k : Kernel) (code : Nat) (s : Int) :
    (YOS_AddTask b k code s).2 = (createTask b k code s).2 ∧
    (YOS_AddTask b k code s).1.sTaskMemory = (createTask b k code s).1.sTaskMemory ∧
    (YOS_AddTask b k code s).1.sTaskMemoryLimit = (createTask b k code s).1.sTaskMemoryLimit := by
  simp only [YOS_AddTask]
  split <;> simp [readyEnqueue]

theorem size200 (b : Build) : int32 (roundedSize b 200 + sizeofTask) = 212 := by
  simp [roundedSize, int32, sizeofTask]

/-- One `YOS_AddTask` call with a 200-byte stack: it succeeds exactly when the
top, lowered by 212 in pointer arithmetic, stays above the limit. -/
theorem addTask200 (b : Build) (k : Kernel) (code : Nat) :
    (ptr32 ((k.sTaskMemory : Int) - 212) > k.sTaskMemoryLimit →
      (YOS_AddTask b k code 200).2 = ptr32 ((k.sTaskMemory : Int) - 212) ∧
      (YOS_AddTask b k code 200).1.sTaskMemory = ptr32 ((k.sTaskMemory : Int) - 212) ∧
      (YOS_AddTask b k code 200).1.sTaskMemoryLimit = k.sTaskMemoryLimit) ∧
    (¬ ptr32 ((k.sTaskMemory : Int) - 212) > k.sTaskMemoryLimit →
      YOS_AddTask b k code 200 = (k, 0)) := by
  obtain ⟨a1, a2, a3⟩ := YOS_AddTask_alloc b k code 200
  constructor
  · intro h
    rw [← size200 b] at h ⊢
    obtain ⟨c1, c2, c3, _⟩ := createTask_succ b k code 200 h
    exact ⟨a1.trans c1, a2.trans c2, a3.trans c3⟩
  · intro h
    rw [← size200 b] at h
    simp [YOS_AddTask, createTask_fail b k code 200 h]

/-- C6 (amended): after `YOS_InitOs` with a region of exactly 512 bytes
`[L, L + 512)` (with `L ≥ 124`, so that no request wraps around address 0),
`YOS_AddTask` calls with stack size 200 succeed exactly twice, returning the
TCBs `L + 300` and `L + 88`, and the third call returns the null pointer and
leaves the state unchanged.  Each successful task consumes 212 bytes of the
region (200 bytes of stack plus the 12-byte TCB): the top moves from `L + 512`
to `L + 300` to `L + 88`; the 64-byte initial frame lies inside the 200 bytes. -/
theorem C6_scenario_S4 (b : Build) (k : Kernel) (code L : Nat)
    (hL : 124 ≤ L) (hL2 : L + 512 < 2 ^ 32) :
    (addAll b (YOS_InitOs k L (L + 512)) [(code, 200), (code, 200), (code, 200)]).2
        = [L + 300, L + 88, 0] ∧
    (addAll b (YOS_InitOs k L (L + 512)) [(code, 200)]).1.sTaskMemory = L + 512 - 212 ∧
    (addAll b (YOS_InitOs k L (L + 512)) [(code, 200), (code, 200)]).1.sTaskMemory
        = L + 512 - 212 - 212 ∧
    (addAll b (YOS_InitOs k L (L + 512)) [(code, 200), (code, 200), (code, 200)]).1
        = (addAll b (YOS_InitOs k L (L + 512)) [(code, 200), (code, 200)]).1 := by
  have e0 : (YOS_InitOs k L (L + 512)).sTaskMemory = L + 512 := rfl
  have l0 : (YOS_InitOs k L (L + 512)).sTaskMemoryLimit = L := rfl
  have p1 : ptr32 (((L + 512 : Nat) : Int) - 212) = L + 300 := by
    simp only [ptr32]; omega
  have p2 : ptr32 (((L + 300 : Nat) : Int) - 212) = L + 88 := by
    simp only [ptr32]; omega
  have p3 : ptr32 (((L + 88 : Nat) : Int) - 212) = L - 124 := by
    simp only [ptr32]; omega
  obtain ⟨a1, a2, a3⟩ := (addTask200 b (YOS_InitOs k L (L + 512)) code).1
    (by rw [e0, l0, p1]; omega)
  rw [e0, p1] at a1 a2
  rw [l0] at a3
  obtain ⟨b1, b2, b3⟩ := (addTask200 b (YOS_AddTask b (YOS_InitOs k L (L + 512)) code 200).1
    code).1 (by rw [a2, a3, p2]; omega)
  rw [a2, p2] at b1 b2
  rw [a3] at b3
  have c1 := (addTask200 b (YOS_AddTask b
    (YOS_AddTask b (YOS_InitOs k L (L + 512)) code 200).1 code 200).1 code).2
    (by rw [b2, b3, p3]; omega)
  simp only [addAll]
  rw [c1]
  refine ⟨?_, ?_, ?_, ?_⟩
  · rw [a1, b1]
  · rw [a2]; omega
  · rw [b2]; omega
  · generalize (YOS_AddTask b (YOS_AddTask b (YOS_InitOs k L (L + 512)) code 200).1 code 200).1
      = X
    rfl

/-- C6 on the 512-byte region at `0x20000000`. -/
theorem C6_scenario_S4_witness :
    124 ≤ 0x20000000 ∧
    (addAll buildNoIdle (YOS_InitOs kernel0 0x20000000 (0x20000000 + 512))
      [(7, 200), (7, 200), (7, 200)]).2 = [0x20000000 + 300, 0x20000000 + 88, 0] :=
  ⟨by decide, (C6_scenario_S4 buildNoIdle kernel0 7 0x20000000 (by decide) (by decide)).1⟩

/-- C6 as stated fails: a successful 200-byte task takes 212 bytes from the
region, not 200 + 12 + 64. -/
theorem C6_counterexample :
    (YOS_AddTask buildNoIdle kernel512 7 200).2 ≠ 0 ∧
    kernel512.sTaskMemory - (YOS_AddTask buildNoIdle kernel512 7 200).1.sTaskMemory
      ≠ 200 + 12 + 64 := by
  obtain ⟨h1, h2, _⟩ := (addTask200 buildNoIdle kernel512 7).1 (by decide)
  rw [h1, h2]
  decide

/-! ## C7 and C8: the initial context of a new task -/

/-- The memory left by a successful `createTask`. -/
theorem createTask_mem (b : Build) (k : Kernel) (code : Nat) (s : Int)
    (h : ptr32 ((k.sTaskMemory : Int) - int32 (roundedSize b s + sizeofTask))
          > k.sTaskMemoryLimit) :
    (createTask b k code s).1.mem =
      set_tWait (set_tSignal (set_tPsp
        (upd (upd (zeroFill k.mem
            (ptr32 ((k.sTaskMemory : Int) - int32 (roundedSize b s + sizeofTask)))
            (int32 (roundedSize b s + sizeofTask)).toNat)
          (ptr32 ((ptr32 ((k.sTaskMemory : Int) - 64) : Int) + 56)) code)
          (ptr32 ((ptr32 ((k.sTaskMemory : Int) - 64) : Int) + 60)) 0x1000000)
        (ptr32 ((k.sTaskMemory : Int) - int32 (roundedSize b s + sizeofTask)))
        (ptr32 ((k.sTaskMemory : Int) - 64)))
        (ptr32 ((k.sTaskMemory : Int) - int32 (roundedSize b s + sizeofTask))) 0)
        (ptr32 ((k.sTaskMemory : Int) - int32 (roundedSize b s + sizeofTask))) 0 := by
  simp only [createTask]
  rw [if_pos h]

theorem createTask_ok_iff (b : Build) (k : Kernel) (code : Nat) (s : Int) :
    (createTask b k code s).2 ≠ 0 ↔
      ptr32 ((k.sTaskMemory : Int) - int32 (roundedSize b s + sizeofTask))
        > k.sTaskMemoryLimit := by
  by_cases hc : ptr32 ((k.sTaskMemory : Int) - int32 (roundedSize b s + sizeofTask))
      > k.sTaskMemoryLimit
  · have := (createTask_succ b k code s hc).1
    constructor
    · intro _; exact hc
    · intro _; rw [this]; omega
  · rw [createTask_fail b k code s hc]
    simp [hc]

/-- The memory left by a successful `YOS_AddTask`: that of `createTask`, then
the new task is linked at the tail of the ready queue. -/
theorem YOS_AddTask_mem (b : Build) (k : Kernel) (code : Nat) (s : Int)
    (h : (createTask b k code s).2 ≠ 0) :
    (YOS_AddTask b k code s).1.mem =
      (taskEnqueue (createTask b k code s).1.mem (createTask b k code s).1.sTaskList
        (createTask b k code s).2).1 := by
  simp [YOS_AddTask, h, readyEnqueue]

theorem roundedSize_lt (b : Build) (s : Int) (hs : s < 2 ^ 31) (hts : b.TASK_SIZE < 2 ^ 31) :
    roundedSize b s < 2 ^ 31 := by
  simp only [roundedSize, int32]
  split <;> split <;> omega

/-- The cells of a successful `YOS_AddTask` in a state where the request does not
wrap and the ready-queue tail (if any) is an earlier task at or above the old
top: with `n` the new TCB and `T` the old top, the final memory has the
saved stack pointer `T - 64` (in pointer arithmetic) at `n`, both flag bits
clear at `n + 8`, and, when the rounded stack size is at least 8, the entry
address and the status word in slots 14 and 15 of the frame. -/
theorem addTask_cells (b : Build) (k : Kernel) (code : Nat) (s : Int)
    (hs : s < 2 ^ 31) (hts : b.TASK_SIZE < 2 ^ 31) (hr : 0 ≤ roundedSize b s)
    (hfit : roundedSize b s + 12 ≤ k.sTaskMemory) (htop : k.sTaskMemory < 2 ^ 32)
    (htail : k.sTaskList.tlHead ≠ 0 → k.sTaskMemory ≤ k.sTaskList.tlTail)
    (hok : (YOS_AddTask b k code s).2 ≠ 0) :
    ((YOS_AddTask b k code s).2 : Int) = k.sTaskMemory - (roundedSize b s + 12) ∧
    (YOS_AddTask b k code s).1.sTaskMemory = (YOS_AddTask b k code s).2 ∧
    k.sTaskMemoryLimit < (YOS_AddTask b k code s).2 ∧
    tPsp (YOS_AddTask b k code s).1.mem (YOS_AddTask b k code s).2
      = ptr32 ((k.sTaskMemory : Int) - 64) ∧
    tSignal (YOS_AddTask b k code s).1.mem (YOS_AddTask b k code s).2 = 0 ∧
    tWait (YOS_AddTask b k code s).1.mem (YOS_AddTask b k code s).2 = 0 ∧
    (8 ≤ roundedSize b s →
      (YOS_AddTask b k code s).1.mem
        (ptr32 ((ptr32 ((k.sTaskMemory : Int) - 64) : Int) + 4 * 14)) = code ∧
      (YOS_AddTask b k code s).1.mem
        (ptr32 ((ptr32 ((k.sTaskMemory : Int) - 64) : Int) + 4 * 15)) = 0x1000000) := by
  have hc : (createTask b k code s).2 ≠ 0 := by
    rwa [(YOS_AddTask_alloc b k code s).1] at hok
  have hgt := (createTask_ok_iff b k code s).1 hc
  obtain ⟨c1, c2, _, c4⟩ := createTask_succ b k code s hgt
  have hrs := roundedSize_lt b s hs hts
  have hn : (ptr32 ((k.sTaskMemory : Int) - int32 (roundedSize b s + sizeofTask)) : Int)
      = k.sTaskMemory - (roundedSize b s + 12) := by
    simp only [ptr32, int32, sizeofTask]; push_cast; omega
  have h14 : ptr32 ((ptr32 ((k.sTaskMemory : Int) - 64) : Int) + 56) = k.sTaskMemory - 8 := by
    simp only [ptr32]; omega
  have h15 : ptr32 ((ptr32 ((k.sTaskMemory : Int) - 64) : Int) + 60) = k.sTaskMemory - 4 := by
    simp only [ptr32]; omega
  have hm := YOS_AddTask_mem b k code s hc
  rw [c1, c4, createTask_mem b k code s hgt, h14, h15] at hm
  rw [(YOS_AddTask_alloc b k code s).1, (YOS_AddTask_alloc b k code s).2.1, c1, c2, hm]
  generalize ptr32 ((k.sTaskMemory : Int) - int32 (roundedSize b s + sizeofTask)) = n at hn hgt ⊢
  generalize zeroFill k.mem n (int32 (roundedSize b s + sizeofTask)).toNat = Z
  generalize roundedSize b s = rs at hn hr hfit hrs
  have key : ∀ a, a < k.sTaskMemory → a ≠ n + 4 → ∀ M : Mem,
      (taskEnqueue M k.sTaskList n).1 a = M a := by
    intro a h1 h2 M
    exact taskEnqueue_mem_other _ _ _ _ h2 (fun hh => by have := htail hh; omega)
  refine ⟨hn, rfl, hgt, ?_, ?_, ?_, ?_⟩
  · simp only [tPsp]
    rw [key n (by omega) (by omega)]
    simp [set_tWait, set_tSignal, set_tPsp, upd]
  · rw [tSignal_congr _ _ n (key (n + 8) (by omega) (by omega) _), tSignal_set_tWait,
      tSignal_set_tSignal]
  · rw [tWait_congr _ _ n (key (n + 8) (by omega) (by omega) _), tWait_set_tWait]
  · intro h8
    have e1 : ((4 : Int) * 14) = 56 := by decide
    have e2 : ((4 : Int) * 15) = 60 := by decide
    have f1 : k.sTaskMemory - 8 ≠ n + 8 := by omega
    have f2 : k.sTaskMemory - 8 ≠ n := by omega
    have f3 : k.sTaskMemory - 8 ≠ k.sTaskMemory - 4 := by omega
    have f4 : k.sTaskMemory - 4 ≠ n + 8 := by omega
    have f5 : k.sTaskMemory - 4 ≠ n := by omega
    rw [e1, e2, h14, h15, key _ (by omega) (by omega), key _ (by omega) (by omega)]
    simp [set_tWait, set_tSignal, set_tPsp, upd, f1, f2, f3, f4, f5]

/-- C7 (amended): initial context of a new task.  For every successful
`YOS_AddTask(entry, size)` whose stack size after defaulting and rounding is at
least 8 bytes, in a state where the request does not wrap around the address
space and the ready-queue tail (if any) is an earlier task at or above the old
top: when the call returns, the task's saved stack pointer is the old top
minus 16 words (in 32-bit pointer arithmetic), the word at index 14 from that
pointer is the entry address, the word at index 15 is `0x01000000`, and the
task's signal and wait flags are 0. -/
theorem C7_initial_context (b : Build) (k : Kernel) (entry : Nat) (size : Int)
    (hs : size < 2 ^ 31) (hts : b.TASK_SIZE < 2 ^ 31) (h8 : 8 ≤ roundedSize b size)
    (hfit : roundedSize b size + 12 ≤ k.sTaskMemory) (htop : k.sTaskMemory < 2 ^ 32)
    (htail : k.sTaskList.tlHead ≠ 0 → k.sTaskMemory ≤ k.sTaskList.tlTail)
    (hok : (YOS_AddTask b k entry size).2 ≠ 0) :
    tPsp (YOS_AddTask b k entry size).1.mem (YOS_AddTask b k entry size).2
      = ptr32 ((k.sTaskMemory : Int) - 4 * 16) ∧
    (YOS_AddTask b k entry size).1.mem
      (ptr32 ((tPsp (YOS_AddTask b k entry size).1.mem (YOS_AddTask b k entry size).2 : Int)
        + 4 * 14)) = entry ∧
    (YOS_AddTask b k entry size).1.mem
      (ptr32 ((tPsp (YOS_AddTask b k entry size).1.mem (YOS_AddTask b k entry size).2 : Int)
        + 4 * 15)) = 0x01000000 ∧
    tSignal (YOS_AddTask b k entry size).1.mem (YOS_AddTask b k entry size).2 = 0 ∧
    tWait (YOS_AddTask b k entry size).1.mem (YOS_AddTask b k entry size).2 = 0 := by
  obtain ⟨_, _, _, c4, c5, c6, c7⟩ :=
    addTask_cells b k entry size hs hts (by omega) hfit htop htail hok
  obtain ⟨c8, c9⟩ := c7 h8
  rw [c4]
  exact ⟨rfl, c8, c9, c5, c6⟩

/-- C7 on scenario S6: `add-task(F, 256)` in the 512-byte region, with entry
address `0x08000101`. -/
theorem C7_initial_context_witness :
    (YOS_AddTask buildNoIdle kernel512 0x08000101 256).2 ≠ 0 ∧
    tPsp (YOS_AddTask buildNoIdle kernel512 0x08000101 256).1.mem
      (YOS_AddTask buildNoIdle kernel512 0x08000101 256).2 = 0x20000200 - 64 := by
  have hok : (YOS_AddTask buildNoIdle kernel512 0x08000101 256).2 ≠ 0 := by
    rw [(YOS_AddTask_alloc buildNoIdle kernel512 0x08000101 256).1, createTask_ok_iff]
    decide
  exact ⟨hok, (C7_initial_context buildNoIdle kernel512 0x08000101 256 (by decide) (by decide)
    (by decide) (by decide) (by decide) (by decide) hok).1.trans (by decide)⟩

/-- C7 as stated fails for a zero-size stack: `add-task(0x08000101, 0)` succeeds
in the 512-byte region, but the word at index 14 from the saved stack pointer
is the `tNext` field of the new TCB, which `taskEnqueue` has set to 0. -/
theorem C7_counterexample :
    (YOS_AddTask buildNoIdle kernel512 0x08000101 0).2 ≠ 0 ∧
    (YOS_AddTask buildNoIdle kernel512 0x08000101 0).1.mem
      (ptr32 ((tPsp (YOS_AddTask buildNoIdle kernel512 0x08000101 0).1.mem
        (YOS_AddTask buildNoIdle kernel512 0x08000101 0).2 : Int) + 4 * 14)) ≠ 0x08000101 := by
  have hc : (createTask buildNoIdle kernel512 0x08000101 0).2 ≠ 0 := by
    rw [createTask_ok_iff]; decide
  have hgt := (createTask_ok_iff buildNoIdle kernel512 0x08000101 0).1 hc
  obtain ⟨c1, _, _, c4⟩ := createTask_succ buildNoIdle kernel512 0x08000101 0 hgt
  refine ⟨by rw [(YOS_AddTask_alloc buildNoIdle kernel512 0x08000101 0).1]; exact hc, ?_⟩
  rw [(YOS_AddTask_alloc buildNoIdle kernel512 0x08000101 0).1,
    YOS_AddTask_mem buildNoIdle kernel512 0x08000101 0 hc, c1, c4,
    createTask_mem buildNoIdle kernel512 0x08000101 0 hgt]
  decide

/-- The zero-fill loop clears exactly the cells `[base, base + cnt)` when the
block does not wrap around the address space. -/
theorem zeroFill_apply (m : Mem) (base : Nat) (cnt : Nat) :
    base + cnt ≤ 2 ^ 32 → ∀ a,
      zeroFill m base cnt a = if base ≤ a ∧ a < base + cnt then 0 else m a := by
  induction cnt with
  | zero =>
    intro _ a
    have : ¬ (base ≤ a ∧ a < base) := by omega
    simp [zeroFill, this]
  | succ n ih =>
    intro h a
    have hp : ptr32 ((base : Int) + (n : Int)) = base + n := by
      simp only [ptr32]; omega
    simp only [zeroFill, hp, upd]
    rw [ih (by omega) a]
    by_cases e : a = base + n
    · have : base ≤ a ∧ a < base + (n + 1) := by omega
      simp [e]
    · by_cases c : base ≤ a ∧ a < base + n
      · have : base ≤ a ∧ a < base + (n + 1) := by omega
        simp [e, c, this]
      · have : ¬ (base ≤ a ∧ a < base + (n + 1)) := by omega
        simp [e, c, this]

/-- C8 (amended): a new task's initial frame is within its allocated region.
For every successful `createTask(entry, size)` whose stack size after
defaulting and rounding is at least 64 bytes (the size of the frame) and whose
request does not wrap around the address space: the saved stack pointer is the
old top minus 64, so the frame `[saved SP, saved SP + 64)` ends at the old top
and starts at or above new top + TCB size; the new top is above the limit; no
cell outside the carved block `[new top, old top)` is changed; the TCB holds
the saved stack pointer and clear flags; and the entry address and status word
are in slots 14 and 15 of the frame. -/
theorem C8_frame_in_region (b : Build) (k : Kernel) (entry : Nat) (size : Int)
    (hs : size < 2 ^ 31) (hts : b.TASK_SIZE < 2 ^ 31) (h64 : 64 ≤ roundedSize b size)
    (hfit : roundedSize b size + 12 ≤ k.sTaskMemory) (htop : k.sTaskMemory < 2 ^ 32)
    (hok : (createTask b k entry size).2 ≠ 0) :
    (createTask b k entry size).1.sTaskMemory = (createTask b k entry size).2 ∧
    tPsp (createTask b k entry size).1.mem (createTask b k entry size).2 + 64
      = k.sTaskMemory ∧
    (createTask b k entry size).2 + sizeofTask
      ≤ tPsp (createTask b k entry size).1.mem (createTask b k entry size).2 ∧
    k.sTaskMemoryLimit < (createTask b k entry size).2 ∧
    (∀ a, a < (createTask b k entry size).2 ∨ k.sTaskMemory ≤ a →
      (createTask b k entry size).1.mem a = k.mem a) ∧
    tSignal (createTask b k entry size).1.mem (createTask b k entry size).2 = 0 ∧
    tWait (createTask b k entry size).1.mem (createTask b k entry size).2 = 0 ∧
    (createTask b k entry size).1.mem
      (tPsp (createTask b k entry size).1.mem (createTask b k entry size).2 + 4 * 14) = entry ∧
    (createTask b k entry size).1.mem
      (tPsp (createTask b k entry size).1.mem (createTask b k entry size).2 + 4 * 15)
        = 0x01000000 := by
  have hgt := (createTask_ok_iff b k entry size).1 hok
  obtain ⟨c1, c2, _, _⟩ := createTask_succ b k entry size hgt
  have hrs := roundedSize_lt b size hs hts
  have hn : (ptr32 ((k.sTaskMemory : Int) - int32 (roundedSize b size + sizeofTask)) : Int)
      = k.sTaskMemory - (roundedSize b size + 12) := by
    simp only [ptr32, int32, sizeofTask]; push_cast; omega
  have hcnt : ((int32 (roundedSize b size + sizeofTask)).toNat : Int)
      ≤ roundedSize b size + 12 := by
    simp only [int32, sizeofTask]; push_cast; omega
  have hsp : ptr32 ((k.sTaskMemory : Int) - 64) = k.sTaskMemory - 64 := by
    simp only [ptr32]; omega
  have h14 : ptr32 ((ptr32 ((k.sTaskMemory : Int) - 64) : Int) + 56) = k.sTaskMemory - 8 := by
    simp only [ptr32]; omega
  have h15 : ptr32 ((ptr32 ((k.sTaskMemory : Int) - 64) : Int) + 60) = k.sTaskMemory - 4 := by
    simp only [ptr32]; omega
  rw [createTask_mem b k entry size hgt, c1, c2, h14, h15, hsp]
  generalize ptr32 ((k.sTaskMemory : Int) - int32 (roundedSize b size + sizeofTask)) = n
    at hn hgt ⊢
  generalize (int32 (roundedSize b size + sizeofTask)).toNat = cnt at hcnt ⊢
  generalize roundedSize b size = rs at hn hcnt h64 hfit hrs
  have hz := zeroFill_apply k.mem n cnt (by omega)
  have hpsp : tPsp (set_tWait (set_tSignal (set_tPsp
      (upd (upd (zeroFill k.mem n cnt) (k.sTaskMemory - 8) entry) (k.sTaskMemory - 4) 0x1000000)
      n (k.sTaskMemory - 64)) n 0) n 0) n = k.sTaskMemory - 64 := by
    simp [tPsp, set_tWait, set_tSignal, set_tPsp, upd]
  rw [hpsp]
  have e1 : k.sTaskMemory - 64 + 4 * 14 = k.sTaskMemory - 8 := by omega
  have e2 : k.sTaskMemory - 64 + 4 * 15 = k.sTaskMemory - 4 := by omega
  have f1 : k.sTaskMemory - 8 ≠ n + 8 := by omega
  have f2 : k.sTaskMemory - 8 ≠ n := by omega
  have f3 : k.sTaskMemory - 8 ≠ k.sTaskMemory - 4 := by omega
  have f4 : k.sTaskMemory - 4 ≠ n + 8 := by omega
  have f5 : k.sTaskMemory - 4 ≠ n := by omega
  refine ⟨rfl, by omega, by simp only [sizeofTask]; omega, hgt, ?_, ?_, ?_, ?_, ?_⟩
  · intro a ha
    have g1 : a ≠ n + 8 := by omega
    have g2 : a ≠ n := by omega
    have g3 : a ≠ k.sTaskMemory - 4 := by omega
    have g4 : a ≠ k.sTaskMemory - 8 := by omega
    have g5 : ¬ (n ≤ a ∧ a < n + cnt) := by omega
    simp [set_tWait, set_tSignal, set_tPsp, upd, g1, g2, g3, g4, hz, g5]
  · rw [tSignal_set_tWait, tSignal_set_tSignal]
  · rw [tWait_set_tWait]
  · rw [e1]
    simp [set_tWait, set_tSignal, set_tPsp, upd, f1, f2, f3]
  · rw [e2]
    simp [set_tWait, set_tSignal, set_tPsp, upd, f4, f5]

/-- C8 on scenario S6: `createTask(F, 256)` in the 512-byte region. -/
theorem C8_frame_in_region_witness :
    (createTask buildNoIdle kernel512 0x08000101 256).2 ≠ 0 ∧
    (createTask buildNoIdle kernel512 0x08000101 256).2 + sizeofTask
      ≤ tPsp (createTask buildNoIdle kernel512 0x08000101 256).1.mem
          (createTask buildNoIdle kernel512 0x08000101 256).2 ∧
    tPsp (createTask buildNoIdle kernel512 0x08000101 256).1.mem
        (createTask buildNoIdle kernel512 0x08000101 256).2 + 64 = kernel512.sTaskMemory := by
  have hok : (createTask buildNoIdle kernel512 0x08000101 256).2 ≠ 0 := by
    rw [createTask_ok_iff]; decide
  have h := C8_frame_in_region buildNoIdle kernel512 0x08000101 256 (by decide) (by decide)
    (by decide) (by decide) (by decide) hok
  exact ⟨hok, h.2.2.1, h.2.1⟩

/-- C8 as stated fails for a stack smaller than the frame: `createTask(F, 32)`
succeeds in the 512-byte region, but the saved stack pointer (old top - 64) is
below new top + TCB size (old top - 32), so the 16-word frame starts below the
block carved for the task. -/
theorem C8_counterexample :
    (createTask buildNoIdle kernel512 0x08000101 32).2 ≠ 0 ∧
    ¬ ((createTask buildNoIdle kernel512 0x08000101 32).2 + sizeofTask
      ≤ tPsp (createTask buildNoIdle kernel512 0x08000101 32).1.mem
          (createTask buildNoIdle kernel512 0x08000101 32).2) := by
  have hok : (createTask buildNoIdle kernel512 0x08000101 32).2 ≠ 0 := by
    rw [createTask_ok_iff]; decide
  have hgt := (createTask_ok_iff buildNoIdle kernel512 0x08000101 32).1 hok
  refine ⟨hok, ?_⟩
  rw [createTask_mem buildNoIdle kernel512 0x08000101 32 hgt,
    (createTask_succ buildNoIdle kernel512 0x08000101 32 hgt).1]
  decide

/-! ## C9: SIGNAL -/

/-- SIGNAL of a task whose signal bit is clear changes nothing. -/
theorem svc_signal_idle (k : Kernel) (t p2 : Nat) (h : tSignal k.mem t = 0) :
    svcDispatch k t p2 .DO_SIGNAL = k := by
  simp [svcDispatch, h]

/-- SIGNAL of a task whose signal bit is set. -/
theorem svc_signal_armed (k : Kernel) (t p2 : Nat) (h : tSignal k.mem t = 1) :
    svcDispatch k t p2 .DO_SIGNAL =
      readyEnqueue { k with mem := set_tWait (set_tSignal k.mem t 0) t 0 } t := by
  simp [svcDispatch, h]

/-- C9: a signal to a task that is not waiting is silently ignored.  For every
kernel state and task `t`: if `t`'s signal bit is 0, SIGNAL(t) leaves the whole
kernel state unchanged.  If it is 1, SIGNAL(t) changes neither the current nor
the leaving task nor the pending-scheduler register (no reschedule request),
and, the ready queue being well-formed with contents `l` and `t` a task whose
TCB is disjoint from those of `l`, it clears `t`'s signal and wait flags and
appends `t` at the tail of the ready queue, so that a second SIGNAL(t) changes
nothing. -/
theorem C9_signal (k : Kernel) (t p2 : Nat) :
    (tSignal k.mem t = 0 → svcDispatch k t p2 .DO_SIGNAL = k) ∧
    (tSignal k.mem t = 1 →
      (svcDispatch k t p2 .DO_SIGNAL).ICSR = k.ICSR ∧
      (svcDispatch k t p2 .DO_SIGNAL).sCurrentTask = k.sCurrentTask ∧
      (svcDispatch k t p2 .DO_SIGNAL).sLeavingTask = k.sLeavingTask ∧
      ∀ l : List Nat, Holds k.mem k.sTaskList l → TcbSep (t :: l) → t ≠ 0 →
        tSignal (svcDispatch k t p2 .DO_SIGNAL).mem t = 0 ∧
        tWait (svcDispatch k t p2 .DO_SIGNAL).mem t = 0 ∧
        Holds (svcDispatch k t p2 .DO_SIGNAL).mem (svcDispatch k t p2 .DO_SIGNAL).sTaskList
          (l ++ [t]) ∧
        svcDispatch (svcDispatch k t p2 .DO_SIGNAL) t p2 .DO_SIGNAL
          = svcDispatch k t p2 .DO_SIGNAL) := by
  refine ⟨svc_signal_idle k t p2, ?_⟩
  intro h1
  refine ⟨by rw [svc_signal_armed k t p2 h1]; rfl, by rw [svc_signal_armed k t p2 h1]; rfl,
    by rw [svc_signal_armed k t p2 h1]; rfl, ?_⟩
  intro l hq hsep ht0
  have htl : t ∉ l := (List.nodup_cons.1 (tcbSep_nodup hsep)).1
  have hsub : ∀ u ∈ l, u ∈ t :: l := fun u hu => List.mem_cons_of_mem t hu
  have htm : t ∈ t :: l := List.mem_cons_self t l
  have hq1 : Holds (set_tWait (set_tSignal k.mem t 0) t 0) k.sTaskList l := by
    refine holds_frame _ _ _ _ ?_ hq
    intro u hu
    have := tcbSep_mem hsep (hsub u hu) htm
    rw [set_tWait_other _ _ _ _ (by omega), set_tSignal_other _ _ _ _ (by omega)]
  have hcell : (taskEnqueue (set_tWait (set_tSignal k.mem t 0) t 0) k.sTaskList t).1 (t + 8)
      = set_tWait (set_tSignal k.mem t 0) t 0 (t + 8) := by
    apply taskEnqueue_mem_frame _ _ l _ _ hq1
    · omega
    · intro u hu
      have := tcbSep_mem hsep (hsub u hu) htm
      omega
  have hs0 : tSignal (svcDispatch k t p2 .DO_SIGNAL).mem t = 0 := by
    rw [svc_signal_armed k t p2 h1]
    simp only [readyEnqueue]
    rw [tSignal_congr _ _ t hcell, tSignal_set_tWait, tSignal_set_tSignal]
  refine ⟨hs0, ?_, ?_, svc_signal_idle _ t p2 hs0⟩
  · rw [svc_signal_armed k t p2 h1]
    simp only [readyEnqueue]
    rw [tWait_congr _ _ t hcell, tWait_set_tWait]
  · rw [svc_signal_armed k t p2 h1]
    exact (taskEnqueue_holds _ _ l t hq1 htl ht0).1

/-- C9 on a waiting task 16 with task 32 ready: SIGNAL(16) clears the flags and
queues 16 behind 32. -/
theorem C9_signal_witness :
    tSignal kernelSig.mem 16 = 1 ∧
    Holds kernelSig.mem kernelSig.sTaskList [32] ∧ TcbSep [16, 32] ∧
    tWait (svcDispatch kernelSig 16 0 .DO_SIGNAL).mem 16 = 0 ∧
    Holds (svcDispatch kernelSig 16 0 .DO_SIGNAL).mem
      (svcDispatch kernelSig 16 0 .DO_SIGNAL).sTaskList [32, 16] := by
  have h := ((C9_signal kernelSig 16 0).2 (by decide)).2.2.2 [32] (by decide) (by decide)
    (by decide)
  exact ⟨by decide, by decide, by decide, h.2.1, h.2.2.1⟩

/-! ## C10: TRY_MUTEX -/

/-- The byte read back after a byte store. -/
theorem loadByte_storeByte (m : Mem) (a v : Nat) : loadByte (storeByte m a v) a = v % 256 := by
  simp only [loadByte, storeByte, upd_same]
  have := Nat.mod_le (m a) 256
  omega

/-- A byte store changes no other cell. -/
theorem storeByte_other (m : Mem) (a v x : Nat) (h : x ≠ a) : storeByte m a v x = m x :=
  upd_other _ _ _ _ h

/-- TRY_MUTEX, case by case: the owner is written when the mutex is unowned, and
the result byte is stored at the output address. -/
theorem svc_try_mutex (k : Kernel) (mx out : Nat) :
    svcDispatch k mx out .DO_TRY_MUTEX =
      if (k.mutex mx).mOwner = 0 then
        { k with
          mutex := upd k.mutex mx { k.mutex mx with mOwner := k.sCurrentTask },
          mem := storeByte k.mem out 1 }
      else { k with mem := storeByte k.mem out 0 } := by
  by_cases h : (k.mutex mx).mOwner = 0
  · simp [svcDispatch, h]
  · simp [svcDispatch, h]

/-- C10: TRY_MUTEX never blocks.  For every kernel state, mutex and output
address, TRY_MUTEX stores true (1) in the output byte if the mutex was unowned
before the call and false (0) otherwise; when it stores true the owner becomes
the current task, when it stores false the mutex is unchanged; the output byte
is the only memory cell written, and the records of the mutex's wait queue and
of the ready queue, the current task and the pending-scheduler register are
unchanged.  A wait flag of the current task that is 0 stays 0 wherever the
output byte lies.  The output byte lying outside the TCB of the current task,
the current task's wait flag is unchanged, and, the output byte lying outside
the TCBs of the queued tasks, the mutex's wait queue and the ready queue keep
their contents; and `YOS_MutexTryAcquire` returns true exactly when the mutex
was unowned. -/
theorem C10_try_mutex (k : Kernel) (mx out : Nat) :
    (loadByte (svcDispatch k mx out .DO_TRY_MUTEX).mem out = 1 ↔ (k.mutex mx).mOwner = 0) ∧
    (loadByte (svcDispatch k mx out .DO_TRY_MUTEX).mem out = 0 ↔ (k.mutex mx).mOwner ≠ 0) ∧
    ((k.mutex mx).mOwner = 0 →
      (svcDispatch k mx out .DO_TRY_MUTEX).mutex =
        upd k.mutex mx { k.mutex mx with mOwner := k.sCurrentTask }) ∧
    ((k.mutex mx).mOwner ≠ 0 → (svcDispatch k mx out .DO_TRY_MUTEX).mutex = k.mutex) ∧
    (∀ a, a ≠ out → (svcDispatch k mx out .DO_TRY_MUTEX).mem a = k.mem a) ∧
    ((svcDispatch k mx out .DO_TRY_MUTEX).mutex mx).mTaskQueue = (k.mutex mx).mTaskQueue ∧
    (svcDispatch k mx out .DO_TRY_MUTEX).sTaskList = k.sTaskList ∧
    (svcDispatch k mx out .DO_TRY_MUTEX).sCurrentTask = k.sCurrentTask ∧
    (svcDispatch k mx out .DO_TRY_MUTEX).ICSR = k.ICSR ∧
    (tWait k.mem k.sCurrentTask = 0 →
      tWait (svcDispatch k mx out .DO_TRY_MUTEX).mem k.sCurrentTask = 0) ∧
    ((out < k.sCurrentTask ∨ k.sCurrentTask + sizeofTask ≤ out) →
      tWait (svcDispatch k mx out .DO_TRY_MUTEX).mem k.sCurrentTask
        = tWait k.mem k.sCurrentTask) ∧
    (∀ l : List Nat, Holds k.mem (k.mutex mx).mTaskQueue l →
      (∀ t ∈ l, out < t ∨ t + sizeofTask ≤ out) →
      Holds (svcDispatch k mx out .DO_TRY_MUTEX).mem
        ((svcDispatch k mx out .DO_TRY_MUTEX).mutex mx).mTaskQueue l) ∧
    (∀ l : List Nat, Holds k.mem k.sTaskList l →
      (∀ t ∈ l, out < t ∨ t + sizeofTask ≤ out) →
      Holds (svcDispatch k mx out .DO_TRY_MUTEX).mem
        (svcDispatch k mx out .DO_TRY_MUTEX).sTaskList l) ∧
    ((YOS_MutexTryAcquire k mx out).2 = true ↔ (k.mutex mx).mOwner = 0) := by
  have hmem : ∀ a, a ≠ out → (svcDispatch k mx out .DO_TRY_MUTEX).mem a = k.mem a := by
    intro a ha
    rw [svc_try_mutex]
    split <;> exact storeByte_other _ _ _ _ ha
  have hq : ((svcDispatch k mx out .DO_TRY_MUTEX).mutex mx).mTaskQueue
      = (k.mutex mx).mTaskQueue := by
    rw [svc_try_mutex]
    split
    · simp [upd]
    · rfl
  have hr : (svcDispatch k mx out .DO_TRY_MUTEX).sTaskList = k.sTaskList := by
    rw [svc_try_mutex]
    split <;> rfl
  have hframe : ∀ (q : YOS_TaskList_t) (l : List Nat), Holds k.mem q l →
      (∀ t ∈ l, out < t ∨ t + sizeofTask ≤ out) →
      Holds (svcDispatch k mx out .DO_TRY_MUTEX).mem q l := by
    intro q l h hl
    refine holds_frame _ _ q l ?_ h
    intro u hu
    have := hl u hu
    simp only [sizeofTask] at this
    exact hmem _ (by omega)
  have hacq : (YOS_MutexTryAcquire k mx out).2 = true ↔ (k.mutex mx).mOwner = 0 := by
    simp only [YOS_MutexTryAcquire]
    rw [svc_try_mutex]
    by_cases h : (k.mutex mx).mOwner = 0
    · simp [h, loadByte_storeByte]
    · simp [h, loadByte_storeByte]
  have hw0 : ∀ v : Nat, v < 2 → tWait k.mem k.sCurrentTask = 0 →
      tWait (storeByte k.mem out v) k.sCurrentTask = 0 := by
    intro v hv h
    by_cases e : k.sCurrentTask + 8 = out
    · simp only [tWait, storeByte, e, upd_same]
      have := Nat.mod_le (k.mem out) 256
      omega
    · rw [tWait_congr _ _ _ (storeByte_other _ _ _ _ e)]
      exact h
  refine ⟨?_, ?_, ?_, ?_, hmem, hq, hr, ?_, ?_, ?_, ?_, ?_, ?_, hacq⟩
  · rw [svc_try_mutex]
    by_cases h : (k.mutex mx).mOwner = 0
    · simp [h, loadByte_storeByte]
    · simp [h, loadByte_storeByte]
  · rw [svc_try_mutex]
    by_cases h : (k.mutex mx).mOwner = 0
    · simp [h, loadByte_storeByte]
    · simp [h, loadByte_storeByte]
  · intro h
    rw [svc_try_mutex, if_pos h]
  · intro h
    rw [svc_try_mutex, if_neg h]
  · rw [svc_try_mutex]
    split <;> rfl
  · rw [svc_try_mutex]
    split <;> rfl
  · intro h
    rw [svc_try_mutex]
    split
    · exact hw0 1 (by decide) h
    · exact hw0 0 (by decide) h
  · intro h
    simp only [sizeofTask] at h
    exact tWait_congr _ _ _ (hmem _ (by omega))
  · intro l h hl
    rw [hq]
    exact hframe _ l h hl
  · intro l h hl
    rw [hr]
    exact hframe _ l h hl

/-- C10 on an unowned mutex (task 48 takes it, true is stored at 300) and on the
mutex owned by task 16 (left unchanged, false is stored); the wait flag of the
current task and the ready queue holding task 32 are as before. -/
theorem C10_try_mutex_witness :
    (kernelSig.mutex 100).mOwner = 0 ∧
    ((svcDispatch kernelSig 100 300 .DO_TRY_MUTEX).mutex 100).mOwner = 48 ∧
    loadByte (svcDispatch kernelSig 100 300 .DO_TRY_MUTEX).mem 300 = 1 ∧
    (kernelMx.mutex 100).mOwner ≠ 0 ∧
    (svcDispatch kernelMx 100 300 .DO_TRY_MUTEX).mutex = kernelMx.mutex ∧
    tWait (svcDispatch kernelSig 100 300 .DO_TRY_MUTEX).mem kernelSig.sCurrentTask
      = tWait kernelSig.mem kernelSig.sCurrentTask ∧
    Holds (svcDispatch kernelSig 100 300 .DO_TRY_MUTEX).mem
      (svcDispatch kernelSig 100 300 .DO_TRY_MUTEX).sTaskList [32] :=
  ⟨by decide,
   by rw [(C10_try_mutex kernelSig 100 300).2.2.1 (by decide)]; decide,
   (C10_try_mutex kernelSig 100 300).1.2 (by decide), by decide,
   (C10_try_mutex kernelMx 100 300).2.2.2.1 (by decide),
   (C10_try_mutex kernelSig 100 300).2.2.2.2.2.2.2.2.2.2.1 (by decide),
   (C10_try_mutex kernelSig 100 300).2.2.2.2.2.2.2.2.2.2.2.2.1 [32] (by decide) (by decide)⟩

/-! ## Lemmas on 32-bit arithmetic -/

theorem int32_id (x : Int) (h0 : -(2 ^ 31) ≤ x) (h1 : x < 2 ^ 31) : int32 x = x := by
  simp only [int32]; omega

theorem ptr32_lt (x : Int) : ptr32 x < 2 ^ 32 := by
  simp only [ptr32]; omega

theorem ptr32_add (x n : Int) : ptr32 ((ptr32 x : Int) + n) = ptr32 (x + n) := by
  simp only [ptr32]; omega

/-! ## C11: WAIT_EVENT -/

theorem pendSV_bit (x : Nat) : (x ||| CTX_SCBICSR_PendSVSet).testBit 28 = true := by
  rw [Nat.testBit_or, CTX_SCBICSR_PendSVSet, Nat.one_shiftLeft, Nat.testBit_two_pow_self,
    Bool.or_true]

/-- WAIT_EVENT on an event whose flag set is empty. -/
theorem svc_wait_event_block (k : Kernel) (ev p2 : Nat) (h : (k.event ev).eFlagSet = 0) :
    svcDispatch k ev p2 .DO_WAIT_EVENT =
      performReschedule
        { k with
          mem := (taskEnqueue (set_tWait k.mem k.sCurrentTask 1) (k.event ev).eTaskQueue
                    k.sCurrentTask).1,
          event := upd k.event ev
            { k.event ev with
              eTaskQueue := (taskEnqueue (set_tWait k.mem k.sCurrentTask 1)
                              (k.event ev).eTaskQueue k.sCurrentTask).2 } } := by
  simp [svcDispatch, h]

/-- C11: WAIT_EVENT blocks only on an empty flag set.  For every kernel state and
event: if the flag set is non-zero, WAIT_EVENT leaves the whole kernel state
unchanged.  If it is zero, WAIT_EVENT sets the pending-scheduler bit (requests a
reschedule), keeps the current task, the ready-queue record and the flag set,
and, the event's wait queue being well-formed with contents `l` and the current
task a task whose TCB is disjoint from those of `l`, sets the current task's
wait flag and appends it at the tail of the event's wait queue. -/
theorem C11_wait_event (k : Kernel) (ev p2 : Nat) :
    ((k.event ev).eFlagSet ≠ 0 → svcDispatch k ev p2 .DO_WAIT_EVENT = k) ∧
    ((k.event ev).eFlagSet = 0 →
      (svcDispatch k ev p2 .DO_WAIT_EVENT).ICSR = k.ICSR ||| CTX_SCBICSR_PendSVSet ∧
      (svcDispatch k ev p2 .DO_WAIT_EVENT).ICSR.testBit 28 = true ∧
      (svcDispatch k ev p2 .DO_WAIT_EVENT).sCurrentTask = k.sCurrentTask ∧
      (svcDispatch k ev p2 .DO_WAIT_EVENT).sTaskList = k.sTaskList ∧
      ((svcDispatch k ev p2 .DO_WAIT_EVENT).event ev).eFlagSet = 0 ∧
      ∀ l : List Nat, Holds k.mem (k.event ev).eTaskQueue l →
        TcbSep (k.sCurrentTask :: l) → k.sCurrentTask ≠ 0 →
        tWait (svcDispatch k ev p2 .DO_WAIT_EVENT).mem k.sCurrentTask = 1 ∧
        Holds (svcDispatch k ev p2 .DO_WAIT_EVENT).mem
          ((svcDispatch k ev p2 .DO_WAIT_EVENT).event ev).eTaskQueue
          (l ++ [k.sCurrentTask])) := by
  constructor
  · intro h
    simp [svcDispatch, h]
  · intro h
    rw [svc_wait_event_block k ev p2 h]
    refine ⟨rfl, pendSV_bit _, rfl, rfl, ?_, ?_⟩
    · simp [performReschedule, upd, h]
    · intro l hq hsep hc0
      have hcl : k.sCurrentTask ∉ l := (List.nodup_cons.1 (tcbSep_nodup hsep)).1
      have hsub : ∀ u ∈ l, u ∈ k.sCurrentTask :: l := fun u hu => List.mem_cons_of_mem _ hu
      have hcm : k.sCurrentTask ∈ k.sCurrentTask :: l := List.mem_cons_self _ l
      have hq1 : Holds (set_tWait k.mem k.sCurrentTask 1) (k.event ev).eTaskQueue l := by
        refine holds_frame _ _ _ _ ?_ hq
        intro u hu
        have := tcbSep_mem hsep (hsub u hu) hcm
        exact set_tWait_other _ _ _ _ (by omega)
      simp only [performReschedule, upd_same]
      refine ⟨?_, (taskEnqueue_holds _ _ l _ hq1 hcl hc0).1⟩
      have hcell : (taskEnqueue (set_tWait k.mem k.sCurrentTask 1) (k.event ev).eTaskQueue
          k.sCurrentTask).1 (k.sCurrentTask + 8)
          = set_tWait k.mem k.sCurrentTask 1 (k.sCurrentTask + 8) := by
        apply taskEnqueue_mem_frame _ _ l _ _ hq1
        · omega
        · intro u hu
          have := tcbSep_mem hsep (hsub u hu) hcm
          omega
      rw [tWait_congr _ _ _ hcell, tWait_set_tWait]

/-- C11 on task 48 waiting on the empty event 200: it is queued with its wait
flag set. -/
theorem C11_wait_event_witness :
    (kernelSig.event 200).eFlagSet = 0 ∧
    Holds kernelSig.mem (kernelSig.event 200).eTaskQueue [] ∧
    tWait (svcDispatch kernelSig 200 0 .DO_WAIT_EVENT).mem 48 = 1 ∧
    Holds (svcDispatch kernelSig 200 0 .DO_WAIT_EVENT).mem
      ((svcDispatch kernelSig 200 0 .DO_WAIT_EVENT).event 200).eTaskQueue [48] := by
  have h := ((C11_wait_event kernelSig 200 0).2 (by decide)).2.2.2.2.2 [] (by decide)
    (by decide) (by decide)
  exact ⟨by decide, by decide, h.1, h.2⟩

/-! ## C12: the scheduler lock defers preemption -/

/-- The result of `getNextTask`, field by field. -/
theorem getNextTask_eq (b : Build) (k : Kernel) :
    getNextTask b k =
      { k with
        mem := (pickQueue b k).1,
        sTaskList := (taskDequeue (pickQueue b k).1 (pickQueue b k).2).1,
        sLeavingTask := k.sCurrentTask,
        sCurrentTask :=
          if b.USE_IDLE_TASK && (taskDequeue (pickQueue b k).1 (pickQueue b k).2).2 == 0
          then k.sIdleTask
          else (taskDequeue (pickQueue b k).1 (pickQueue b k).2).2 } := by
  by_cases h1 : tWait k.mem k.sCurrentTask = 0
  · by_cases h2 : (b.USE_IDLE && k.sCurrentTask == k.sIdleTask) = true
    · by_cases h3 : (b.USE_IDLE_TASK && (taskDequeue k.mem k.sTaskList).2 == 0) = true
      · simp [getNextTask, pickQueue, readyEnqueue, h1, h2, h3]
      · simp [getNextTask, pickQueue, readyEnqueue, h1, h2, h3]
    · by_cases h3 : (b.USE_IDLE_TASK &&
          (taskDequeue (taskEnqueue k.mem k.sTaskList k.sCurrentTask).1
            (taskEnqueue k.mem k.sTaskList k.sCurrentTask).2).2 == 0) = true
      · simp [getNextTask, pickQueue, readyEnqueue, h1, h2, h3]
      · simp [getNextTask, pickQueue, readyEnqueue, h1, h2, h3]
  · by_cases h3 : (b.USE_IDLE_TASK && (taskDequeue k.mem k.sTaskList).2 == 0) = true
    · simp [getNextTask, pickQueue, readyEnqueue, h1, h3]
    · simp [getNextTask, pickQueue, readyEnqueue, h1, h3]

/-- The pending-scheduler handler does nothing while the scheduler is locked. -/
theorem sched_locked (b : Build) (a : Arch) (s : Kernel × Cpu) (h : s.1.sLockCount ≠ 0) :
    YOS_SchedulerIrq b a s = s := by
  simp [YOS_SchedulerIrq, h]

/-- `getNextTask` neither reads nor writes the interrupt mask. -/
theorem getNextTask_mask (b : Build) (k : Kernel) (x : Bool) :
    getNextTask b { k with irqMasked := x } = { getNextTask b k with irqMasked := x } := by
  rw [getNextTask_eq, getNextTask_eq]
  rfl

/-- With a non-empty ready queue `getNextTask` selects its head. -/
theorem getNextTask_head (b : Build) (k : Kernel) (h : k.sTaskList.tlHead ≠ 0) :
    (getNextTask b k).sCurrentTask = k.sTaskList.tlHead := by
  have e : (pickQueue b k).2.tlHead = k.sTaskList.tlHead := by
    simp only [pickQueue]
    split
    · split
      · rfl
      · simp [taskEnqueue, h]
    · rfl
  have d : (taskDequeue (pickQueue b k).1 (pickQueue b k).2).2 = k.sTaskList.tlHead := by
    simp only [taskDequeue, e]
    rw [if_pos h]
  rw [getNextTask_eq]
  simp [d, h]

/-- The handler when the scheduler is not locked, in terms of the result `g` of
`getNextTask`. -/
theorem sched_unlocked (b : Build) (a : Arch) (k : Kernel) (c : Cpu) (h : k.sLockCount = 0) :
    YOS_SchedulerIrq b a (k, c) =
      if (getNextTask b k).sCurrentTask ≠ 0 then
        if (getNextTask b k).sCurrentTask ≠ (getNextTask b k).sLeavingTask then
          contextSwitch a
            (if b.USE_IDLE_TASK then { getNextTask b k with irqMasked := false }
             else resetSleepOnExit { getNextTask b k with irqMasked := false }) c
        else
          (if b.USE_IDLE_TASK then { getNextTask b k with irqMasked := false }
           else resetSleepOnExit { getNextTask b k with irqMasked := false }, c)
      else
        (if b.USE_IDLE_TASK then { getNextTask b k with irqMasked := false }
         else setSleepOnExit { getNextTask b k with irqMasked := false }, c) := by
  unfold YOS_SchedulerIrq
  rw [if_pos (show (k, c).1.sLockCount = 0 from h)]
  simp only [getNextTask_mask]
  generalize getNextTask b k = g
  cases b.USE_IDLE_TASK <;> rfl

/-- The current, leaving and ready-queue fields after the handler, when the
scheduler is not locked: those computed by `getNextTask`. -/
theorem sched_pick (b : Build) (a : Arch) (k : Kernel) (c : Cpu) (h : k.sLockCount = 0) :
    (YOS_SchedulerIrq b a (k, c)).1.sCurrentTask = (getNextTask b k).sCurrentTask ∧
    (YOS_SchedulerIrq b a (k, c)).1.sLeavingTask = (getNextTask b k).sLeavingTask ∧
    (YOS_SchedulerIrq b a (k, c)).1.sTaskList = (getNextTask b k).sTaskList := by
  rw [sched_unlocked b a k c h]
  generalize getNextTask b k = g
  cases b.USE_IDLE_TASK <;> (split <;> [split; skip]) <;> exact ⟨rfl, rfl, rfl⟩

/-- `j` matching unlock calls lower the lock counter by `j` and change nothing
else. -/
theorem unlock_iterate (j : Nat) :
    ∀ k : Kernel, (j : Int) ≤ k.sLockCount → k.sLockCount < 2 ^ 31 →
      Nat.iterate YOS_Unlock j k = { k with sLockCount := k.sLockCount - j } := by
  induction j with
  | zero =>
    intro k _ _
    simp
  | succ j ih =>
    intro k h0 h1
    have hp : k.sLockCount > 0 := by push_cast at h0; omega
    have hu : YOS_Unlock k = { k with sLockCount := k.sLockCount - 1 } := by
      simp only [YOS_Unlock, hp, if_true]
      rw [int32_id _ (by omega) (by omega)]
    rw [Function.iterate_succ_apply, hu, ih _ (by simp only []; push_cast at h0; omega)
      (by simp only []; omega)]
    simp only []
    have e : k.sLockCount - 1 - (j : Int) = k.sLockCount - ((j + 1 : Nat) : Int) := by
      push_cast; omega
    rw [e]

/-- C12: the scheduler lock defers preemption.  For every kernel state whose
scheduler-lock counter is positive, a tick followed by the pending-scheduler
handler changes nothing but the tick counter (and the pending bit that the
tick sets in ICSR): current, leaving, ready queue, the whole task memory with
every TCB, and the registers are as before; this stays so after fewer unlock
calls than the counter's value.  Once as many unlock calls as the counter's
value have been made, the counter is 0 and nothing else has changed, and the
next tick followed by the handler makes the head of a non-empty ready queue
the current task. -/
theorem C12_lock_defers (b : Build) (a : Arch) (k : Kernel) (c : Cpu)
    (hl : 0 < k.sLockCount) (hl2 : k.sLockCount < 2 ^ 31) :
    YOS_SchedulerIrq b a (YOS_SystemTickIrq k, c)
      = ({ k with sSystemTicks := (k.sSystemTicks + 1) % 2 ^ 32,
                  ICSR := k.ICSR ||| CTX_SCBICSR_PendSVSet }, c) ∧
    (∀ j : Nat, (j : Int) < k.sLockCount →
      (YOS_SchedulerIrq b a (YOS_SystemTickIrq (Nat.iterate YOS_Unlock j k), c)).1.sCurrentTask
        = k.sCurrentTask) ∧
    Nat.iterate YOS_Unlock k.sLockCount.toNat k = { k with sLockCount := 0 } ∧
    (k.sTaskList.tlHead ≠ 0 →
      (YOS_SchedulerIrq b a
        (YOS_SystemTickIrq (Nat.iterate YOS_Unlock k.sLockCount.toNat k), c)).1.sCurrentTask
        = k.sTaskList.tlHead) := by
  have hall : Nat.iterate YOS_Unlock k.sLockCount.toNat k = { k with sLockCount := 0 } := by
    rw [unlock_iterate _ k (by omega) hl2]
    have e : k.sLockCount - (k.sLockCount.toNat : Int) = 0 := by omega
    rw [e]
  refine ⟨?_, ?_, hall, ?_⟩
  · rw [sched_locked b a _ (by simp only [YOS_SystemTickIrq, performReschedule]; omega)]
    rfl
  · intro j hj
    rw [unlock_iterate j k (by omega) hl2,
      sched_locked b a _ (by simp only [YOS_SystemTickIrq, performReschedule]; omega)]
    rfl
  · intro hh
    rw [hall]
    exact (sched_pick b a _ c rfl).1.trans (getNextTask_head b _ hh)

/-- C12 on the state locked twice with task 16 running and 32, 48 ready: a tick
and the handler leave task 16 running; after two unlock calls the next tick
and handler make task 32 the current task. -/
theorem C12_lock_defers_witness :
    0 < kernelLocked.sLockCount ∧
    (YOS_SchedulerIrq buildNoIdle .v6m (YOS_SystemTickIrq kernelLocked, cpuDemo)).1.sCurrentTask
      = 16 ∧
    (YOS_SchedulerIrq buildNoIdle .v6m
      (YOS_SystemTickIrq (Nat.iterate YOS_Unlock 2 kernelLocked), cpuDemo)).1.sCurrentTask
      = 32 := by
  have h := C12_lock_defers buildNoIdle .v6m kernelLocked cpuDemo (by decide) (by decide)
  refine ⟨by decide, ?_, h.2.2.2 (by decide)⟩
  rw [h.1]
  rfl

/-! ## C15: nesting counters -/

theorem disableIrq_fields (k : Kernel) :
    (YOS_DisableIrq k).sDisableIrqCount = int32 (k.sDisableIrqCount + 1) ∧
    (YOS_DisableIrq k).sLockCount = k.sLockCount ∧
    (YOS_DisableIrq k).irqMasked = (if k.sDisableIrqCount = 0 then true else k.irqMasked) := by
  simp only [YOS_DisableIrq]
  split <;> exact ⟨rfl, rfl, rfl⟩

theorem enableIrq_fields (k : Kernel) :
    (YOS_EnableIrq k).sDisableIrqCount
      = (if k.sDisableIrqCount > 0 then int32 (k.sDisableIrqCount - 1)
         else k.sDisableIrqCount) ∧
    (YOS_EnableIrq k).sLockCount = k.sLockCount ∧
    (YOS_EnableIrq k).irqMasked
      = (if (if k.sDisableIrqCount > 0 then int32 (k.sDisableIrqCount - 1)
             else k.sDisableIrqCount) = 0 then false else k.irqMasked) := by
  simp only [YOS_EnableIrq]
  split <;> split <;> simp_all

theorem unlock_fields (k : Kernel) :
    (YOS_Unlock k).sDisableIrqCount = k.sDisableIrqCount ∧
    (YOS_Unlock k).sLockCount
      = (if k.sLockCount > 0 then int32 (k.sLockCount - 1) else k.sLockCount) ∧
    (YOS_Unlock k).irqMasked = k.irqMasked := by
  simp only [YOS_Unlock]
  split <;> exact ⟨rfl, rfl, rfl⟩

theorem enableIrq_of (K : Kernel) (c : Int) (b : Bool)
    (hc : K.sDisableIrqCount = c) (hb : K.irqMasked = b) :
    (YOS_EnableIrq K).sDisableIrqCount = (if c > 0 then int32 (c - 1) else c) ∧
    (YOS_EnableIrq K).sLockCount = K.sLockCount ∧
    (YOS_EnableIrq K).irqMasked
      = (if (if c > 0 then int32 (c - 1) else c) = 0 then false else b) := by
  subst hc; subst hb
  exact enableIrq_fields K

theorem lock_fields (k : Kernel) (h0 : 0 ≤ k.sDisableIrqCount)
    (h1 : k.sDisableIrqCount + 1 < 2 ^ 31)
    (hm : k.irqMasked = true ↔ 0 < k.sDisableIrqCount) :
    (YOS_Lock k).sDisableIrqCount = k.sDisableIrqCount ∧
    (YOS_Lock k).sLockCount = int32 (k.sLockCount + 1) ∧
    (YOS_Lock k).irqMasked = k.irqMasked := by
  obtain ⟨d1, d2, d3⟩ := disableIrq_fields k
  have i1 : int32 (k.sDisableIrqCount + 1) = k.sDisableIrqCount + 1 :=
    int32_id _ (by omega) (by omega)
  have i2 : int32 (k.sDisableIrqCount + 1 - 1) = k.sDisableIrqCount :=
    (int32_id _ (by omega) (by omega)).trans (by omega)
  have pos : k.sDisableIrqCount + 1 > 0 := by omega
  obtain ⟨e1, e2, e3⟩ := enableIrq_of
    { YOS_DisableIrq k with sLockCount := int32 ((YOS_DisableIrq k).sLockCount + 1) }
    (k.sDisableIrqCount + 1) (if k.sDisableIrqCount = 0 then true else k.irqMasked)
    (d1.trans i1) d3
  simp only [pos, if_true, i2] at e1 e3
  refine ⟨e1, e2.trans (by rw [d2]), ?_⟩
  refine e3.trans ?_
  by_cases hz : k.sDisableIrqCount = 0
  · simp only [hz, if_true]
    cases hk : k.irqMasked
    · rfl
    · have := hm.1 hk; omega
  · simp only [hz, if_false]

/-- One nesting call keeps the invariant of the counters; the bound `n` keeps
the C `int` counters away from overflow. -/
theorem applyOp_inv (k : Kernel) (o : LockOp) (n : Int) (hn : n + 1 < 2 ^ 31)
    (hc : 0 ≤ k.sDisableIrqCount ∧ k.sDisableIrqCount ≤ n)
    (hl : 0 ≤ k.sLockCount ∧ k.sLockCount ≤ n)
    (hm : k.irqMasked = true ↔ 0 < k.sDisableIrqCount) :
    (0 ≤ (applyOp k o).sDisableIrqCount ∧ (applyOp k o).sDisableIrqCount ≤ n + 1) ∧
    (0 ≤ (applyOp k o).sLockCount ∧ (applyOp k o).sLockCount ≤ n + 1) ∧
    ((applyOp k o).irqMasked = true ↔ 0 < (applyOp k o).sDisableIrqCount) := by
  cases o
  · obtain ⟨d1, d2, d3⟩ := disableIrq_fields k
    have i1 : int32 (k.sDisableIrqCount + 1) = k.sDisableIrqCount + 1 :=
      int32_id _ (by omega) (by omega)
    simp only [applyOp]
    rw [d1, d2, d3, i1]
    refine ⟨by omega, by omega, ?_⟩
    by_cases hz : k.sDisableIrqCount = 0
    · simp [hz]
    · simp only [hz, if_false, hm]; omega
  · obtain ⟨e1, e2, e3⟩ := enableIrq_fields k
    simp only [applyOp]
    rw [e1, e2, e3]
    by_cases hp : k.sDisableIrqCount > 0
    · have i1 : int32 (k.sDisableIrqCount - 1) = k.sDisableIrqCount - 1 :=
        int32_id _ (by omega) (by omega)
      simp only [hp, if_true, i1]
      refine ⟨by omega, by omega, ?_⟩
      by_cases hz : k.sDisableIrqCount - 1 = 0
      · simp only [hz, if_true]; simp
      · simp only [hz, if_false, hm]; omega
    · have hz : k.sDisableIrqCount = 0 := by omega
      simp only [hp, if_false, hz, if_true]
      refine ⟨by omega, by omega, ?_⟩
      simp
  · obtain ⟨l1, l2, l3⟩ := lock_fields k hc.1 (by omega) hm
    have i1 : int32 (k.sLockCount + 1) = k.sLockCount + 1 := int32_id _ (by omega) (by omega)
    simp only [applyOp]
    rw [l1, l2, l3, i1]
    exact ⟨by omega, by omega, hm⟩
  · obtain ⟨u1, u2, u3⟩ := unlock_fields k
    simp only [applyOp]
    rw [u1, u2, u3]
    refine ⟨by omega, ?_, hm⟩
    by_cases hp : k.sLockCount > 0
    · have i1 : int32 (k.sLockCount - 1) = k.sLockCount - 1 :=
        int32_id _ (by omega) (by omega)
      simp only [hp, if_true, i1]; omega
    · simp only [hp, if_false]; omega

theorem applyOps_inv (ops : List LockOp) :
    ∀ (k : Kernel) (n : Int), n + ops.length < 2 ^ 31 →
      (0 ≤ k.sDisableIrqCount ∧ k.sDisableIrqCount ≤ n) →
      (0 ≤ k.sLockCount ∧ k.sLockCount ≤ n) →
      (k.irqMasked = true ↔ 0 < k.sDisableIrqCount) →
      (0 ≤ (applyOps k ops).sDisableIrqCount ∧
        (applyOps k ops).sDisableIrqCount ≤ n + ops.length) ∧
      (0 ≤ (applyOps k ops).sLockCount ∧ (applyOps k ops).sLockCount ≤ n + ops.length) ∧
      ((applyOps k ops).irqMasked = true ↔ 0 < (applyOps k ops).sDisableIrqCount) := by
  induction ops with
  | nil =>
    intro k n _ hc hl hm
    simpa [applyOps] using ⟨hc, hl, hm⟩
  | cons o os ih =>
    intro k n hn hc hl hm
    have hlen : ((o :: os).length : Int) = os.length + 1 := by simp
    obtain ⟨a1, a2, a3⟩ := applyOp_inv k o n (by omega) hc hl hm
    have := ih (applyOp k o) (n + 1) (by omega) a1 a2 a3
    simp only [applyOps]
    rw [hlen]
    have e : n + 1 + (os.length : Int) = n + ((os.length : Int) + 1) := by omega
    rw [e] at this
    exact this

theorem applyOps_append (os1 : List LockOp) :
    ∀ (k : Kernel) (os2 : List LockOp),
      applyOps k (os1 ++ os2) = applyOps (applyOps k os1) os2 := by
  induction os1 with
  | nil => intro k os2; rfl
  | cons o os ih => intro k os2; exact ih (applyOp k o) os2

theorem disable_count (n : Nat) :
    ∀ (k : Kernel), 0 ≤ k.sDisableIrqCount → k.sDisableIrqCount + n < 2 ^ 31 →
      (applyOps k (List.replicate n .disableIrq)).sDisableIrqCount
        = k.sDisableIrqCount + n := by
  induction n with
  | zero => intro k _ _; simp [applyOps]
  | succ n ih =>
    intro k h0 h1
    have d1 := (disableIrq_fields k).1
    rw [int32_id _ (by omega) (by omega)] at d1
    have := ih (YOS_DisableIrq k) (by omega) (by rw [d1]; push_cast at h1; omega)
    simp only [List.replicate_succ, applyOps, applyOp]
    rw [this, d1]
    push_cast; omega

theorem enable_count (j : Nat) :
    ∀ (k : Kernel), (j : Int) ≤ k.sDisableIrqCount → k.sDisableIrqCount < 2 ^ 31 →
      (applyOps k (List.replicate j .enableIrq)).sDisableIrqCount
        = k.sDisableIrqCount - j := by
  induction j with
  | zero => intro k _ _; simp [applyOps]
  | succ j ih =>
    intro k h0 h1
    have e1 := (enableIrq_fields k).1
    have hp : k.sDisableIrqCount > 0 := by push_cast at h0; omega
    simp only [hp, if_true] at e1
    rw [int32_id _ (by omega) (by omega)] at e1
    have := ih (YOS_EnableIrq k) (by rw [e1]; push_cast at h0; omega) (by omega)
    simp only [List.replicate_succ, applyOps, applyOp]
    rw [this, e1]
    push_cast; omega

/-- C15: nesting counters.  From a state with interrupt counter 0, interrupts
unmasked and lock counter 0, after any sequence of `YOS_DisableIrq`,
`YOS_EnableIrq`, `YOS_Lock` and `YOS_Unlock` calls (short enough that the C
`int` counters cannot overflow): both counters are non-negative; interrupts are
masked if and only if the interrupt counter is positive; an enable or unlock
issued at counter 0 leaves that counter at 0; a disable or enable call changes
the mask only on the 0 -> 1 respectively 1 -> 0 edge of the interrupt counter,
and lock and unlock leave the mask as it was; in particular after `n` disable
calls and `j ≤ n` enable calls the counter is `n - j` and interrupts are still
masked exactly when `j < n`. -/
theorem C15_nesting_counters (k : Kernel) (ops : List LockOp)
    (h1 : k.sDisableIrqCount = 0) (h2 : k.irqMasked = false) (h3 : k.sLockCount = 0)
    (hlen : (ops.length : Int) + 1 < 2 ^ 31) :
    0 ≤ (applyOps k ops).sDisableIrqCount ∧
    0 ≤ (applyOps k ops).sLockCount ∧
    ((applyOps k ops).irqMasked = true ↔ 0 < (applyOps k ops).sDisableIrqCount) ∧
    ((applyOps k ops).sDisableIrqCount = 0 →
      (YOS_EnableIrq (applyOps k ops)).sDisableIrqCount = 0) ∧
    ((applyOps k ops).sLockCount = 0 → (YOS_Unlock (applyOps k ops)).sLockCount = 0) ∧
    ((YOS_DisableIrq (applyOps k ops)).irqMasked ≠ (applyOps k ops).irqMasked →
      (applyOps k ops).sDisableIrqCount = 0 ∧
      (YOS_DisableIrq (applyOps k ops)).sDisableIrqCount = 1) ∧
    ((YOS_EnableIrq (applyOps k ops)).irqMasked ≠ (applyOps k ops).irqMasked →
      (applyOps k ops).sDisableIrqCount = 1 ∧
      (YOS_EnableIrq (applyOps k ops)).sDisableIrqCount = 0) ∧
    (YOS_Lock (applyOps k ops)).irqMasked = (applyOps k ops).irqMasked ∧
    (YOS_Unlock (applyOps k ops)).irqMasked = (applyOps k ops).irqMasked ∧
    (∀ n j : Nat, j ≤ n → (n : Int) + j + 1 < 2 ^ 31 →
      (applyOps k (List.replicate n .disableIrq ++ List.replicate j .enableIrq)).sDisableIrqCount
        = n - j ∧
      ((applyOps k (List.replicate n .disableIrq ++ List.replicate j .enableIrq)).irqMasked
        = true ↔ j < n)) := by
  have hm0 : k.irqMasked = true ↔ 0 < k.sDisableIrqCount := by
    rw [h1, h2]; simp
  obtain ⟨⟨c0, c1⟩, ⟨l0, l1⟩, hm⟩ := applyOps_inv ops k 0 (by omega) (by omega) (by omega) hm0
  generalize applyOps k ops = K at c0 c1 l0 l1 hm
  obtain ⟨d1, _, d3⟩ := disableIrq_fields K
  obtain ⟨e1, _, e3⟩ := enableIrq_fields K
  obtain ⟨_, u2, u3⟩ := unlock_fields K
  refine ⟨c0, l0, hm, ?_, ?_, ?_, ?_, (lock_fields K c0 (by omega) hm).2.2, u3, ?_⟩
  · intro hz
    rw [e1, hz]; simp
  · intro hz
    rw [u2, hz]; simp
  · intro hne
    rw [d3] at hne
    by_cases hz : K.sDisableIrqCount = 0
    · refine ⟨hz, ?_⟩
      rw [d1, hz]; simp [int32]
    · simp [hz] at hne
  · intro hne
    rw [e3] at hne
    by_cases hp : K.sDisableIrqCount > 0
    · have i1 : int32 (K.sDisableIrqCount - 1) = K.sDisableIrqCount - 1 :=
        int32_id _ (by omega) (by omega)
      simp only [hp, if_true, i1] at hne e1
      by_cases hz : K.sDisableIrqCount - 1 = 0
      · exact ⟨by omega, by rw [e1]; exact hz⟩
      · simp [hz] at hne
    · have hz : K.sDisableIrqCount = 0 := by omega
      have hf : K.irqMasked = false := by
        cases hk : K.irqMasked
        · rfl
        · have := hm.1 hk; omega
      simp [hz, hf] at hne
  · intro n j hj hb
    have q1 := disable_count n k (by omega) (by rw [h1]; omega)
    rw [h1] at q1
    have q2 := enable_count j (applyOps k (List.replicate n .disableIrq))
      (by rw [q1]; omega) (by rw [q1]; omega)
    rw [q1] at q2
    have inv := applyOps_inv (List.replicate n .disableIrq ++ List.replicate j .enableIrq) k 0
      (by simp only [List.length_append, List.length_replicate]; push_cast; omega)
      (by omega) (by omega) hm0
    rw [applyOps_append] at inv ⊢
    rw [q2] at inv ⊢
    refine ⟨by omega, ?_⟩
    rw [inv.2.2]
    omega

/-- C15 on the sequence disable, lock, disable, enable, unlock, enable from the
reset state: the counter is back at 0 and interrupts are unmasked. -/
theorem C15_nesting_counters_witness :
    kernel0.sDisableIrqCount = 0 ∧ kernel0.irqMasked = false ∧ kernel0.sLockCount = 0 ∧
    0 ≤ (applyOps kernel0
      [.disableIrq, .lock, .disableIrq, .enableIrq, .unlock, .enableIrq]).sDisableIrqCount ∧
    ((applyOps kernel0 (List.replicate 2 .disableIrq ++ List.replicate 1 .enableIrq)).irqMasked
      = true ↔ 1 < 2) := by
  have h := C15_nesting_counters kernel0
    [.disableIrq, .lock, .disableIrq, .enableIrq, .unlock, .enableIrq] rfl rfl rfl (by decide)
  exact ⟨rfl, rfl, rfl, h.1, (h.2.2.2.2.2.2.2.2.2 2 1 (by decide) (by decide)).2⟩

/-! ## C16: idle behaviour -/

/-- `getNextTask` with a blocked current task and an empty ready queue: nothing
is queued or written, the leaving task is the old current task, and the new
current task is the idle task in a `USE_IDLE_TASK` build and absent otherwise. -/
theorem getNextTask_blocked_empty (b : Build) (k : Kernel)
    (hw : tWait k.mem k.sCurrentTask = 1) (he : k.sTaskList.tlHead = 0) :
    getNextTask b k =
      { k with sLeavingTask := k.sCurrentTask,
               sCurrentTask := if b.USE_IDLE_TASK then k.sIdleTask else 0 } := by
  have hp : pickQueue b k = (k.mem, k.sTaskList) := by
    simp [pickQueue, hw]
  rw [getNextTask_eq, hp, taskDequeue_empty _ _ he]
  cases b.USE_IDLE_TASK <;> rfl

theorem sleep_bits (x y : Nat) :
    (x ||| CTX_SCBSCR_SleepOnExit).testBit 1 = true ∧
    (y &&& (0xFFFFFFFF ^^^ 1)).testBit 0 = false ∧
    (x &&& (0xFFFFFFFF ^^^ CTX_SCBSCR_SleepOnExit)).testBit 1 = false ∧
    (y ||| 1).testBit 0 = true := by
  refine ⟨?_, ?_, ?_, ?_⟩
  · rw [Nat.testBit_or]
    have : Nat.testBit CTX_SCBSCR_SleepOnExit 1 = true := by decide
    rw [this, Bool.or_true]
  · rw [Nat.testBit_and]
    have : Nat.testBit (0xFFFFFFFF ^^^ 1) 0 = false := by decide
    rw [this, Bool.and_false]
  · rw [Nat.testBit_and]
    have : Nat.testBit (0xFFFFFFFF ^^^ CTX_SCBSCR_SleepOnExit) 1 = false := by decide
    rw [this, Bool.and_false]
  · rw [Nat.testBit_or]
    have : Nat.testBit 1 0 = true := by decide
    rw [this, Bool.or_true]

/-- C16: idle behaviour.  When the pending-scheduler handler runs with lock
counter 0, a blocked current task (`tWait == 1`) and an empty ready queue: in a
build without idle task the current task becomes absent, the sleep-on-exit bit
(bit 1) of SCR is set, the SysTick enable bit (bit 0 of CSR) is cleared, and no
context is saved or restored (task memory and registers are unchanged); in a
build with `USE_IDLE_TASK` the current task becomes the idle task.  And in a
build without idle task, whenever a run of the handler (unlocked, or starting
with the current task absent) leaves the current task present, sleep-on-exit
is cleared and the SysTick enable bit is set. -/
theorem C16_idle_behaviour (b : Build) (a : Arch) (k : Kernel) (c : Cpu)
    (hl : k.sLockCount = 0) (hw : tWait k.mem k.sCurrentTask = 1)
    (he : k.sTaskList.tlHead = 0) :
    (b.USE_IDLE_TASK = false →
      (YOS_SchedulerIrq b a (k, c)).1.sCurrentTask = 0 ∧
      (YOS_SchedulerIrq b a (k, c)).1.SCR.testBit 1 = true ∧
      (YOS_SchedulerIrq b a (k, c)).1.CSR.testBit 0 = false ∧
      (YOS_SchedulerIrq b a (k, c)).1.mem = k.mem ∧
      (YOS_SchedulerIrq b a (k, c)).2 = c ∧
      (YOS_SchedulerIrq b a (k, c)).1.sTaskList = k.sTaskList ∧
      (YOS_SchedulerIrq b a (k, c)).1.sLeavingTask = k.sCurrentTask) ∧
    (b.USE_IDLE_TASK = true →
      (YOS_SchedulerIrq b a (k, c)).1.sCurrentTask = k.sIdleTask) ∧
    (∀ (k1 : Kernel) (c1 : Cpu), b.USE_IDLE_TASK = false →
      (k1.sLockCount = 0 ∨ k1.sCurrentTask = 0) →
      (YOS_SchedulerIrq b a (k1, c1)).1.sCurrentTask ≠ 0 →
      (YOS_SchedulerIrq b a (k1, c1)).1.SCR.testBit 1 = false ∧
      (YOS_SchedulerIrq b a (k1, c1)).1.CSR.testBit 0 = true) := by
  refine ⟨?_, ?_, ?_⟩
  · intro hb
    rw [sched_unlocked b a k c hl, getNextTask_blocked_empty b k hw he, hb]
    rw [if_neg (by simp)]
    exact ⟨rfl, (sleep_bits k.SCR k.CSR).1, (sleep_bits k.SCR k.CSR).2.1, rfl, rfl, rfl, rfl⟩
  · intro hb
    rw [(sched_pick b a k c hl).1, getNextTask_blocked_empty b k hw he, hb]
    rfl
  · intro k1 c1 hb hor
    by_cases hl1 : k1.sLockCount = 0
    · rw [sched_unlocked b a k1 c1 hl1, hb]
      simp only [Bool.false_eq_true, if_false]
      generalize getNextTask b k1 = g
      by_cases hc : g.sCurrentTask ≠ 0
      · rw [if_pos hc]
        by_cases hd : g.sCurrentTask ≠ g.sLeavingTask
        · rw [if_pos hd]
          intro _
          exact ⟨(sleep_bits g.SCR g.CSR).2.2.1, (sleep_bits g.SCR g.CSR).2.2.2⟩
        · rw [if_neg hd]
          intro _
          exact ⟨(sleep_bits g.SCR g.CSR).2.2.1, (sleep_bits g.SCR g.CSR).2.2.2⟩
      · rw [if_neg hc]
        intro hne
        exact absurd (not_not.1 hc) hne
    · rw [sched_locked b a (k1, c1) hl1]
      intro hne
      rcases hor with h | h
      · exact absurd h hl1
      · exact absurd h hne

/-- C16 on the blocked task 16 with nothing ready: without idle task the current
task becomes absent and sleep-on-exit is set; with the idle task 64 configured
it becomes current. -/
theorem C16_idle_behaviour_witness :
    kernelBlocked.sLockCount = 0 ∧ tWait kernelBlocked.mem kernelBlocked.sCurrentTask = 1 ∧
    kernelBlocked.sTaskList.tlHead = 0 ∧
    (YOS_SchedulerIrq buildNoIdle .v7m (kernelBlocked, cpuDemo)).1.sCurrentTask = 0 ∧
    (YOS_SchedulerIrq buildNoIdle .v7m (kernelBlocked, cpuDemo)).1.SCR.testBit 1 = true ∧
    (YOS_SchedulerIrq buildIdle .v7m (kernelBlocked, cpuDemo)).1.sCurrentTask = 64 := by
  have h1 := (C16_idle_behaviour buildNoIdle .v7m kernelBlocked cpuDemo rfl (by decide) rfl).1 rfl
  have h2 := (C16_idle_behaviour buildIdle .v7m kernelBlocked cpuDemo rfl (by decide) rfl).2.1 rfl
  exact ⟨rfl, by decide, rfl, h1.1, h1.2.1, h2⟩

/-! ## C17: the ISR-safe operations never touch the current task -/

/-- C17: SIGNAL and SIGNAL_EVENT never touch `current`.  For every kernel state
`k`, every other value `c` of the current-task reference and every argument,
running SIGNAL (or SIGNAL_EVENT) on the state with current task `c` gives
exactly the result on `k` with its current-task reference replaced by `c`: the
two results again differ only in the current-task reference.  In particular
neither operation modifies the current-task or the leaving-task reference. -/
theorem C17_isr_safe (k : Kernel) (c par1 par2 : Nat) :
    svcDispatch { k with sCurrentTask := c } par1 par2 .DO_SIGNAL
      = { svcDispatch k par1 par2 .DO_SIGNAL with sCurrentTask := c } ∧
    svcDispatch { k with sCurrentTask := c } par1 par2 .DO_SIGNAL_EVENT
      = { svcDispatch k par1 par2 .DO_SIGNAL_EVENT with sCurrentTask := c } ∧
    (svcDispatch k par1 par2 .DO_SIGNAL).sCurrentTask = k.sCurrentTask ∧
    (svcDispatch k par1 par2 .DO_SIGNAL).sLeavingTask = k.sLeavingTask ∧
    (svcDispatch k par1 par2 .DO_SIGNAL_EVENT).sCurrentTask = k.sCurrentTask ∧
    (svcDispatch k par1 par2 .DO_SIGNAL_EVENT).sLeavingTask = k.sLeavingTask := by
  refine ⟨?_, ?_, ?_, ?_, ?_, ?_⟩
  · simp only [svcDispatch, readyEnqueue]
    split <;> rfl
  · simp only [svcDispatch, readyEnqueue]
    split <;> rfl
  · simp only [svcDispatch, readyEnqueue]
    split <;> rfl
  · simp only [svcDispatch, readyEnqueue]
    split <;> rfl
  · simp only [svcDispatch, readyEnqueue]
    split <;> rfl
  · simp only [svcDispatch, readyEnqueue]
    split <;> rfl

/-! ## C18: `getNextTask` and the idle task -/

/-- When the symbol `USE_IDLE` is defined, `getNextTask` does not queue a current
task that is the idle task. -/
theorem pickQueue_idle_guarded (b : Build) (k : Kernel) (hb : b.USE_IDLE = true)
    (hc : k.sCurrentTask = k.sIdleTask) : pickQueue b k = (k.mem, k.sTaskList) := by
  simp [pickQueue, hb, hc]

/-- C18 fails in a build with `USE_IDLE_TASK` defined and `USE_IDLE` not: with the
idle task (TCB 16) current and tasks 32, 48 ready, `getNextTask` appends the
idle task to the ready queue (which then holds 48, 16), and after three steps
the idle task is selected again although the ready queue holds 32 and 48. -/
theorem C18_idle_appended :
    kernelIdleRuns.sCurrentTask = kernelIdleRuns.sIdleTask ∧
    Holds kernelIdleRuns.mem kernelIdleRuns.sTaskList [32, 48] ∧
    Holds (getNextTask buildIdle kernelIdleRuns).mem
      (getNextTask buildIdle kernelIdleRuns).sTaskList [48, 16] ∧
    (pickNext buildIdle kernelIdleRuns 3).sCurrentTask = 16 ∧
    Holds (pickNext buildIdle kernelIdleRuns 3).mem
      (pickNext buildIdle kernelIdleRuns 3).sTaskList [32, 48] := by
  decide

/-! ## C19: resuming from the empty-ready-queue sleep -/

/-- C19 fails: with no idle task, lock counter 0, no current task and the ready
queue holding 32 and 48, `getNextTask` reads `tWait` through the null current
pointer (the word at address 8).  Where that bit is 0 it enqueues the null
pointer: the handler still makes 32 the current task, but the ready-queue
record is left with head 48 and tail 0, which is not the well-formed queue
holding 48, and a task enqueued next (64) is linked behind the null pointer
(cell 4) and is not on the queue.  Where the bit at address 8 is 1 the queue is
left well-formed, so the outcome depends on memory read through the absent
reference. -/
theorem C19_null_current :
    kernelSleep.sLockCount = 0 ∧ kernelSleep.sCurrentTask = 0 ∧
    Holds kernelSleep.mem kernelSleep.sTaskList [32, 48] ∧
    (YOS_SchedulerIrq buildNoIdle .v7m (kernelSleep, cpuDemo)).1.sCurrentTask = 32 ∧
    (YOS_SchedulerIrq buildNoIdle .v7m (kernelSleep, cpuDemo)).1.sTaskList
      = { tlHead := 48, tlTail := 0 } ∧
    ¬ Holds (YOS_SchedulerIrq buildNoIdle .v7m (kernelSleep, cpuDemo)).1.mem
        (YOS_SchedulerIrq buildNoIdle .v7m (kernelSleep, cpuDemo)).1.sTaskList [48] ∧
    (readyEnqueue (YOS_SchedulerIrq buildNoIdle .v7m (kernelSleep, cpuDemo)).1 64).mem 4 = 64 ∧
    ¬ Holds (readyEnqueue (YOS_SchedulerIrq buildNoIdle .v7m (kernelSleep, cpuDemo)).1 64).mem
        (readyEnqueue (YOS_SchedulerIrq buildNoIdle .v7m (kernelSleep, cpuDemo)).1 64).sTaskList
        [48, 64] ∧
    Holds (YOS_SchedulerIrq buildNoIdle .v7m
        ({ kernelSleep with mem := upd kernelSleep.mem 8 2 }, cpuDemo)).1.mem
      (YOS_SchedulerIrq buildNoIdle .v7m
        ({ kernelSleep with mem := upd kernelSleep.mem 8 2 }, cpuDemo)).1.sTaskList [48] := by
  decide

/-! ## C20: context save and restore -/

/-- The memory written by `save_context`, on both architectures: the eight words
below the process stack pointer receive `r4`..`r11` in ascending order. -/
theorem save_context_mem (a : Arch) (m : Mem) (c : Cpu) (x : Nat) :
    (save_context a (m, c)).1 x =
      if x = ptr32 ((c.psp : Int) - 32 + 28) then c.r 11
      else if x = ptr32 ((c.psp : Int) - 32 + 24) then c.r 10
      else if x = ptr32 ((c.psp : Int) - 32 + 20) then c.r 9
      else if x = ptr32 ((c.psp : Int) - 32 + 16) then c.r 8
      else if x = ptr32 ((c.psp : Int) - 32 + 12) then c.r 7
      else if x = ptr32 ((c.psp : Int) - 32 + 8) then c.r 6
      else if x = ptr32 ((c.psp : Int) - 32 + 4) then c.r 5
      else if x = ptr32 ((c.psp : Int) - 32) then c.r 4
      else m x := by
  have g : ∀ (y : Int) (u v : Int), y + u + v = y + (u + v) := fun y u v => by omega
  cases a
  · simp only [save_context, save_context_code, run, exec, storeRegs, List.length_cons,
      List.length_nil]
    simp only [upd, ptr32_add, g]
    norm_num
    simp only [ptr32_add, g]
    norm_num
  · simp only [save_context, save_context_code, run, exec, storeRegs, List.length_cons,
      List.length_nil]
    simp only [upd, ptr32_add, g]
    norm_num

/-- The registers left by `save_context`: `r0` (the returned pointer) and the
process stack pointer are the old pointer minus 32. -/
theorem save_context_regs (a : Arch) (m : Mem) (c : Cpu) :
    (save_context a (m, c)).2.r 0 = ptr32 ((c.psp : Int) - 32) ∧
    (save_context a (m, c)).2.psp = ptr32 ((c.psp : Int) - 32) := by
  cases a
  · simp [save_context, save_context_code, run, exec, upd]
  · simp [save_context, save_context_code, run, exec, upd]

/-- The effect of `restore_context(q)`: `r4`..`r11` are loaded from the eight
words at `q`, the process stack pointer becomes `q + 32`, memory is untouched. -/
theorem restore_context_regs (a : Arch) (M : Mem) (C : Cpu) (q : Nat) :
    (restore_context a (M, C) q).1 = M ∧
    (restore_context a (M, C) q).2.psp = ptr32 ((q : Int) + 32) ∧
    (restore_context a (M, C) q).2.r 4 = M q ∧
    (restore_context a (M, C) q).2.r 5 = M (ptr32 ((q : Int) + 4)) ∧
    (restore_context a (M, C) q).2.r 6 = M (ptr32 ((q : Int) + 8)) ∧
    (restore_context a (M, C) q).2.r 7 = M (ptr32 ((q : Int) + 12)) ∧
    (restore_context a (M, C) q).2.r 8 = M (ptr32 ((q : Int) + 16)) ∧
    (restore_context a (M, C) q).2.r 9 = M (ptr32 ((q : Int) + 20)) ∧
    (restore_context a (M, C) q).2.r 10 = M (ptr32 ((q : Int) + 24)) ∧
    (restore_context a (M, C) q).2.r 11 = M (ptr32 ((q : Int) + 28)) := by
  have g : ∀ (y : Int) (u v : Int), y + u + v = y + (u + v) := fun y u v => by omega
  cases a
  · simp only [restore_context, restore_context_code, run, exec, loadRegs, List.length_cons,
      List.length_nil]
    simp only [upd, ptr32_add, g]
    norm_num
    simp only [ptr32_add, g]
    norm_num
  · simp only [restore_context, restore_context_code, run, exec, loadRegs, List.length_cons,
      List.length_nil]
    simp only [upd, ptr32_add, g]
    norm_num

/-- The eight word addresses of the save area are pairwise distinct. -/
theorem save_area_inj (p : Int) (i j : Nat) (hi : i < 8) (hj : j < 8)
    (h : ptr32 (p - 32 + 4 * i) = ptr32 (p - 32 + 4 * j)) : i = j := by
  simp only [ptr32] at h
  omega

/-- Every cell after `save_context` is either one of the eight words of the save
area, holding the corresponding register, or unchanged. -/
theorem save_context_cases (a : Arch) (m : Mem) (c : Cpu) (x : Nat) :
    (∃ i : Nat, i < 8 ∧ x = ptr32 ((c.psp : Int) - 32 + 4 * i) ∧
        (save_context a (m, c)).1 x = c.r (4 + i)) ∨
    ((∀ i : Nat, i < 8 → x ≠ ptr32 ((c.psp : Int) - 32 + 4 * i)) ∧
        (save_context a (m, c)).1 x = m x) := by
  rw [save_context_mem]
  split_ifs with h7 h6 h5 h4 h3 h2 h1 h0
  · exact Or.inl ⟨7, by decide, by rw [h7]; norm_num, rfl⟩
  · exact Or.inl ⟨6, by decide, by rw [h6]; norm_num, rfl⟩
  · exact Or.inl ⟨5, by decide, by rw [h5]; norm_num, rfl⟩
  · exact Or.inl ⟨4, by decide, by rw [h4]; norm_num, rfl⟩
  · exact Or.inl ⟨3, by decide, by rw [h3]; norm_num, rfl⟩
  · exact Or.inl ⟨2, by decide, by rw [h2]; norm_num, rfl⟩
  · exact Or.inl ⟨1, by decide, by rw [h1]; norm_num, rfl⟩
  · exact Or.inl ⟨0, by decide, by rw [h0]; norm_num, rfl⟩
  · refine Or.inr ⟨?_, rfl⟩
    intro i hi
    interval_cases i
    · simpa using h0
    · simpa using h1
    · simpa using h2
    · simpa using h3
    · simpa using h4
    · simpa using h5
    · simpa using h6
    · simpa using h7

/-- A word of the save area: word `i` (of eight) below the old stack pointer
holds register `r(4+i)` after `save_context`. -/
theorem save_context_word (a : Arch) (m : Mem) (c : Cpu) (i : Nat) (hi : i < 8) :
    (save_context a (m, c)).1 (ptr32 ((c.psp : Int) - 32 + 4 * i)) = c.r (4 + i) := by
  rcases save_context_cases a m c (ptr32 ((c.psp : Int) - 32 + 4 * i)) with
    ⟨j, hj, e, hv⟩ | ⟨hn, _⟩
  · have := save_area_inj _ i j hi hj e
    subst this
    exact hv
  · exact absurd rfl (hn i hi)

/-- C20: context save and restore are inverse and layout-compatible on both
architectures.  For every memory, register state and 32-bit process stack
pointer `p`, on v6-M and v7-M alike: `save_context` returns `p - 32` (in 32-bit
arithmetic) and makes it the new PSP; it stores `r4`..`r11` in ascending order
in the eight words from `p - 32`; it writes no other word, in particular none
of the 32 bytes of the hardware-saved frame at `p` and, when `p ≥ 32`, no word
at or above `p`; and `restore_context` applied to the returned pointer reloads
exactly the original `r4`..`r11`, sets PSP back to `p` and writes nothing. -/
theorem C20_context_roundtrip (a : Arch) (m : Mem) (c : Cpu) (hp : c.psp < 2 ^ 32) :
    (save_context a (m, c)).2.r 0 = ptr32 ((c.psp : Int) - 32) ∧
    (save_context a (m, c)).2.psp = ptr32 ((c.psp : Int) - 32) ∧
    (32 ≤ c.psp → (save_context a (m, c)).2.r 0 = c.psp - 32) ∧
    (∀ i : Nat, i < 8 →
      (save_context a (m, c)).1 (ptr32 ((c.psp : Int) - 32 + 4 * i)) = c.r (4 + i)) ∧
    (∀ x : Nat, (∀ i : Nat, i < 8 → x ≠ ptr32 ((c.psp : Int) - 32 + 4 * i)) →
      (save_context a (m, c)).1 x = m x) ∧
    (∀ j : Nat, j < 32 →
      (save_context a (m, c)).1 (ptr32 ((c.psp : Int) + j)) = m (ptr32 ((c.psp : Int) + j))) ∧
    (32 ≤ c.psp → ∀ x : Nat, c.psp ≤ x → (save_context a (m, c)).1 x = m x) ∧
    (∀ i : Nat, 4 ≤ i → i ≤ 11 →
      (restore_context a (save_context a (m, c)) ((save_context a (m, c)).2.r 0)).2.r i
        = c.r i) ∧
    (restore_context a (save_context a (m, c)) ((save_context a (m, c)).2.r 0)).2.psp
      = c.psp ∧
    (restore_context a (save_context a (m, c)) ((save_context a (m, c)).2.r 0)).1
      = (save_context a (m, c)).1 := by
  obtain ⟨s1, s2⟩ := save_context_regs a m c
  have hout : ∀ x : Nat, (∀ i : Nat, i < 8 → x ≠ ptr32 ((c.psp : Int) - 32 + 4 * i)) →
      (save_context a (m, c)).1 x = m x := by
    intro x hx
    rcases save_context_cases a m c x with ⟨j, hj, e, _⟩ | ⟨_, hv⟩
    · exact absurd e (hx j hj)
    · exact hv
  obtain ⟨r0, r1, q4, q5, q6, q7, q8, q9, q10, q11⟩ :=
    restore_context_regs a (save_context a (m, c)).1 (save_context a (m, c)).2
      ((save_context a (m, c)).2.r 0)
  have w := save_context_word a m c
  refine ⟨s1, s2, ?_, w, hout, ?_, ?_, ?_, ?_, r0⟩
  · intro h
    rw [s1]; simp only [ptr32]; omega
  · intro j hj
    apply hout
    intro i hi
    simp only [ptr32]
    omega
  · intro h x hx
    apply hout
    intro i hi
    simp only [ptr32]
    omega
  · intro i h4 h11
    have w0 := w 0 (by decide)
    have w1 := w 1 (by decide)
    have w2 := w 2 (by decide)
    have w3 := w 3 (by decide)
    have w4 := w 4 (by decide)
    have w5 := w 5 (by decide)
    have w6 := w 6 (by decide)
    have w7 := w 7 (by decide)
    norm_num at w0 w1 w2 w3 w4 w5 w6 w7
    interval_cases i
    · exact q4.trans (by rw [s1]; exact w0)
    · exact q5.trans (by rw [s1, ptr32_add]; exact w1)
    · exact q6.trans (by rw [s1, ptr32_add]; exact w2)
    · exact q7.trans (by rw [s1, ptr32_add]; exact w3)
    · exact q8.trans (by rw [s1, ptr32_add]; exact w4)
    · exact q9.trans (by rw [s1, ptr32_add]; exact w5)
    · exact q10.trans (by rw [s1, ptr32_add]; exact w6)
    · exact q11.trans (by rw [s1, ptr32_add]; exact w7)
  · refine r1.trans ?_
    rw [s1]
    simp only [ptr32]
    omega

/-- C20 on v6-M with PSP `0x20000100`: the returned pointer is `0x200000E0`, the
word at `0x200000E4` receives `r5`, and restoring gives PSP and `r8` back. -/
theorem C20_context_roundtrip_witness :
    cpuDemo.psp < 2 ^ 32 ∧
    (save_context .v6m (fun _ => 0, cpuDemo)).2.r 0 = 0x200000E0 ∧
    (save_context .v6m (fun _ => 0, cpuDemo)).1 0x200000E4 = 105 ∧
    (restore_context .v6m (save_context .v6m (fun _ => 0, cpuDemo))
      ((save_context .v6m (fun _ => 0, cpuDemo)).2.r 0)).2.r 8 = 108 ∧
    (restore_context .v6m (save_context .v6m (fun _ => 0, cpuDemo))
      ((save_context .v6m (fun _ => 0, cpuDemo)).2.r 0)).2.psp = 0x20000100 := by
  have h := C20_context_roundtrip .v6m (fun _ => 0) cpuDemo (by decide)
  exact ⟨by decide, h.1.trans (by decide), (h.2.2.2.1 1 (by decide)),
    h.2.2.2.2.2.2.2.1 8 (by decide) (by decide), h.2.2.2.2.2.2.2.2.1⟩

/-! ## Lemmas on queue families -/

theorem tcb_cells {T : List Nat} (hT : TcbSep T) {u v : Nat} (hu : u ∈ T) (hv : v ∈ T) :
    u + 4 ≠ v + 8 ∧ u + 8 ≠ v + 4 ∧ u + 4 ≠ v ∧ u + 8 ≠ v := by
  have := tcbSep_mem hT hu hv
  omega

theorem tWait_set_tWait_ne (m : Mem) (t b u : Nat) (h : u ≠ t) :
    tWait (set_tWait m t b) u = tWait m u :=
  tWait_congr _ _ _ (set_tWait_other m t b (u + 8) (by omega))

theorem tSignal_set_tWait_any (m : Mem) (t b u : Nat) :
    tSignal (set_tWait m t b) u = tSignal m u := by
  by_cases h : u = t
  · subst h; exact tSignal_set_tWait m u b
  · exact tSignal_congr _ _ _ (set_tWait_other m t b (u + 8) (by omega))

theorem tWait_set_tSignal_any (m : Mem) (t b u : Nat) :
    tWait (set_tSignal m t b) u = tWait m u := by
  by_cases h : u = t
  · subst h; exact tWait_set_tSignal m u b
  · exact tWait_congr _ _ _ (set_tSignal_other m t b (u + 8) (by omega))

theorem tSignal_set_tSignal_ne (m : Mem) (t b u : Nat) (h : u ≠ t) :
    tSignal (set_tSignal m t b) u = tSignal m u :=
  tSignal_congr _ _ _ (set_tSignal_other m t b (u + 8) (by omega))

theorem queuesOk_frame (T : List Nat) (m m1 : Mem) (Q : QId → YOS_TaskList_t)
    (L : QId → List Nat) (hm : ∀ u ∈ T, m1 (u + 4) = m (u + 4)) (h : QueuesOk T m Q L) :
    QueuesOk T m1 Q L :=
  ⟨fun q => holds_frame m m1 (Q q) (L q) (fun u hu => hm u (h.2.1 q u hu)) (h.1 q), h.2.1, h.2.2⟩

theorem queuesOk_zero (T : List Nat) (m : Mem) (Q : QId → YOS_TaskList_t)
    (L : QId → List Nat) (h0 : ∀ t ∈ T, t ≠ 0) (h : QueuesOk T m Q L) (q : QId) : 0 ∉ L q :=
  fun hq => h0 0 (h.2.1 q 0 hq) rfl

theorem queuesOk_enqueue (T : List Nat) (m : Mem) (Q : QId → YOS_TaskList_t)
    (L : QId → List Nat) (hT : TcbSep T) (h0 : ∀ t ∈ T, t ≠ 0) (h : QueuesOk T m Q L)
    (q0 : QId) (t : Nat) (ht : t ∈ T) (hfree : ∀ q, t ∉ L q) :
    QueuesOk T (taskEnqueue m (Q q0) t).1 (Function.update Q q0 (taskEnqueue m (Q q0) t).2)
        (Function.update L q0 (L q0 ++ [t])) ∧
      ∀ u ∈ T, (taskEnqueue m (Q q0) t).1 (u + 8) = m (u + 8) := by
  obtain ⟨hH, hM, hD⟩ := h
  have hmem : ∀ a, a ≠ t + 4 → (∀ u ∈ L q0, a ≠ u + 4) → (taskEnqueue m (Q q0) t).1 a = m a :=
    fun a h1 h2 => taskEnqueue_mem_frame m (Q q0) (L q0) t a (hH q0) h1 h2
  refine ⟨⟨?_, ?_, ?_⟩, ?_⟩
  · intro q
    by_cases hq : q = q0
    · subst hq
      rw [Function.update_same, Function.update_same]
      exact (taskEnqueue_holds m (Q q) (L q) t (hH q) (hfree q) (h0 t ht)).1
    · rw [Function.update_noteq hq, Function.update_noteq hq]
      refine holds_frame m _ (Q q) (L q) ?_ (hH q)
      intro u hu
      apply hmem
      · intro e
        have : u = t := by omega
        exact hfree q (this ▸ hu)
      · intro v hv e
        have : u = v := by omega
        exact hq (hD q q0 u hu (this ▸ hv))
  · intro q x hx
    by_cases hq : q = q0
    · subst hq
      rw [Function.update_same] at hx
      rcases List.mem_append.1 hx with hx | hx
      · exact hM q x hx
      · rw [List.mem_singleton.1 hx]; exact ht
    · rw [Function.update_noteq hq] at hx
      exact hM q x hx
  · intro q q1 x hx hx1
    by_cases hq : q = q0 <;> by_cases hq1 : q1 = q0
    · rw [hq, hq1]
    · exfalso
      subst hq
      rw [Function.update_same] at hx
      rw [Function.update_noteq hq1] at hx1
      rcases List.mem_append.1 hx with hx | hx
      · exact hq1 (hD q1 q x hx1 hx)
      · rw [List.mem_singleton.1 hx] at hx1; exact hfree q1 hx1
    · exfalso
      subst hq1
      rw [Function.update_same] at hx1
      rw [Function.update_noteq hq] at hx
      rcases List.mem_append.1 hx1 with hx1 | hx1
      · exact hq (hD q q1 x hx hx1)
      · rw [List.mem_singleton.1 hx1] at hx; exact hfree q hx
    · rw [Function.update_noteq hq] at hx
      rw [Function.update_noteq hq1] at hx1
      exact hD q q1 x hx hx1
  · intro u hu
    apply hmem
    · have := (tcb_cells hT hu ht).2.1
      omega
    · intro v hv
      have := (tcb_cells hT hu (hM q0 v hv)).2.1
      omega

theorem queuesOk_dequeue (T : List Nat) (m : Mem) (Q : QId → YOS_TaskList_t)
    (L : QId → List Nat) (h : QueuesOk T m Q L) (q0 : QId) (t : Nat) (rest : List Nat)
    (hl : L q0 = t :: rest) :
    (taskDequeue m (Q q0)).2 = t ∧
      QueuesOk T m (Function.update Q q0 (taskDequeue m (Q q0)).1) (Function.update L q0 rest) := by
  obtain ⟨hH, hM, hD⟩ := h
  have hd := taskDequeue_holds m (Q q0) t rest (hl ▸ hH q0)
  have hsub : ∀ q x, x ∈ Function.update L q0 rest q → x ∈ L q := by
    intro q x hx
    by_cases hq : q = q0
    · subst hq
      rw [Function.update_same] at hx
      rw [hl]; exact List.mem_cons_of_mem _ hx
    · rw [Function.update_noteq hq] at hx; exact hx
  refine ⟨hd.1, ?_, ?_, ?_⟩
  · intro q
    by_cases hq : q = q0
    · subst hq
      rw [Function.update_same, Function.update_same]
      exact hd.2
    · rw [Function.update_noteq hq, Function.update_noteq hq]
      exact hH q
  · intro q x hx
    exact hM q x (hsub q x hx)
  · intro q q1 x hx hx1
    exact hD q q1 x (hsub q x hx) (hsub q1 x hx1)

theorem qinv_frame (T : List Nat) (m m1 : Mem) (Q : QId → YOS_TaskList_t) (R : Nat)
    (hm : ∀ u ∈ T, m1 (u + 4) = m (u + 4) ∧ m1 (u + 8) = m (u + 8)) (h : QInv T m Q R) :
    QInv T m1 Q R := by
  obtain ⟨L, hq, hf⟩ := h
  refine ⟨L, queuesOk_frame T m m1 Q L (fun u hu => (hm u hu).1) hq, hf.1, ?_, ?_⟩
  · intro t ht; rw [tWait_congr m m1 t (hm t ht).2]; exact hf.2.1 t ht
  · intro t ht; rw [tSignal_congr m m1 t (hm t ht).2]; exact hf.2.2 t ht

theorem mem_update_snoc (L : QId → List Nat) (q0 q : QId) (t x : Nat) :
    x ∈ Function.update L q0 (L q0 ++ [t]) q ↔ (x ∈ L q ∨ (q = q0 ∧ x = t)) := by
  by_cases hq : q = q0
  · subst hq; simp
  · simp [Function.update_noteq hq, hq]

theorem qinv_wait (T : List Nat) (m : Mem) (Q : QId → YOS_TaskList_t) (R : Nat)
    (hT : TcbSep T) (h0 : ∀ t ∈ T, t ≠ 0) (hR : R ∈ T) (h : QInv T m Q R) :
    QInv T (set_tWait (set_tSignal m R 1) R 1) Q 0 := by
  obtain ⟨L, hq, hf1, hf2, hf3⟩ := h
  refine ⟨L, ?_, ?_, ?_, ?_⟩
  · refine queuesOk_frame T m _ Q L ?_ hq
    intro u hu
    rw [set_tWait_other _ _ _ _ (tcb_cells hT hu hR).1,
      set_tSignal_other _ _ _ _ (tcb_cells hT hu hR).1]
  · exact queuesOk_zero T m Q L h0 hq
  · intro t ht
    by_cases e : t = R
    · subst e
      rw [tWait_set_tWait]
      constructor
      · intro h; exact absurd h (by decide)
      · rintro (h | h)
        · exact absurd h (hf1 .ready)
        · exact absurd h (h0 t ht)
    · rw [tWait_set_tWait_ne _ _ _ _ e, tWait_set_tSignal_any, hf2 t ht]
      simp [e, h0 t ht]
  · intro t ht hs
    rw [tSignal_set_tWait_any] at hs
    by_cases e : t = R
    · subst e; exact ⟨fun q => hf1 q, h0 t ht⟩
    · rw [tSignal_set_tSignal_ne _ _ _ _ e] at hs
      exact ⟨(hf3 t ht hs).1, h0 t ht⟩

theorem flags_block (T : List Nat) (m m1 : Mem) (L : QId → List Nat) (R : Nat) (q0 : QId)
    (h0 : ∀ t ∈ T, t ≠ 0) (hR : R ∈ T) (hz : ∀ q, 0 ∉ L q) (hq0 : q0 ≠ .ready)
    (hf : FlagsOk T m L R) (hw : tWait m1 R = 1)
    (hwo : ∀ t ∈ T, t ≠ R → tWait m1 t = tWait m t)
    (hs : ∀ t ∈ T, tSignal m1 t = tSignal m t) :
    FlagsOk T m1 (Function.update L q0 (L q0 ++ [R])) 0 := by
  obtain ⟨hf1, hf2, hf3⟩ := hf
  refine ⟨?_, ?_, ?_⟩
  · intro q hq
    rcases (mem_update_snoc L q0 q R 0).1 hq with h | h
    · exact hz q h
    · exact h0 R hR h.2.symm
  · intro t ht
    rw [mem_update_snoc]
    by_cases e : t = R
    · subst e
      rw [hw]
      constructor
      · intro h; exact absurd h (by decide)
      · rintro ((h | h) | h)
        · exact absurd h (hf1 .ready)
        · exact absurd h.1.symm hq0
        · exact absurd h (h0 t ht)
    · rw [hwo t ht e, hf2 t ht]
      simp [e, h0 t ht]
  · intro t ht h1
    rw [hs t ht] at h1
    refine ⟨?_, h0 t ht⟩
    intro q hq
    rcases (mem_update_snoc L q0 q R t).1 hq with h | h
    · exact (hf3 t ht h1).1 q h
    · exact (hf3 t ht h1).2 h.2

theorem qinv_block_a (T : List Nat) (m : Mem) (Q : QId → YOS_TaskList_t) (R : Nat)
    (hT : TcbSep T) (h0 : ∀ t ∈ T, t ≠ 0) (hR : R ∈ T) (q0 : QId) (hq0 : q0 ≠ .ready)
    (h : QInv T m Q R) :
    QInv T (taskEnqueue (set_tWait m R 1) (Q q0) R).1
      (Function.update Q q0 (taskEnqueue (set_tWait m R 1) (Q q0) R).2) 0 := by
  obtain ⟨L, hq, hf⟩ := h
  have hq1 : QueuesOk T (set_tWait m R 1) Q L := by
    refine queuesOk_frame T m _ Q L ?_ hq
    intro u hu
    rw [set_tWait_other _ _ _ _ (tcb_cells hT hu hR).1]
  obtain ⟨hq2, hc⟩ := queuesOk_enqueue T _ Q L hT h0 hq1 q0 R hR hf.1
  refine ⟨_, hq2, flags_block T m _ L R q0 h0 hR (queuesOk_zero T m Q L h0 hq) hq0 hf ?_ ?_ ?_⟩
  · rw [tWait_congr _ _ R (hc R hR), tWait_set_tWait]
  · intro t ht e
    rw [tWait_congr _ _ t (hc t ht), tWait_set_tWait_ne _ _ _ _ e]
  · intro t ht
    rw [tSignal_congr _ _ t (hc t ht), tSignal_set_tWait_any]

theorem qinv_block_b (T : List Nat) (m : Mem) (Q : QId → YOS_TaskList_t) (R : Nat)
    (hT : TcbSep T) (h0 : ∀ t ∈ T, t ≠ 0) (hR : R ∈ T) (q0 : QId) (hq0 : q0 ≠ .ready)
    (h : QInv T m Q R) :
    QInv T (set_tWait (taskEnqueue m (Q q0) R).1 R 1)
      (Function.update Q q0 (taskEnqueue m (Q q0) R).2) 0 := by
  obtain ⟨L, hq, hf⟩ := h
  obtain ⟨hq2, hc⟩ := queuesOk_enqueue T _ Q L hT h0 hq q0 R hR hf.1
  have hq3 : QueuesOk T (set_tWait (taskEnqueue m (Q q0) R).1 R 1)
      (Function.update Q q0 (taskEnqueue m (Q q0) R).2) (Function.update L q0 (L q0 ++ [R])) := by
    refine queuesOk_frame T _ _ _ _ ?_ hq2
    intro u hu
    rw [set_tWait_other _ _ _ _ (tcb_cells hT hu hR).1]
  refine ⟨_, hq3, flags_block T m _ L R q0 h0 hR (queuesOk_zero T m Q L h0 hq) hq0 hf ?_ ?_ ?_⟩
  · rw [tWait_set_tWait]
  · intro t ht e
    rw [tWait_set_tWait_ne _ _ _ _ e, tWait_congr _ _ t (hc t ht)]
  · intro t ht
    rw [tSignal_set_tWait_any, tSignal_congr _ _ t (hc t ht)]

theorem qinv_signal (T : List Nat) (m : Mem) (Q : QId → YOS_TaskList_t) (R t : Nat)
    (hT : TcbSep T) (h0 : ∀ t ∈ T, t ≠ 0) (ht : t ∈ T) (hs : tSignal m t = 1)
    (h : QInv T m Q R) :
    QInv T (taskEnqueue (set_tWait (set_tSignal m t 0) t 0) (Q .ready) t).1
      (Function.update Q .ready
        (taskEnqueue (set_tWait (set_tSignal m t 0) t 0) (Q .ready) t).2) R := by
  obtain ⟨L, hq, hf1, hf2, hf3⟩ := h
  obtain ⟨hfree, htR⟩ := hf3 t ht hs
  have hq1 : QueuesOk T (set_tWait (set_tSignal m t 0) t 0) Q L := by
    refine queuesOk_frame T m _ Q L ?_ hq
    intro u hu
    rw [set_tWait_other _ _ _ _ (tcb_cells hT hu ht).1,
      set_tSignal_other _ _ _ _ (tcb_cells hT hu ht).1]
  obtain ⟨hq2, hc⟩ := queuesOk_enqueue T _ Q L hT h0 hq1 .ready t ht hfree
  refine ⟨_, hq2, ?_, ?_, ?_⟩
  · intro q hq
    rcases (mem_update_snoc L .ready q t R).1 hq with h | h
    · exact hf1 q h
    · exact htR h.2.symm
  · intro u hu
    rw [mem_update_snoc, tWait_congr _ _ u (hc u hu)]
    by_cases e : u = t
    · subst e
      rw [tWait_set_tWait]
      simp
    · rw [tWait_set_tWait_ne _ _ _ _ e, tWait_set_tSignal_any, hf2 u hu]
      simp [e]
  · intro u hu h1
    rw [tSignal_congr _ _ u (hc u hu), tSignal_set_tWait_any] at h1
    by_cases e : u = t
    · subst e
      rw [tSignal_set_tSignal] at h1
      exact absurd h1 (by decide)
    · rw [tSignal_set_tSignal_ne _ _ _ _ e] at h1
      refine ⟨?_, (hf3 u hu h1).2⟩
      intro q hq
      rcases (mem_update_snoc L .ready q t u).1 hq with h | h
      · exact (hf3 u hu h1).1 q h
      · exact e h.2

theorem qinv_yield (T : List Nat) (m : Mem) (Q : QId → YOS_TaskList_t) (R : Nat)
    (hT : TcbSep T) (h0 : ∀ t ∈ T, t ≠ 0) (hR : R ∈ T) (h : QInv T m Q R) :
    QInv T (taskEnqueue m (Q .ready) R).1
      (Function.update Q .ready (taskEnqueue m (Q .ready) R).2) 0 := by
  obtain ⟨L, hq, hf1, hf2, hf3⟩ := h
  obtain ⟨hq2, hc⟩ := queuesOk_enqueue T _ Q L hT h0 hq .ready R hR hf1
  refine ⟨_, hq2, ?_, ?_, ?_⟩
  · exact queuesOk_zero T _ _ _ h0 hq2
  · intro u hu
    rw [mem_update_snoc, tWait_congr _ _ u (hc u hu), hf2 u hu]
    simp [h0 u hu]
  · intro u hu h1
    rw [tSignal_congr _ _ u (hc u hu)] at h1
    refine ⟨?_, h0 u hu⟩
    intro q hq
    rcases (mem_update_snoc L .ready q R u).1 hq with h | h
    · exact (hf3 u hu h1).1 q h
    · exact (hf3 u hu h1).2 h.2

theorem taskDequeue_snd (m : Mem) (q : YOS_TaskList_t) : (taskDequeue m q).2 = q.tlHead := by
  unfold taskDequeue
  by_cases h : q.tlHead = 0 <;> simp [h]

theorem mem_update_tail (L : QId → List Nat) (q0 q : QId) (t x : Nat) (rest : List Nat)
    (hl : L q0 = t :: rest) (hx : x ∈ Function.update L q0 rest q) : x ∈ L q := by
  by_cases hq : q = q0
  · subst hq
    rw [Function.update_same] at hx
    rw [hl]; exact List.mem_cons_of_mem _ hx
  · rw [Function.update_noteq hq] at hx; exact hx

theorem qinv_pick (T : List Nat) (m : Mem) (Q : QId → YOS_TaskList_t)
    (h0 : ∀ t ∈ T, t ≠ 0) (h : QInv T m Q 0) :
    QInv T m (Function.update Q .ready (taskDequeue m (Q .ready)).1)
        (taskDequeue m (Q .ready)).2 ∧
      ((taskDequeue m (Q .ready)).2 = 0 ∨ (taskDequeue m (Q .ready)).2 ∈ T) := by
  obtain ⟨L, hq, hf1, hf2, hf3⟩ := h
  rcases hl : L .ready with _ | ⟨t, rest⟩
  · have hh : (Q .ready).tlHead = 0 := (holds_nil_iff m (Q .ready)).1 (hl ▸ hq.1 .ready)
    rw [taskDequeue_empty m (Q .ready) hh]
    simp only [Function.update_eq_self]
    exact ⟨⟨L, hq, hf1, hf2, hf3⟩, Or.inl trivial⟩
  · obtain ⟨hd, hq2⟩ := queuesOk_dequeue T m Q L hq .ready t rest hl
    have hnd : (t :: rest).Nodup := hl ▸ (hq.1 .ready).2.1
    have htT : t ∈ T := hq.2.1 .ready t (by rw [hl]; exact List.mem_cons_self _ _)
    rw [hd]
    refine ⟨⟨_, hq2, ?_, ?_, ?_⟩, Or.inr htT⟩
    · intro q hx
      by_cases hq1 : q = .ready
      · subst hq1
        rw [Function.update_same] at hx
        exact (List.nodup_cons.1 hnd).1 hx
      · rw [Function.update_noteq hq1] at hx
        exact hq1 (hq.2.2 q .ready t hx (by rw [hl]; exact List.mem_cons_self _ _))
    · intro u hu
      rw [hf2 u hu, hl, Function.update_same]
      simp [h0 u hu, or_comm]
    · intro u hu h1
      refine ⟨fun q hx => (hf3 u hu h1).1 q (mem_update_tail L .ready q t u rest hl hx), ?_⟩
      intro e
      exact (hf3 u hu h1).1 .ready (by rw [hl, e]; exact List.mem_cons_self _ _)

theorem qinv_wake (T : List Nat) (m : Mem) (Q : QId → YOS_TaskList_t) (R : Nat)
    (hT : TcbSep T) (h0 : ∀ t ∈ T, t ≠ 0) (q0 : QId) (hq0 : q0 ≠ .ready)
    (hne : (taskDequeue m (Q q0)).2 ≠ 0) (h : QInv T m Q R) :
    QInv T
      (taskEnqueue (set_tWait m (taskDequeue m (Q q0)).2 0) (Q .ready)
        (taskDequeue m (Q q0)).2).1
      (Function.update (Function.update Q q0 (taskDequeue m (Q q0)).1) .ready
        (taskEnqueue (set_tWait m (taskDequeue m (Q q0)).2 0) (Q .ready)
          (taskDequeue m (Q q0)).2).2) R := by
  obtain ⟨L, hq, hf1, hf2, hf3⟩ := h
  rcases hl : L q0 with _ | ⟨t, rest⟩
  · exfalso
    apply hne
    rw [taskDequeue_snd]
    exact (holds_nil_iff m (Q q0)).1 (hl ▸ hq.1 q0)
  · obtain ⟨hd, hq1⟩ := queuesOk_dequeue T m Q L hq q0 t rest hl
    have hnd : (t :: rest).Nodup := hl ▸ (hq.1 q0).2.1
    have htq : t ∈ L q0 := by rw [hl]; exact List.mem_cons_self _ _
    have htT : t ∈ T := hq.2.1 q0 t htq
    have htR : t ≠ R := fun e => hf1 q0 (e ▸ htq)
    rw [hd]
    have hfree : ∀ q, t ∉ Function.update L q0 rest q := by
      intro q hx
      by_cases hq2 : q = q0
      · subst hq2
        rw [Function.update_same] at hx
        exact (List.nodup_cons.1 hnd).1 hx
      · rw [Function.update_noteq hq2] at hx
        exact hq2 (hq.2.2 q q0 t hx htq)
    have hq2 : QueuesOk T (set_tWait m t 0) (Function.update Q q0 (taskDequeue m (Q q0)).1)
        (Function.update L q0 rest) := by
      refine queuesOk_frame T m _ _ _ ?_ hq1
      intro u hu
      rw [set_tWait_other _ _ _ _ (tcb_cells hT hu htT).1]
    obtain ⟨hq3, hc⟩ := queuesOk_enqueue T _ _ _ hT h0 hq2 .ready t htT hfree
    rw [Function.update_noteq hq0.symm] at hq3 hc
    have hsg : tSignal m t = 0 := by
      have h2 : tSignal m t < 2 := Nat.mod_lt _ (by decide)
      by_contra hh
      exact (hf3 t htT (by omega)).1 q0 htq
    refine ⟨_, hq3, ?_, ?_, ?_⟩
    · intro q hx
      rcases (mem_update_snoc _ .ready q t R).1 hx with h | h
      · exact hf1 q (mem_update_tail L q0 q t R rest hl h)
      · exact htR h.2.symm
    · intro u hu
      rw [mem_update_snoc, Function.update_noteq hq0.symm, tWait_congr _ _ u (hc u hu)]
      by_cases e : u = t
      · subst e
        rw [tWait_set_tWait]
        simp
      · rw [tWait_set_tWait_ne _ _ _ _ e, hf2 u hu]
        simp [e]
    · intro u hu h1
      rw [tSignal_congr _ _ u (hc u hu), tSignal_set_tWait_any] at h1
      have e : u ≠ t := by
        intro e
        rw [e, hsg] at h1
        exact absurd h1 (by decide)
      refine ⟨?_, (hf3 u hu h1).2⟩
      intro q hx
      rcases (mem_update_snoc _ .ready q t u).1 hx with h | h
      · exact (hf3 u hu h1).1 q (mem_update_tail L q0 q t u rest hl h)
      · exact e h.2

/-! ## Lemmas on the consistency of kernel states -/

theorem queueOf_congr (k k1 : Kernel) (h1 : k1.sTaskList = k.sTaskList)
    (h2 : k1.event = k.event) (h3 : k1.mutex = k.mutex) : queueOf k1 = queueOf k := by
  funext q
  cases q <;> simp [queueOf, h1, h2, h3]

theorem queueOf_ready (k k1 : Kernel) (h2 : k1.event = k.event) (h3 : k1.mutex = k.mutex) :
    queueOf k1 = Function.update (queueOf k) .ready k1.sTaskList := by
  funext q
  cases q <;> simp [queueOf, Function.update_apply, h2, h3]

theorem queueOf_event_ready (k k1 : Kernel) (e : Nat) (E : YOS_Event_t)
    (h2 : k1.event = upd k.event e E) (h3 : k1.mutex = k.mutex) :
    queueOf k1 =
      Function.update (Function.update (queueOf k) (.ev e) E.eTaskQueue) .ready k1.sTaskList := by
  funext q
  cases q with
  | ready => simp [queueOf, Function.update_apply]
  | ev e1 =>
    by_cases h : e1 = e
    · subst h; simp [queueOf, Function.update_apply, h2, upd]
    · simp [queueOf, Function.update_apply, h2, upd, h]
  | mu m1 => simp [queueOf, Function.update_apply, h3]

theorem queueOf_mutex_ready (k k1 : Kernel) (x : Nat) (X : YOS_Mutex_t)
    (h2 : k1.event = k.event) (h3 : k1.mutex = upd k.mutex x X) :
    queueOf k1 =
      Function.update (Function.update (queueOf k) (.mu x) X.mTaskQueue) .ready k1.sTaskList := by
  funext q
  cases q with
  | ready => simp [queueOf, Function.update_apply]
  | ev e1 => simp [queueOf, Function.update_apply, h2]
  | mu m1 =>
    by_cases h : m1 = x
    · subst h; simp [queueOf, Function.update_apply, h3, upd]
    · simp [queueOf, Function.update_apply, h3, upd, h]

theorem queueOf_event (k k1 : Kernel) (e : Nat) (E : YOS_Event_t)
    (h1 : k1.sTaskList = k.sTaskList) (h2 : k1.event = upd k.event e E)
    (h3 : k1.mutex = k.mutex) :
    queueOf k1 = Function.update (queueOf k) (.ev e) E.eTaskQueue := by
  rw [queueOf_event_ready k k1 e E h2 h3, h1]
  exact Function.update_eq_self_iff.2 (by simp [queueOf, Function.update_apply])

theorem queueOf_mutex (k k1 : Kernel) (x : Nat) (X : YOS_Mutex_t)
    (h1 : k1.sTaskList = k.sTaskList) (h2 : k1.event = k.event)
    (h3 : k1.mutex = upd k.mutex x X) :
    queueOf k1 = Function.update (queueOf k) (.mu x) X.mTaskQueue := by
  rw [queueOf_mutex_ready k k1 x X h2 h3, h1]
  exact Function.update_eq_self_iff.2 (by simp [queueOf, Function.update_apply])

theorem invR_mk (k k1 : Kernel) (T : List Nat) (R R1 : Nat) (Q1 : QId → YOS_TaskList_t)
    (h : InvR k T R)
    (ht : k1.sTaskMemory = k.sTaskMemory) (hl : k1.sLockCount = k.sLockCount)
    (hc : k1.sCurrentTask = 0 ∨ k1.sCurrentTask ∈ T) (he : queueOf k1 = Q1)
    (hq : QInv T k1.mem Q1 R1) : InvR k1 T R1 := by
  obtain ⟨a1, a2, a3, a4, a5, _, _⟩ := h
  refine ⟨a1, a2, ?_, ?_, ?_, hc, he ▸ hq⟩
  · rw [ht]; exact a3
  · rw [ht]; exact a4
  · rw [hl]; exact a5

theorem upd_event_queue (f : Nat → YOS_Event_t) (a e : Nat) (E : YOS_Event_t)
    (h : E.eTaskQueue = (f a).eTaskQueue) : (upd f a E e).eTaskQueue = (f e).eTaskQueue := by
  by_cases he : e = a
  · subst he; rw [upd_same]; exact h
  · rw [upd_other _ _ _ _ he]

theorem upd_mutex_queue (f : Nat → YOS_Mutex_t) (a x : Nat) (X : YOS_Mutex_t)
    (h : X.mTaskQueue = (f a).mTaskQueue) : (upd f a X x).mTaskQueue = (f x).mTaskQueue := by
  by_cases he : x = a
  · subst he; rw [upd_same]; exact h
  · rw [upd_other _ _ _ _ he]

theorem queueOf_same (k k1 : Kernel) (h1 : k1.sTaskList = k.sTaskList)
    (h2 : ∀ e, (k1.event e).eTaskQueue = (k.event e).eTaskQueue)
    (h3 : ∀ x, (k1.mutex x).mTaskQueue = (k.mutex x).mTaskQueue) : queueOf k1 = queueOf k := by
  funext q
  cases q <;> simp [queueOf, h1, h2, h3]

theorem invR_runs (k : Kernel) (T : List Nat) (h : InvR k T k.sCurrentTask) : Runs k := by
  obtain ⟨_, _, _, _, _, hc, L, _, hf⟩ := h
  rcases hc with hc | hc
  · exact Or.inl hc
  · exact Or.inr ((hf.2.1 _ hc).2 (Or.inr rfl))

theorem svc_signal_event_some (k : Kernel) (e i : Nat)
    (h : (taskDequeue k.mem (k.event e).eTaskQueue).2 ≠ 0) :
    svcDispatch k e i .DO_SIGNAL_EVENT =
      readyEnqueue
        { k with
          mem := set_tWait k.mem (taskDequeue k.mem (k.event e).eTaskQueue).2 0,
          event := upd k.event e
            { eFlagSet := ((k.event e).eFlagSet ||| (1 <<< i)) % 2 ^ 32,
              eTaskQueue := (taskDequeue k.mem (k.event e).eTaskQueue).1 } }
        (taskDequeue k.mem (k.event e).eTaskQueue).2 := by
  simp only [svcDispatch]
  rw [if_pos h]

theorem svc_signal_event_none (k : Kernel) (e i : Nat)
    (h : (taskDequeue k.mem (k.event e).eTaskQueue).2 = 0) :
    svcDispatch k e i .DO_SIGNAL_EVENT =
      { k with
        event := upd k.event e
          { eFlagSet := ((k.event e).eFlagSet ||| (1 <<< i)) % 2 ^ 32,
            eTaskQueue := (k.event e).eTaskQueue } } := by
  have hh : (k.event e).eTaskQueue.tlHead = 0 := by rw [← taskDequeue_snd k.mem]; exact h
  simp only [svcDispatch]
  rw [if_neg (by rw [h]; simp), taskDequeue_empty _ _ hh]

/-- A system call issued in a consistent state leaves a consistent state in
which the caller still runs, or a state in which the caller is blocked and
nothing runs. -/
theorem svc_post (k : Kernel) (T : List Nat) (par1 par2 : Nat) (id : SvcId)
    (hinv : InvR k T k.sCurrentTask) (ha : ArgsOk T k par1 par2 id) :
    InvR (svcDispatch k par1 par2 id) T (svcDispatch k par1 par2 id).sCurrentTask ∨
    (InvR (svcDispatch k par1 par2 id) T 0 ∧ (svcDispatch k par1 par2 id).sCurrentTask ∈ T ∧
      tWait (svcDispatch k par1 par2 id).mem (svcDispatch k par1 par2 id).sCurrentTask = 1) := by
  have hinv0 := hinv
  obtain ⟨hT, h0, _, _, _, hcur, hQ⟩ := hinv
  cases id with
  | DO_WAIT =>
    have hc : k.sCurrentTask ∈ T := hcur.resolve_left ha
    right
    refine ⟨invR_mk k _ T _ 0 _ hinv0 rfl rfl (Or.inr hc)
      (queueOf_same k _ rfl (fun _ => rfl) (fun _ => rfl)) ?_, hc, ?_⟩
    · exact qinv_wait T k.mem (queueOf k) k.sCurrentTask hT h0 hc hQ
    · exact tWait_set_tWait _ _ _
  | DO_SIGNAL =>
    left
    by_cases hs : tSignal k.mem par1 = 1
    · rw [svc_signal_armed k par1 par2 hs]
      refine invR_mk k _ T _ _ _ hinv0 rfl rfl hcur (queueOf_ready k _ rfl rfl) ?_
      exact qinv_signal T k.mem (queueOf k) k.sCurrentTask par1 hT h0 ha hs hQ
    · have h2 : tSignal k.mem par1 < 2 := Nat.mod_lt _ (by decide)
      rw [svc_signal_idle k par1 par2 (by omega)]
      exact hinv0
  | DO_RESCHEDULE =>
    left
    exact invR_mk k _ T _ _ _ hinv0 rfl rfl hcur
      (queueOf_same k _ rfl (fun _ => rfl) (fun _ => rfl)) hQ
  | DO_SIGNAL_EVENT =>
    left
    by_cases hd : (taskDequeue k.mem (k.event par1).eTaskQueue).2 = 0
    · rw [svc_signal_event_none k par1 par2 hd]
      exact invR_mk k _ T _ _ _ hinv0 rfl rfl hcur
        (queueOf_same k _ rfl (fun _ => upd_event_queue _ _ _ _ rfl) (fun _ => rfl)) hQ
    · rw [svc_signal_event_some k par1 par2 hd]
      refine invR_mk k _ T _ _ _ hinv0 rfl rfl hcur (queueOf_event_ready k _ par1 _ rfl rfl) ?_
      exact qinv_wake T k.mem (queueOf k) k.sCurrentTask hT h0 (.ev par1) (by simp) hd hQ
  | DO_WAIT_EVENT =>
    have hc : k.sCurrentTask ∈ T := hcur.resolve_left ha
    by_cases hf : (k.event par1).eFlagSet = 0
    · right
      rw [svc_wait_event_block k par1 par2 hf]
      refine ⟨invR_mk k _ T _ 0 _ hinv0 rfl rfl (Or.inr hc)
        (queueOf_event k _ par1 _ rfl rfl rfl) ?_, hc, ?_⟩
      · exact qinv_block_a T k.mem (queueOf k) k.sCurrentTask hT h0 hc (.ev par1) (by simp) hQ
      · obtain ⟨L, hq, hfl⟩ := hQ
        have hq1 : QueuesOk T (set_tWait k.mem k.sCurrentTask 1) (queueOf k) L := by
          refine queuesOk_frame T k.mem _ _ L ?_ hq
          intro u hu
          rw [set_tWait_other _ _ _ _ (tcb_cells hT hu hc).1]
        have hcell := (queuesOk_enqueue T _ (queueOf k) L hT h0 hq1 (.ev par1) k.sCurrentTask hc
          hfl.1).2 k.sCurrentTask hc
        exact (tWait_congr _ _ _ hcell).trans (tWait_set_tWait _ _ _)
    · left
      have e : svcDispatch k par1 par2 .DO_WAIT_EVENT = k := by
        simp only [svcDispatch]
        rw [if_neg hf]
      rw [e]
      exact hinv0
  | DO_RESUME_EVENT =>
    left
    refine invR_mk k _ T _ _ _ hinv0 rfl rfl hcur
      (queueOf_same k _ rfl (fun _ => upd_event_queue _ _ _ _ rfl) (fun _ => rfl)) ?_
    refine qinv_frame T k.mem _ (queueOf k) _ ?_ hQ
    intro u hu
    have := ha u hu
    simp only [sizeofTask] at this
    exact ⟨upd_other _ _ _ _ (by omega), upd_other _ _ _ _ (by omega)⟩
  | DO_QUEUE_MUTEX =>
    have hc : k.sCurrentTask ∈ T := hcur.resolve_left ha
    by_cases ho : (k.mutex par1).mOwner = 0
    · left
      have e1 : svcDispatch k par1 par2 .DO_QUEUE_MUTEX =
          { k with
            mutex := upd k.mutex par1 { k.mutex par1 with mOwner := k.sCurrentTask } } := by
        simp only [svcDispatch]
        rw [if_pos ho]
      rw [e1]
      exact invR_mk k _ T _ _ _ hinv0 rfl rfl hcur
        (queueOf_same k _ rfl (fun _ => rfl) (fun _ => upd_mutex_queue _ _ _ _ rfl)) hQ
    · right
      rw [svc_queue_owned k par1 par2 ho]
      refine ⟨invR_mk k _ T _ 0 _ hinv0 rfl rfl (Or.inr hc)
        (queueOf_mutex k _ par1 _ rfl rfl rfl) ?_, hc, ?_⟩
      · exact qinv_block_b T k.mem (queueOf k) k.sCurrentTask hT h0 hc (.mu par1) (by simp) hQ
      · exact tWait_set_tWait _ _ _
  | DO_UNQUEUE_MUTEX =>
    left
    by_cases hd : (k.mutex par1).mTaskQueue.tlHead = 0
    · rw [svc_unqueue_none k par1 par2 hd]
      exact invR_mk k _ T _ _ _ hinv0 rfl rfl hcur
        (queueOf_same k _ rfl (fun _ => rfl) (fun _ => upd_mutex_queue _ _ _ _ rfl)) hQ
    · rw [svc_unqueue_some k par1 par2 hd]
      refine invR_mk k _ T _ _ _ hinv0 rfl rfl hcur (queueOf_mutex_ready k _ par1 _ rfl rfl) ?_
      have hw := qinv_wake T k.mem (queueOf k) k.sCurrentTask hT h0 (.mu par1) (by simp)
        (by rw [taskDequeue_snd]; exact hd) hQ
      rw [taskDequeue_snd] at hw
      exact hw
  | DO_TRY_MUTEX =>
    left
    have hm : ∀ (v : Nat), ∀ u ∈ T, storeByte k.mem par2 v (u + 4) = k.mem (u + 4) ∧
        storeByte k.mem par2 v (u + 8) = k.mem (u + 8) := by
      intro v u hu
      have := ha u hu
      simp only [sizeofTask] at this
      exact ⟨storeByte_other _ _ _ _ (by omega), storeByte_other _ _ _ _ (by omega)⟩
    rw [svc_try_mutex]
    by_cases ho : (k.mutex par1).mOwner = 0
    · rw [if_pos ho]
      exact invR_mk k _ T _ _ _ hinv0 rfl rfl hcur
        (queueOf_same k _ rfl (fun _ => rfl) (fun _ => upd_mutex_queue _ _ _ _ rfl))
        (qinv_frame T k.mem _ (queueOf k) _ (hm 1) hQ)
    · rw [if_neg ho]
      exact invR_mk k _ T _ _ _ hinv0 rfl rfl hcur
        (queueOf_same k _ rfl (fun _ => rfl) (fun _ => rfl))
        (qinv_frame T k.mem _ (queueOf k) _ (hm 0) hQ)

theorem getNextTask_noidle (b : Build) (k : Kernel) (hb1 : b.USE_IDLE_TASK = false) :
    getNextTask b k =
      { k with
        mem := (pickQueue b k).1,
        sTaskList := (taskDequeue (pickQueue b k).1 (pickQueue b k).2).1,
        sLeavingTask := k.sCurrentTask,
        sCurrentTask := (taskDequeue (pickQueue b k).1 (pickQueue b k).2).2 } := by
  rw [getNextTask_eq]
  simp [hb1]

theorem pickQueue_noidle (b : Build) (k : Kernel) (hb2 : b.USE_IDLE = false) :
    pickQueue b k =
      if tWait k.mem k.sCurrentTask = 0 then taskEnqueue k.mem k.sTaskList k.sCurrentTask
      else (k.mem, k.sTaskList) := by
  simp [pickQueue, hb2]

/-- `getNextTask` without idle task: from a consistent state with a running
current task, or from a state whose current task has blocked, it leads to a
consistent state. -/
theorem getNextTask_inv (b : Build) (k : Kernel) (T : List Nat) (R : Nat)
    (hb1 : b.USE_IDLE_TASK = false) (hb2 : b.USE_IDLE = false) (hc : k.sCurrentTask ∈ T)
    (h : InvR k T R)
    (hR : (R = k.sCurrentTask ∧ tWait k.mem k.sCurrentTask = 0) ∨
          (R = 0 ∧ tWait k.mem k.sCurrentTask ≠ 0)) :
    InvR (getNextTask b k) T (getNextTask b k).sCurrentTask := by
  have h00 := h
  obtain ⟨hT, h0, _, _, _, _, hQ⟩ := h
  rw [getNextTask_noidle b k hb1, pickQueue_noidle b k hb2]
  rcases hR with ⟨hR, hw⟩ | ⟨hR, hw⟩
  · subst hR
    rw [if_pos hw]
    have h1 := qinv_yield T k.mem (queueOf k) k.sCurrentTask hT h0 hc hQ
    have h2 := qinv_pick T _ _ h0 h1
    rw [Function.update_same, Function.update_idem] at h2
    exact invR_mk k _ T _ _ _ h00 rfl rfl h2.2.symm.symm (queueOf_ready k _ rfl rfl) h2.1
  · subst hR
    rw [if_neg hw]
    have h2 := qinv_pick T _ _ h0 hQ
    exact invR_mk k _ T _ _ _ h00 rfl rfl h2.2 (queueOf_ready k _ rfl rfl) h2.1

theorem contextSwitch_fst (a : Arch) (k : Kernel) (c : Cpu) :
    (contextSwitch a k c).1 =
      { k with
        mem := if k.sLeavingTask ≠ 0 then
                 set_tPsp (save_context a (k.mem, c)).1 k.sLeavingTask
                   ((save_context a (k.mem, c)).2.r 0)
               else (save_context a (k.mem, c)).1 } := by
  simp only [contextSwitch]
  rw [(restore_context_regs a _ _ _).1]

theorem invR_frame (k k1 : Kernel) (T : List Nat) (R : Nat) (h : InvR k T R)
    (ht : k1.sTaskMemory = k.sTaskMemory) (hl : k1.sLockCount = k.sLockCount)
    (hc : k1.sCurrentTask = k.sCurrentTask) (hq : queueOf k1 = queueOf k)
    (hm : ∀ u ∈ T, k1.mem (u + 4) = k.mem (u + 4) ∧ k1.mem (u + 8) = k.mem (u + 8)) :
    InvR k1 T R :=
  invR_mk k k1 T R R _ h ht hl (hc ▸ h.2.2.2.2.2.1) hq
    (qinv_frame T k.mem k1.mem (queueOf k) R hm h.2.2.2.2.2.2)

/-- The context switch writes only the save area below the stack pointer and
the saved stack pointer of the leaving task. -/
theorem contextSwitch_cells (a : Arch) (k : Kernel) (c : Cpu) (T : List Nat) (hT : TcbSep T)
    (hl : k.sLeavingTask = 0 ∨ k.sLeavingTask ∈ T) (hs : StackOk T c) :
    ∀ u ∈ T, (contextSwitch a k c).1.mem (u + 4) = k.mem (u + 4) ∧
      (contextSwitch a k c).1.mem (u + 8) = k.mem (u + 8) := by
  have hsv : ∀ u ∈ T, ∀ d : Nat, d < 12 →
      (save_context a (k.mem, c)).1 (u + d) = k.mem (u + d) := by
    intro u hu d hd
    rcases save_context_cases a k.mem c (u + d) with ⟨i, hi, hx, _⟩ | ⟨_, hx⟩
    · exfalso
      have := hs u hu i hi
      simp only [sizeofTask] at this
      omega
    · exact hx
  intro u hu
  rw [contextSwitch_fst]
  by_cases hz : k.sLeavingTask = 0
  · simp only [hz, ne_eq, not_true_eq_false, if_false]
    exact ⟨hsv u hu 4 (by omega), hsv u hu 8 (by omega)⟩
  · have hlT := hl.resolve_left hz
    have hcell := tcb_cells hT hu hlT
    simp only [ne_eq, hz, not_false_eq_true, if_true, set_tPsp]
    rw [upd_other _ _ _ _ hcell.2.2.1, upd_other _ _ _ _ hcell.2.2.2]
    exact ⟨hsv u hu 4 (by omega), hsv u hu 8 (by omega)⟩

/-- The handler without idle task and with the scheduler unlocked: from a
consistent state with a running current task, or from a state whose current
task has blocked, it leads to a consistent state. -/
theorem sched_inv (b : Build) (a : Arch) (k : Kernel) (c : Cpu) (T : List Nat) (R : Nat)
    (hb1 : b.USE_IDLE_TASK = false) (hb2 : b.USE_IDLE = false) (hc : k.sCurrentTask ∈ T)
    (h : InvR k T R)
    (hR : (R = k.sCurrentTask ∧ tWait k.mem k.sCurrentTask = 0) ∨
          (R = 0 ∧ tWait k.mem k.sCurrentTask ≠ 0))
    (hs : StackOk T c) :
    InvR (YOS_SchedulerIrq b a (k, c)).1 T (YOS_SchedulerIrq b a (k, c)).1.sCurrentTask := by
  have hg := getNextTask_inv b k T R hb1 hb2 hc h hR
  have hlv : (getNextTask b k).sLeavingTask = k.sCurrentTask := by
    rw [getNextTask_noidle b k hb1]
  rw [sched_unlocked b a k c h.2.2.2.2.1]
  revert hg hlv
  generalize getNextTask b k = g
  intro hg hlv
  simp only [hb1, Bool.false_eq_true, if_false]
  split
  · split
    · have hcs := contextSwitch_cells a (resetSleepOnExit { g with irqMasked := false }) c T hg.1
        (Or.inr (by simpa [resetSleepOnExit, hlv] using hc)) hs
      have e := contextSwitch_fst a (resetSleepOnExit { g with irqMasked := false }) c
      refine invR_frame g _ T _ hg ?_ ?_ ?_ ?_ hcs
      · rw [e]; rfl
      · rw [e]; rfl
      · rw [e]; rfl
      · rw [e]; exact queueOf_same g _ rfl (fun _ => rfl) (fun _ => rfl)
    · exact invR_frame g _ T _ hg rfl rfl rfl
        (queueOf_same g _ rfl (fun _ => rfl) (fun _ => rfl)) (fun _ _ => ⟨rfl, rfl⟩)
  · exact invR_frame g _ T _ hg rfl rfl rfl
      (queueOf_same g _ rfl (fun _ => rfl) (fun _ => rfl)) (fun _ _ => ⟨rfl, rfl⟩)

theorem qinv_new (T : List Nat) (m m1 : Mem) (Q : QId → YOS_TaskList_t) (R n : Nat)
    (hT1 : TcbSep (n :: T)) (h0 : ∀ t ∈ T, t ≠ 0) (hn0 : n ≠ 0) (hnT : n ∉ T)
    (hR : R = 0 ∨ R ∈ T)
    (hm : ∀ u ∈ T, m1 (u + 4) = m (u + 4) ∧ m1 (u + 8) = m (u + 8))
    (hw : tWait m1 n = 0) (hs : tSignal m1 n = 0) (h : QInv T m Q R) :
    QInv (n :: T) (taskEnqueue m1 (Q .ready) n).1
      (Function.update Q .ready (taskEnqueue m1 (Q .ready) n).2) R := by
  obtain ⟨L, hq, hf1, hf2, hf3⟩ := qinv_frame T m m1 Q R hm h
  have h01 : ∀ t ∈ n :: T, t ≠ 0 := by
    intro t ht
    rcases List.mem_cons.1 ht with e | e
    · rw [e]; exact hn0
    · exact h0 t e
  have hq1 : QueuesOk (n :: T) m1 Q L :=
    ⟨hq.1, fun q t ht => List.mem_cons_of_mem _ (hq.2.1 q t ht), hq.2.2⟩
  have hfree : ∀ q, n ∉ L q := fun q hx => hnT (hq.2.1 q n hx)
  have hnR : n ≠ R := by
    rcases hR with e | e
    · rw [e]; exact hn0
    · intro e1; exact hnT (e1 ▸ e)
  obtain ⟨hq2, hc⟩ := queuesOk_enqueue (n :: T) m1 Q L hT1 h01 hq1 .ready n
    (List.mem_cons_self _ _) hfree
  refine ⟨_, hq2, ?_, ?_, ?_⟩
  · intro q hx
    rcases (mem_update_snoc L .ready q n R).1 hx with e | e
    · exact hf1 q e
    · exact hnR e.2.symm
  · intro u hu
    rw [mem_update_snoc, tWait_congr _ _ u (hc u hu)]
    rcases List.mem_cons.1 hu with e | e
    · subst e
      simp [hw]
    · have hun : u ≠ n := fun e1 => hnT (e1 ▸ e)
      rw [hf2 u e]
      simp [hun]
  · intro u hu h1
    rw [tSignal_congr _ _ u (hc u hu)] at h1
    rcases List.mem_cons.1 hu with e | e
    · subst e
      rw [hs] at h1
      exact absurd h1 (by decide)
    · have hun : u ≠ n := fun e1 => hnT (e1 ▸ e)
      refine ⟨?_, (hf3 u e h1).2⟩
      intro q hx
      rcases (mem_update_snoc L .ready q n u).1 hx with e1 | e1
      · exact (hf3 u e h1).1 q e1
      · exact hun e1.2

/-- A successful `createTask` whose request does not wrap changes no cell at or
above the old top and leaves both flags of the new TCB clear. -/
theorem createTask_above (b : Build) (k : Kernel) (code : Nat) (s : Int)
    (hs : s < 2 ^ 31) (hts : b.TASK_SIZE < 2 ^ 31) (hr : 0 ≤ roundedSize b s)
    (hfit : roundedSize b s + 12 ≤ k.sTaskMemory) (htop : k.sTaskMemory < 2 ^ 32)
    (hok : (createTask b k code s).2 ≠ 0) :
    ((createTask b k code s).2 : Int) = k.sTaskMemory - (roundedSize b s + 12) ∧
    (createTask b k code s).1.sTaskMemory = (createTask b k code s).2 ∧
    (∀ a, k.sTaskMemory ≤ a → (createTask b k code s).1.mem a = k.mem a) ∧
    tWait (createTask b k code s).1.mem (createTask b k code s).2 = 0 ∧
    tSignal (createTask b k code s).1.mem (createTask b k code s).2 = 0 := by
  have hgt := (createTask_ok_iff b k code s).1 hok
  obtain ⟨c1, c2, _, _⟩ := createTask_succ b k code s hgt
  have hrs := roundedSize_lt b s hs hts
  have hn : (ptr32 ((k.sTaskMemory : Int) - int32 (roundedSize b s + sizeofTask)) : Int)
      = k.sTaskMemory - (roundedSize b s + 12) := by
    simp only [ptr32, int32, sizeofTask]; push_cast; omega
  have hcnt : ((int32 (roundedSize b s + sizeofTask)).toNat : Int) ≤ roundedSize b s + 12 := by
    simp only [int32, sizeofTask]; push_cast; omega
  have h14 : ptr32 ((ptr32 ((k.sTaskMemory : Int) - 64) : Int) + 56) = k.sTaskMemory - 8 := by
    simp only [ptr32]; omega
  have h15 : ptr32 ((ptr32 ((k.sTaskMemory : Int) - 64) : Int) + 60) = k.sTaskMemory - 4 := by
    simp only [ptr32]; omega
  rw [c1, c2, createTask_mem b k code s hgt, h14, h15]
  generalize ptr32 ((k.sTaskMemory : Int) - int32 (roundedSize b s + sizeofTask)) = n at hn hgt ⊢
  generalize (int32 (roundedSize b s + sizeofTask)).toNat = cnt at hcnt ⊢
  generalize roundedSize b s = rs at hn hr hfit hrs hcnt
  refine ⟨hn, rfl, ?_, ?_, ?_⟩
  · intro a ha
    rw [set_tWait_other _ _ _ _ (by omega), set_tSignal_other _ _ _ _ (by omega)]
    simp only [set_tPsp]
    rw [upd_other _ _ _ _ (by omega), upd_other _ _ _ _ (by omega),
      upd_other _ _ _ _ (by omega), zeroFill_apply k.mem n cnt (by omega) a]
    rw [if_neg (by omega)]
  · rw [tWait_set_tWait]
  · rw [tSignal_set_tWait, tSignal_set_tSignal]

theorem YOS_AddTask_fst (b : Build) (k : Kernel) (code : Nat) (s : Int)
    (h : (createTask b k code s).2 ≠ 0) :
    (YOS_AddTask b k code s).1 =
      { readyEnqueue (createTask b k code s).1 (createTask b k code s).2 with
        sTaskNum := int32 ((createTask b k code s).1.sTaskNum + 1) } := by
  simp [YOS_AddTask, h, readyEnqueue]

theorem createTask_fields (b : Build) (k : Kernel) (code : Nat) (s : Int) :
    (createTask b k code s).1.sTaskList = k.sTaskList ∧
    (createTask b k code s).1.event = k.event ∧
    (createTask b k code s).1.mutex = k.mutex ∧
    (createTask b k code s).1.sCurrentTask = k.sCurrentTask ∧
    (createTask b k code s).1.sLockCount = k.sLockCount := by
  simp only [createTask]
  split <;> exact ⟨rfl, rfl, rfl, rfl, rfl⟩

/-- A successful add-task call whose request does not wrap keeps the state
consistent, the new task being one more created task. -/
theorem addTask_inv (b : Build) (k : Kernel) (T : List Nat) (code : Nat) (s : Int)
    (h : InvR k T k.sCurrentTask)
    (hs : s < 2 ^ 31) (hts : b.TASK_SIZE < 2 ^ 31) (hr : 0 ≤ roundedSize b s)
    (hfit : roundedSize b s + 12 ≤ k.sTaskMemory) (hok : (YOS_AddTask b k code s).2 ≠ 0) :
    InvR (YOS_AddTask b k code s).1 ((YOS_AddTask b k code s).2 :: T)
      (YOS_AddTask b k code s).1.sCurrentTask := by
  obtain ⟨hT, h0, htop, h32, hlock, hcur, hQ⟩ := h
  have hc : (createTask b k code s).2 ≠ 0 := by
    rwa [(YOS_AddTask_alloc b k code s).1] at hok
  obtain ⟨hn, hnt, hab, hw, hsg⟩ := createTask_above b k code s hs hts hr hfit h32 hc
  obtain ⟨f1, f2, f3, f4, f5⟩ := createTask_fields b k code s
  rw [(YOS_AddTask_alloc b k code s).1, YOS_AddTask_fst b k code s hc]
  revert hn hnt hab hw hsg f1 f2 f3 f4 f5 hc
  generalize (createTask b k code s).2 = n
  generalize (createTask b k code s).1 = K
  intro hc hn hnt hab hw hsg f1 f2 f3 f4 f5
  have hnT : n ∉ T := by
    intro hx
    have := htop n hx
    omega
  have hT1 : TcbSep (n :: T) := by
    refine List.pairwise_cons.2 ⟨?_, hT⟩
    intro t ht
    have := htop t ht
    simp only [sizeofTask]
    omega
  have hq := qinv_new T k.mem K.mem (queueOf k) k.sCurrentTask n hT1 h0 hc hnT hcur
    (fun u hu => ⟨hab _ (by have := htop u hu; omega), hab _ (by have := htop u hu; omega)⟩)
    hw hsg hQ
  refine ⟨hT1, ?_, ?_, ?_, ?_, ?_, ?_⟩
  · intro t ht
    rcases List.mem_cons.1 ht with e | e
    · rw [e]; exact hc
    · exact h0 t e
  · intro t ht
    show K.sTaskMemory ≤ t
    rcases List.mem_cons.1 ht with e | e
    · rw [e, hnt]
    · have := htop t e
      omega
  · show K.sTaskMemory < 2 ^ 32
    omega
  · show K.sLockCount = 0
    rw [f5]; exact hlock
  · show K.sCurrentTask = 0 ∨ K.sCurrentTask ∈ n :: T
    rw [f4]
    exact hcur.imp id (List.mem_cons_of_mem _)
  · have e : queueOf
        { readyEnqueue K n with sTaskNum := int32 (K.sTaskNum + 1) } =
        Function.update (queueOf k) .ready (taskEnqueue K.mem K.sTaskList n).2 :=
      queueOf_ready k _ f2 f3
    rw [e]
    show QInv (n :: T) (taskEnqueue K.mem K.sTaskList n).1 _ K.sCurrentTask
    rw [f1, f4]
    exact hq

theorem start_inv (a : Arch) (k : Kernel) (c : Cpu) (T : List Nat)
    (h : InvR k T k.sCurrentTask) (hc : k.sCurrentTask = 0) :
    InvR (startOsIrq a (k, c)).1 T (startOsIrq a (k, c)).1.sCurrentTask := by
  have e : (startOsIrq a (k, c)).1 =
      { k with CSR := k.CSR ||| 1,
               sTaskList := (taskDequeue k.mem k.sTaskList).1,
               sCurrentTask := (taskDequeue k.mem k.sTaskList).2 } := by
    simp only [startOsIrq]
    rw [(restore_context_regs a _ _ _).1]
  rw [e]
  have hQ := h.2.2.2.2.2.2
  rw [hc] at hQ
  have h2 := qinv_pick T _ _ h.2.1 hQ
  exact invR_mk k _ T _ _ _ h rfl rfl h2.2 (queueOf_ready k _ rfl rfl) h2.1

theorem init_inv (lo hi : Nat) (h : hi < 2 ^ 32) :
    InvR (YOS_InitOs kernel0 lo hi) [] (YOS_InitOs kernel0 lo hi).sCurrentTask := by
  refine ⟨List.Pairwise.nil, fun t ht => absurd ht (List.not_mem_nil t),
    fun t ht => absurd ht (List.not_mem_nil t), h, rfl, Or.inl rfl, fun _ => [], ⟨?_, ?_, ?_⟩,
    ⟨?_, ?_, ?_⟩⟩
  · intro q
    rw [holds_nil_iff]
    cases q <;> rfl
  · intro q t ht
    exact absurd ht (List.not_mem_nil t)
  · intro q q1 t ht
    exact absurd ht (List.not_mem_nil t)
  · intro q
    exact List.not_mem_nil _
  · intro t ht
    exact absurd ht (List.not_mem_nil t)
  · intro t ht
    exact absurd ht (List.not_mem_nil t)

/-- Every state of an atomic run is consistent with its list of created tasks,
the running task being the current task. -/
theorem reachAtomic_inv (b : Build) (a : Arch) (hb1 : b.USE_IDLE_TASK = false)
    (hb2 : b.USE_IDLE = false) (k : Kernel) (T : List Nat) (h : ReachAtomic b a k T) :
    InvR k T k.sCurrentTask := by
  induction h with
  | init lo hi h => exact init_inv lo hi h
  | add k T code size _ hs hts hr hfit hok ih =>
    exact addTask_inv b k T code size ih hs hts hr hfit hok
  | start k T c _ hc ih => exact start_inv a k c T ih hc
  | svc k T par1 par2 id _ ha hr ih =>
    rcases svc_post k T par1 par2 id ih ha with h1 | ⟨_, h2, h3⟩
    · exact h1
    · exfalso
      rcases hr with e | e
      · exact ih.2.1 _ (e ▸ h2) rfl
      · rw [e] at h3
        exact absurd h3 (by decide)
  | svc_block k T par1 par2 id c _ ha hr hc ih =>
    rcases svc_post k T par1 par2 id ih ha with h1 | ⟨h1, h2, h3⟩
    · exact absurd (invR_runs _ T h1) hr
    · exact sched_inv b a _ c T 0 hb1 hb2 h2 h1 (Or.inr ⟨rfl, by rw [h3]; decide⟩) hc
  | tick k T _ ih =>
    exact invR_frame k _ T _ ih rfl rfl rfl
      (queueOf_same k _ rfl (fun _ => rfl) (fun _ => rfl)) (fun _ _ => ⟨rfl, rfl⟩)
  | sched k T c _ hc hs ih =>
    have hcT : k.sCurrentTask ∈ T := ih.2.2.2.2.2.1.resolve_left hc
    have hw : tWait k.mem k.sCurrentTask = 0 := (invR_runs k T ih).resolve_left hc
    exact sched_inv b a k c T _ hb1 hb2 hcT ih (Or.inl ⟨rfl, hw⟩) hs

/-! ## Atomic runs keep the queues closed and the wait flags right -/

set_option maxRecDepth 100000

theorem seg_unique (m : Mem) (l : List Nat) :
    ∀ (l1 : List Nat) (h : Nat), seg m h l 0 → seg m h l1 0 → l = l1 := by
  induction l with
  | nil =>
    intro l1 h h1 h2
    cases l1 with
    | nil => rfl
    | cons t ts =>
      exfalso
      simp only [seg] at h1 h2
      exact h2.2.1 (h2.1 ▸ h1)
  | cons t ts ih =>
    intro l1 h h1 h2
    cases l1 with
    | nil =>
      exfalso
      simp only [seg] at h1 h2
      exact h1.2.1 (h1.1 ▸ h2)
    | cons t1 ts1 =>
      simp only [seg] at h1 h2
      have e : t = t1 := h1.1.symm.trans h2.1
      subst e
      rw [ih ts1 _ h1.2.2 h2.2.2]

theorem holds_unique (m : Mem) (q : YOS_TaskList_t) (l l1 : List Nat) (h : Holds m q l)
    (h1 : Holds m q l1) : l = l1 :=
  seg_unique m l l1 _ h.1 h1.1

/-- Queue closure on atomic runs.  In a build without idle task, in every state
of an atomic run, every queue (the ready queue, each event's and each mutex's
wait queue) is a well-formed duplicate-free list of created tasks, no task is
on two queues, and the current task (a created task when present) is on
none. -/
theorem atomic_queue_closure (b : Build) (a : Arch) (hb1 : b.USE_IDLE_TASK = false)
    (hb2 : b.USE_IDLE = false) (k : Kernel) (T : List Nat) (h : ReachAtomic b a k T) :
    ∃ L : QId → List Nat,
      (∀ q, Holds k.mem (queueOf k q) (L q)) ∧
      (∀ q, ∀ t ∈ L q, t ∈ T) ∧
      (∀ q q1 t, t ∈ L q → t ∈ L q1 → q = q1) ∧
      (∀ q, k.sCurrentTask ∉ L q) ∧
      (k.sCurrentTask = 0 ∨ k.sCurrentTask ∈ T) := by
  obtain ⟨_, _, _, _, _, hc, L, hq, hf⟩ := reachAtomic_inv b a hb1 hb2 k T h
  exact ⟨L, hq.1, hq.2.1, hq.2.2, hf.1, hc⟩

/-- The wait flag on atomic runs.  In a build without idle task, in every state
of an atomic run, the ready queue is a well-formed list `rl` of created tasks
and, for every created task `t`, `tWait` of `t` is 0 if and only if `t` is on
the ready queue or is the current task. -/
theorem atomic_wait_flag (b : Build) (a : Arch) (hb1 : b.USE_IDLE_TASK = false)
    (hb2 : b.USE_IDLE = false) (k : Kernel) (T : List Nat) (h : ReachAtomic b a k T) :
    ∃ rl : List Nat,
      Holds k.mem k.sTaskList rl ∧ (∀ t ∈ rl, t ∈ T) ∧
      ∀ t ∈ T, (tWait k.mem t = 0 ↔ (t ∈ rl ∨ t = k.sCurrentTask)) := by
  obtain ⟨_, _, _, _, _, _, L, hq, hf⟩ := reachAtomic_inv b a hb1 hb2 k T h
  exact ⟨L .ready, hq.1 .ready, hq.2.1 .ready, hf.2.1⟩

/-- An atomic run: init, two add-task calls, start, and the first task blocking
on an event (WAIT_EVENT followed by the handler). -/
theorem reachAtomic_ev : ReachAtomic buildNoIdle .v7m kernelEv [0x20000168, 0x200001B4] :=
  ReachAtomic.svc_block _ _ 0x300 0 .DO_WAIT_EVENT cpuTask
    (ReachAtomic.start _ _ cpuDemo
      (ReachAtomic.add _ _ 0x8000201 64
        (ReachAtomic.add _ _ 0x8000101 64 (ReachAtomic.init 0x20000000 0x20000200 (by decide))
          (by decide) (by decide) (by decide) (by decide) (by decide))
        (by decide) (by decide) (by decide) (by decide) (by decide))
      (by decide))
    (by decide) (by decide) (by decide)

/-! ## C13: queue closure -/

/-- C13 fails on the wake-up from sleep (build without idle task).  After init,
two add-task calls and start, both tasks call WAIT, each dispatch followed by
the handler: no task is current any more and the ready queue is empty.  SIGNAL
for the first and for the second task puts both on the ready queue, which is
well-formed.  The next handler run reads `tWait` through the null current
pointer and enqueues the null pointer: the first task becomes current, but the
ready-queue record is left with head `0x20000168` and tail 0, which holds no
list of tasks at all.  One tick and handler run later the first task has been
linked behind the null pointer (the word at address 4): the second task is
current, the ready queue is empty, and the first task, its wait flag 0, is on
no queue. -/
theorem C13_wakeup_malformed :
    sleepStep2.1.sCurrentTask = 0 ∧
    Holds sleepStep2.1.mem sleepStep2.1.sTaskList [] ∧
    kernelSignalled.sCurrentTask = 0 ∧
    Holds kernelSignalled.mem kernelSignalled.sTaskList [0x200001B4, 0x20000168] ∧
    wokenStep.1.sCurrentTask = 0x200001B4 ∧
    wokenStep.1.sTaskList = { tlHead := 0x20000168, tlTail := 0 } ∧
    (¬ ∃ l : List Nat, Holds wokenStep.1.mem (queueOf wokenStep.1 .ready) l) ∧
    kernelWokenNext.sCurrentTask = 0x20000168 ∧
    kernelWokenNext.mem 4 = 0x200001B4 ∧
    Holds kernelWokenNext.mem kernelWokenNext.sTaskList [] ∧
    tWait kernelWokenNext.mem 0x200001B4 = 0 := by
  have hs : seg wokenStep.1.mem (queueOf wokenStep.1 .ready).tlHead [0x20000168] 0 := by
    decide
  have ht : (queueOf wokenStep.1 .ready).tlTail = 0 := by decide
  refine ⟨by decide, by decide, by decide, by decide, by decide, by decide, ?_, by decide,
    by decide, by decide, by decide⟩
  rintro ⟨l, hl⟩
  have e := seg_unique _ _ _ _ hl.1 hs
  subst e
  rcases hl.2.2 with h | h
  · exact absurd h (by decide)
  · rw [ht] at h
    exact absurd h (by decide)

/-! ## C14: the wait flag -/

/-- C14 fails when SIGNAL_EVENT is dispatched between a blocking dispatch and
the handler run it pends (build without idle task).  After init, three add-task
calls (tasks A, B, C) and start, A blocks on the event at `0x300` (WAIT_EVENT
followed by the handler) and B runs.  B calls WAIT_EVENT on the event at
`0x400`; before the handler runs, SIGNAL_EVENT is dispatched for B's and then
for A's event, so that B is still current with wait flag 0 and the ready queue
holds C, B, A.  The handler then appends the current task B once more, which
cuts A off the list: afterwards C is current, the ready queue holds B alone,
both event queues are empty, and A has wait flag 0 although it is neither on
the ready queue nor the current task. -/
theorem C14_lost_task :
    kernelLostPending.sCurrentTask = 0x20000168 ∧
    tWait kernelLostPending.mem 0x20000168 = 0 ∧
    Holds kernelLostPending.mem kernelLostPending.sTaskList
      [0x2000011C, 0x20000168, 0x200001B4] ∧
    kernelLost.sCurrentTask = 0x2000011C ∧
    Holds kernelLost.mem kernelLost.sTaskList [0x20000168] ∧
    Holds kernelLost.mem (queueOf kernelLost (.ev 0x300)) [] ∧
    Holds kernelLost.mem (queueOf kernelLost (.ev 0x400)) [] ∧
    tWait kernelLost.mem 0x200001B4 = 0 ∧
    ¬ (tWait kernelLost.mem 0x200001B4 = 0 ↔
        (0x200001B4 ∈ [0x20000168] ∨ 0x200001B4 = kernelLost.sCurrentTask)) := by
  decide

end YOS
